import Mathlib

/-!
# Slew-Over: parameter engine and render pipeline

A shallow embedding of `Source/param/Param.{h,cpp}`, `Source/Processor.cpp`,
`Source/audio/PluginProcessor.cpp` and the functions of `Source/arch/Math.h` they call.

Conventions of the embedding

* `float` and `double` values are exact rationals (`ℚ`): comparisons, clamps and the four
  arithmetic operations are the exact ones, there is no rounding, no infinity and no NaN.
  The one rounding kept is the conversion of a `double` sample to `float` in the precision
  bridge, the function `toFloat` of the environment.
* Where the rounding of binary32, an infinity or NaN decides a property, the methods
  concerned are embedded a second time over `F32` (`ParamF32`, `jlimitF32`), every operation
  rounded on its own to nearest, ties to even; `Param.getNumSteps` is embedded over `F32`
  alone.
* `std::atomic<T>` members are plain fields; every method is a function from the state
  before the call to the state after it.
* `juce::NormalisableRange<float>` is a library type: its three mapping methods are fields
  of `Range`, so every theorem holds for whatever mapping a range carries.
* Calls into the host base class (`beginChangeGesture`, `endChangeGesture`,
  `setValueNotifyingHost`) are recorded in the `host` log of the parameter.
-/

/-- A value of the C++ type `float` (IEEE 754 binary32): a finite number with its exact
value, an infinity, or NaN. The sign of a zero is not kept. -/
inductive F32 where
  | finite (x : ℚ)
  | inf (negative : Bool)
  | nan
  deriving DecidableEq

namespace F32

/-- The nearest integer, a tie going to the even one. -/
def roundHalfEven (q : ℚ) : Int :=
  let f := Int.floor q
  let r := q - f
  if r < 1 / 2 then f else if 1 / 2 < r then f + 1 else if f % 2 = 0 then f else f + 1

/-- The number of halvings that take `n` below `2`, which is the binary logarithm of a
positive `n` rounded down; `n` units of fuel are enough. -/
def log2 : Nat → Nat → Nat
  | 0, _ => 0
  | fuel + 1, n => if n < 2 then 0 else log2 fuel (n / 2) + 1

/-- The exponent `e` with `2 ^ e ≤ x < 2 ^ (e + 1)` of a positive rational `x`. -/
def exponent (x : ℚ) : Int :=
  let e : Int := (log2 x.num.natAbs x.num.natAbs : Int) - (log2 x.den x.den : Int)
  if (2 : ℚ) ^ e ≤ x then e else e - 1

/-- The rounding of an exact result to binary32 in the default mode, to nearest with ties to
even: `24` significant bits, the spacing of the numbers below `2 ^ (-126)` staying
`2 ^ (-149)`, and an infinity for a rounded magnitude of `2 ^ 128` or more. -/
def round (x : ℚ) : F32 :=
  if x = 0 then finite 0
  else
    let e := max (exponent |x|) (-126)
    let ulp : ℚ := 2 ^ (e - 23)
    let y := (roundHalfEven (x / ulp) : ℚ) * ulp
    if |y| < 2 ^ (128 : Nat) then finite y else inf (decide (x < 0))

/-- The unary minus of `float`. -/
def neg : F32 → F32
  | finite x => finite (-x)
  | inf negative => inf (!negative)
  | nan => nan

/-- The operator `+` of `float`. -/
def add : F32 → F32 → F32
  | finite a, finite b => round (a + b)
  | finite _, inf t => inf t
  | inf s, finite _ => inf s
  | inf s, inf t => if s = t then inf s else nan
  | _, _ => nan

/-- The operator `-` of `float`. -/
def sub (a b : F32) : F32 := add a (neg b)

/-- The operator `*` of `float`. -/
def mul : F32 → F32 → F32
  | finite a, finite b => round (a * b)
  | finite a, inf t => if a = 0 then nan else inf (decide (a < 0) != t)
  | inf s, finite b => if b = 0 then nan else inf (s != decide (b < 0))
  | inf s, inf t => inf (s != t)
  | _, _ => nan

/-- The operator `/` of `float`; a zero divisor counts as positive. -/
def div : F32 → F32 → F32
  | finite a, finite b =>
    if b = 0 then (if a = 0 then nan else inf (decide (a < 0))) else round (a / b)
  | finite _, inf _ => finite 0
  | inf s, finite b => inf (s != decide (b < 0))
  | _, _ => nan

/-- The operator `<` of `float`: false when an operand is NaN. -/
def lt : F32 → F32 → Bool
  | finite a, finite b => decide (a < b)
  | finite _, inf t => !t
  | inf s, finite _ => s
  | inf s, inf t => s && !t
  | _, _ => false

/-- The operator `<=` of `float`: false when an operand is NaN. -/
def le : F32 → F32 → Bool
  | finite a, finite b => decide (a ≤ b)
  | finite _, inf t => !t
  | inf s, finite _ => s
  | inf s, inf t => s || !t
  | _, _ => false

/-- The operator `==` of `float`: false when an operand is NaN. -/
def eq : F32 → F32 → Bool
  | finite a, finite b => decide (a = b)
  | inf s, inf t => decide (s = t)
  | _, _ => false

end F32

namespace param

/-- The `enum class PID` of `Param.h`. -/
inductive PID where
  | Slew
  | FilterType
  | GainOut
  | HQ
  | NumParams
  deriving DecidableEq, Repr

/-- The integer a `PID` is cast to by `static_cast<int>`. -/
def PID.toInt : PID → Nat
  | .Slew => 0
  | .FilterType => 1
  | .GainOut => 2
  | .HQ => 3
  | .NumParams => 4

/-- The constant `NumParams` of `Param.h`. -/
def NumParams : Nat := PID.toInt PID.NumParams

/-- The function `toString(PID)` of `Param.cpp`. -/
def toString : PID → String
  | .GainOut => "Gain Out"
  | .HQ => "HQ"
  | .Slew => "Slew"
  | .FilterType => "Filter Type"
  | _ => "Invalid Parameter Name"

/-- The function `toID`: remove every space, then lower-case. -/
def toID (name : String) : String :=
  String.mk ((name.data.filter (fun c => c != ' ')).map Char.toLower)

/-- The library function `juce::jlimit (lowerLimit, upperLimit, valueToConstrain)` over exact
numbers; `jlimitF32` is the same function on `float` values, NaN and the infinities
included. -/
def jlimit (lowerLimit upperLimit valueToConstrain : ℚ) : ℚ :=
  if valueToConstrain < lowerLimit then lowerLimit
  else if upperLimit < valueToConstrain then upperLimit
  else valueToConstrain

/-- The library function `juce::jlimit` on `float` values,
`v < lo ? lo : (hi < v ? hi : v)`: both comparisons are false for a NaN, which is returned. -/
def jlimitF32 (lowerLimit upperLimit valueToConstrain : F32) : F32 :=
  if F32.lt valueToConstrain lowerLimit then lowerLimit
  else if F32.lt upperLimit valueToConstrain then upperLimit
  else valueToConstrain

/-- The type `Range = juce::NormalisableRange<float>`: the three public data members read by
`Param`, and the three mapping methods `Param` calls, kept as they are given. -/
structure Range where
  start : ℚ
  end_ : ℚ
  interval : ℚ
  convertTo0to1 : ℚ → ℚ
  convertFrom0to1 : ℚ → ℚ
  snapToLegalValue : ℚ → ℚ

/-- Modelled from the spec: `arch::State` (`arch/State.h`), the external flat key to value
store of a patch; `get` returns the entry stored under a key, if there is one. -/
abbrev State := List (String × ℚ)

/-- Modelled from the spec: `State::get(key)`, a null pointer when the key is absent. -/
def State.get (state : State) (key : String) : Option ℚ :=
  List.lookup key state

/-- Modelled from the spec: `State::set(key, value)`, which writes one entry; the newest
entry of a key is the one `get` finds. -/
def State.set (state : State) (key : String) (value : ℚ) : State :=
  (key, value) :: state

/-- The conversion `static_cast<int>` of a `float`: the fraction is dropped (rounding toward
zero); there is no result when the value does not fit a 32-bit `int`. -/
def castToInt (x : ℚ) : Option Int :=
  let t : Int := if x < 0 then -Int.floor (-x) else Int.floor x
  if -2147483648 ≤ t ∧ t < 2147483648 then some t else none

/-- What the parameter tells the host through its `juce::AudioProcessorParameter` base. -/
inductive HostSignal where
  | gestureBegin
  | valueChanged (newValue : ℚ)
  | gestureEnd
  deriving DecidableEq, Repr

/-- The `enum class Param::Type`. -/
inductive ParamType where
  | Bool
  | Int
  | Float
  | NumTypes
  deriving DecidableEq, Repr

/-- The data members of `class Param` (the display unit, which no method below reads, is
left out), and the log of the signals sent to the host. -/
structure Param where
  id : PID
  range : Range
  valDenormDefault : ℚ
  valNorm : ℚ
  maxModDepth : ℚ
  valMod : ℚ
  modBias : ℚ
  valToStr : ℚ → String
  strToVal : String → ℚ
  locked : Bool
  inGesture : Bool
  modDepthLocked : Bool
  host : List HostSignal

namespace Param

/-- The constant `Param::BiasEps = .000001f`. -/
def BiasEps : ℚ := 1 / 1000000

/-- The constructor `Param::Param`. -/
def ctor (pID : PID) (_range : Range) (_valDenormDefault : ℚ)
    (_valToStr : ℚ → String) (_strToVal : String → ℚ) : Param :=
  let valDenormDefault := _range.snapToLegalValue _valDenormDefault
  let valNorm := _range.convertTo0to1 valDenormDefault
  { id := pID
    range := _range
    valDenormDefault := valDenormDefault
    valNorm := valNorm
    maxModDepth := 0
    valMod := valNorm
    modBias := 1 / 2
    valToStr := _valToStr
    strToVal := _strToVal
    locked := false
    inGesture := false
    modDepthLocked := false
    host := [] }

/-- The method `Param::getValue`. -/
def getValue (p : Param) : ℚ := p.valNorm

/-- The method `Param::getValueDenorm`. -/
def getValueDenorm (p : Param) : ℚ := p.range.convertFrom0to1 p.getValue

/-- The method `Param::isLocked`. -/
def isLocked (p : Param) : Bool := p.locked

/-- The method `Param::setLocked`. -/
def setLocked (p : Param) (e : Bool) : Param := { p with locked := e }

/-- The method `Param::switchLock`. -/
def switchLock (p : Param) : Param := p.setLocked (!p.isLocked)

/-- The method `Param::getMaxModDepth`. -/
def getMaxModDepth (p : Param) : ℚ := p.maxModDepth

/-- The method `Param::setMaxModDepth`. -/
def setMaxModDepth (p : Param) (v : ℚ) : Param :=
  if p.isLocked then p
  else { p with maxModDepth := jlimit (-1) 1 v }

/-- The method `Param::setValue`. -/
def setValue (p : Param) (normalized : ℚ) : Param :=
  if p.isLocked then p
  else if !p.modDepthLocked then { p with valNorm := normalized }
  else
    let p0 := p.valNorm
    let p1 := normalized
    let d0 := p.getMaxModDepth
    let d1 := d0 - p1 + p0
    setMaxModDepth { p with valNorm := p1 } d1

/-- The base-class method `setValueNotifyingHost`: `setValue`, then the listeners are told. -/
def setValueNotifyingHost (p : Param) (newValue : ℚ) : Param :=
  let q := p.setValue newValue
  { q with host := q.host ++ [HostSignal.valueChanged newValue] }

/-- The base-class method `beginChangeGesture`. -/
def beginChangeGesture (p : Param) : Param :=
  { p with host := p.host ++ [HostSignal.gestureBegin] }

/-- The base-class method `endChangeGesture`. -/
def endChangeGesture (p : Param) : Param :=
  { p with host := p.host ++ [HostSignal.gestureEnd] }

/-- The method `Param::isInGesture`. -/
def isInGesture (p : Param) : Bool := p.inGesture

/-- The method `Param::setValueWithGesture`. -/
def setValueWithGesture (p : Param) (norm : ℚ) : Param :=
  if p.isInGesture then p
  else ((p.beginChangeGesture).setValueNotifyingHost norm).endChangeGesture

/-- The method `Param::beginGesture`. -/
def beginGesture (p : Param) : Param :=
  beginChangeGesture { p with inGesture := true }

/-- The method `Param::endGesture`. -/
def endGesture (p : Param) : Param :=
  endChangeGesture { p with inGesture := false }

/-- The method `Param::biased` over exact numbers; it reads no member of the parameter.
`ParamF32.biased` is the same method with every operation rounded to binary32. -/
def biased (start end_ bias x : ℚ) : ℚ :=
  let r := end_ - start
  if r = 0 then 0
  else
    let a2 := 2 * bias
    let aM := 1 - bias
    let aR := r * bias
    start + aR * x / (aM - x + a2 * x)

/-- The method `Param::calcValModOf` over exact numbers; `ParamF32.calcValModOf` is the same
method with every operation rounded to binary32. -/
def calcValModOf (p : Param) (macro_ : ℚ) : ℚ :=
  let norm := p.getValue
  let mmd := p.maxModDepth
  let pol : ℚ := if mmd > 0 then 1 else -1
  let md := mmd * pol
  let mdSkew := biased 0 md p.modBias macro_
  let mod := mdSkew * pol
  jlimit 0 1 (norm + mod)

/-- The specification of `calcValModOf`, in the words of the design document: `pol` is the
sign of the maximum modulation depth, `+1` when it is zero; the depth magnitude is the depth
times `pol`; the skewed value is `biased (0, magnitude, bias, macro)`; the modulation is the
skewed value times `pol`; the result is base value plus modulation, clamped to `[0, 1]`. -/
def calcValModOfSpec (p : Param) (macro_ : ℚ) : ℚ :=
  let pol : ℚ := if p.maxModDepth > 0 then 1 else if p.maxModDepth < 0 then -1 else 1
  let depthMagnitude := p.maxModDepth * pol
  let skewed := biased 0 depthMagnitude p.modBias macro_
  let mod := skewed * pol
  max 0 (min 1 (p.valNorm + mod))

/-- The method `Param::getValMod`. -/
def getValMod (p : Param) : ℚ := p.valMod

/-- The method `Param::getValModDenorm`. -/
def getValModDenorm (p : Param) : ℚ := p.range.convertFrom0to1 p.valMod

/-- The method `Param::setModBias`. -/
def setModBias (p : Param) (b : ℚ) : Param :=
  if p.isLocked then p
  else { p with modBias := jlimit BiasEps (1 - BiasEps) b }

/-- The method `Param::getModBias`. -/
def getModBias (p : Param) : ℚ := p.modBias

/-- The method `Param::setModDepthLocked`. -/
def setModDepthLocked (p : Param) (e : Bool) : Param := { p with modDepthLocked := e }

/-- The method `Param::setDefaultValue`. -/
def setDefaultValue (p : Param) (norm : ℚ) : Param :=
  { p with valDenormDefault := p.range.convertFrom0to1 norm }

/-- The method `Param::modulate`. -/
def modulate (p : Param) (macro_ : ℚ) : Param :=
  { p with valMod := p.calcValModOf macro_ }

/-- The method `Param::getDefaultValue`. -/
def getDefaultValue (p : Param) : ℚ := p.range.convertTo0to1 p.valDenormDefault

/-- The key prefix `"params/" + toID(toString(id))` of `savePatch` and `loadPatch`. -/
def idStr (p : Param) : String := "params/" ++ toID (toString p.id)

/-- The method `Param::loadPatch`. -/
def loadPatch (p : Param) (state : State) : Param :=
  let lckd := p.isLocked
  if !lckd then
    let p1 :=
      match state.get (p.idStr ++ "/value") with
      | some val =>
        let legalVal := p.range.snapToLegalValue val
        let valD := p.range.convertTo0to1 legalVal
        p.setValueNotifyingHost valD
      | none => p
    let p2 :=
      match state.get (p.idStr ++ "/maxmoddepth") with
      | some val => p1.setMaxModDepth val
      | none => p1
    match state.get (p.idStr ++ "/modbias") with
    | some val => p2.setModBias val
    | none => p2
  else p

/-- The method `Param::getType`. -/
def getType (p : Param) : ParamType :=
  let interval := p.range.interval
  let stepped := decide (interval = 1)
  if !stepped then ParamType.Float
  else if p.range.start = 0 ∧ p.range.end_ = 1 then ParamType.Bool
  else ParamType.Int

/-- The method `Param::savePatch`; the store after the three writes is returned. -/
def savePatch (p : Param) (state : State) : State :=
  let v := p.range.convertFrom0to1 p.getValue
  let state1 := state.set (p.idStr ++ "/value") v
  let mdd := p.getMaxModDepth
  let state2 := state1.set (p.idStr ++ "/maxmoddepth") mdd
  let mb := p.getModBias
  state2.set (p.idStr ++ "/modbias") mb

/-- The method `Param::getText`. -/
def getText (p : Param) (norm : ℚ) : String :=
  p.valToStr (p.range.snapToLegalValue (p.range.convertFrom0to1 norm))

/-- The method `Param::getValForTextDenorm`. -/
def getValForTextDenorm (p : Param) (text : String) : ℚ :=
  p.strToVal text

end Param

/-- The `float` members of `class Param` the setters write and the modulation reads, with
the two flags the setters read: the state of a parameter in binary32. -/
structure ParamF32 where
  valNorm : F32
  maxModDepth : F32
  modBias : F32
  locked : Bool
  modDepthLocked : Bool
  deriving DecidableEq

namespace ParamF32

/-- The constant `Param::BiasEps = .000001f`: the binary32 number nearest to `0.000001`. -/
def BiasEps : F32 := F32.round (1 / 1000000)

/-- The constructor `Param::Param`, for the members kept: `valNorm` is what the range made
of the default. -/
def ctor (valNorm : F32) : ParamF32 :=
  { valNorm := valNorm
    maxModDepth := F32.finite 0
    modBias := F32.round (1 / 2)
    locked := false
    modDepthLocked := false }

/-- The method `Param::setLocked`. -/
def setLocked (p : ParamF32) (e : Bool) : ParamF32 := { p with locked := e }

/-- The method `Param::setModDepthLocked`. -/
def setModDepthLocked (p : ParamF32) (e : Bool) : ParamF32 := { p with modDepthLocked := e }

/-- The method `Param::setMaxModDepth`. -/
def setMaxModDepth (p : ParamF32) (v : F32) : ParamF32 :=
  if p.locked then p
  else { p with maxModDepth := jlimitF32 (F32.finite (-1)) (F32.finite 1) v }

/-- The method `Param::setValue`. -/
def setValue (p : ParamF32) (normalized : F32) : ParamF32 :=
  if p.locked then p
  else if !p.modDepthLocked then { p with valNorm := normalized }
  else
    let p0 := p.valNorm
    let p1 := normalized
    let d0 := p.maxModDepth
    let d1 := F32.add (F32.sub d0 p1) p0
    setMaxModDepth { p with valNorm := p1 } d1

/-- The method `Param::setModBias`. -/
def setModBias (p : ParamF32) (b : F32) : ParamF32 :=
  if p.locked then p
  else { p with modBias := jlimitF32 BiasEps (F32.sub (F32.finite 1) BiasEps) b }

/-- The method `Param::biased`, every operation rounded. -/
def biased (start end_ bias x : F32) : F32 :=
  let r := F32.sub end_ start
  if F32.eq r (F32.finite 0) then F32.finite 0
  else
    let a2 := F32.mul (F32.finite 2) bias
    let aM := F32.sub (F32.finite 1) bias
    let aR := F32.mul r bias
    F32.add start (F32.div (F32.mul aR x) (F32.add (F32.sub aM x) (F32.mul a2 x)))

/-- The method `Param::calcValModOf`, every operation rounded. -/
def calcValModOf (p : ParamF32) (macro_ : F32) : F32 :=
  let norm := p.valNorm
  let mmd := p.maxModDepth
  let pol := if F32.lt (F32.finite 0) mmd then F32.finite 1 else F32.finite (-1)
  let md := F32.mul mmd pol
  let mdSkew := biased (F32.finite 0) md p.modBias macro_
  let mod := F32.mul mdSkew pol
  jlimitF32 (F32.finite 0) (F32.finite 1) (F32.add norm mod)

end ParamF32

/-- A binary32 state for examples: base value `0.25`, then `setMaxModDepth (0.5)` and
`setModBias (0)`, which is clamped to `BiasEps`. -/
def ParamF32.example : ParamF32 :=
  ((ParamF32.ctor (F32.finite (1 / 4))).setMaxModDepth (F32.finite (1 / 2))).setModBias
    (F32.finite 0)

/-- A binary32 state for examples: base value `0.75`, then `setMaxModDepth (-0.5)` and
`setModBias (0)`, which is clamped to `BiasEps`. -/
def ParamF32.exampleNeg : ParamF32 :=
  ((ParamF32.ctor (F32.finite (3 / 4))).setMaxModDepth (F32.finite (-1 / 2))).setModBias
    (F32.finite 0)

/-- One call of a public mutator of `Param`, with its argument. -/
inductive Op where
  | setValue (normalized : ℚ)
  | setValueWithGesture (norm : ℚ)
  | beginGesture
  | endGesture
  | setMaxModDepth (v : ℚ)
  | setModBias (b : ℚ)
  | setLocked (e : Bool)
  | switchLock
  | setModDepthLocked (e : Bool)
  | setDefaultValue (norm : ℚ)
  | modulate (macro_ : ℚ)
  | loadPatch (state : State)

/-- The state after one call. -/
def Op.apply (p : Param) : Op → Param
  | .setValue normalized => p.setValue normalized
  | .setValueWithGesture norm => p.setValueWithGesture norm
  | .beginGesture => p.beginGesture
  | .endGesture => p.endGesture
  | .setMaxModDepth v => p.setMaxModDepth v
  | .setModBias b => p.setModBias b
  | .setLocked e => p.setLocked e
  | .switchLock => p.switchLock
  | .setModDepthLocked e => p.setModDepthLocked e
  | .setDefaultValue norm => p.setDefaultValue norm
  | .modulate macro_ => p.modulate macro_
  | .loadPatch state => p.loadPatch state

/-- The state after a sequence of calls, first call first. -/
def Param.run (p : Param) (ops : List Op) : Param :=
  ops.foldl Op.apply p

/-- A range with the mappings the library gives a `NormalisableRange` built from
`(start, end, interval)` alone (skew 1, no custom mapping); used for concrete examples. -/
def Range.linear (start end_ interval : ℚ) : Range :=
  { start := start
    end_ := end_
    interval := interval
    convertTo0to1 := fun v => jlimit 0 1 ((v - start) / (end_ - start))
    convertFrom0to1 := fun proportion => start + (end_ - start) * jlimit 0 1 proportion
    snapToLegalValue := fun v =>
      let w := if interval > 0
        then start + interval * (Int.floor ((v - start) / interval + 1 / 2) : ℚ)
        else v
      if w ≤ start ∨ end_ ≤ start then start else if w ≥ end_ then end_ else w }

/-- A concrete parameter for examples: the `Slew` parameter as `Params::Params` builds it,
range `[0, 127]`, default `36`, with trivial text conversions. -/
def Param.example : Param :=
  Param.ctor PID.Slew (Range.linear 0 127 0) 36 (fun _ => "") (fun _ => 0)

end param

namespace math

/-- The function `math::noteInFreqHz2` of `Math.h`, with `std::exp2` handed in. -/
def noteInFreqHz2 (exp2 : ℚ → ℚ) (note rootNote masterTune : ℚ) : ℚ :=
  exp2 ((note - rootNote) * (8333333333 / 100000000000)) * masterTune

/-- The library function `std::round`: nearest integer, halves away from zero. -/
def stdRound (x : ℚ) : Int :=
  if x < 0 then -Int.floor (-x + 1 / 2) else Int.floor (x + 1 / 2)

/-- The function `math::isDigit` of `Math.h`. -/
def isDigit (chr : Char) : Bool := decide (chr ≥ '0') && decide (chr ≤ '9')

/-- The function `math::isLetter` of `Math.h`. -/
def isLetter (chr : Char) : Bool :=
  (decide (chr ≥ 'a') && decide (chr ≤ 'z')) || (decide (chr ≥ 'A') && decide (chr ≤ 'Z'))

/-- The function `math::getDigit` of `Math.h`. -/
def getDigit (chr : Char) : Int := (chr.toNat : Int) - (('0' : Char).toNat : Int)

/-- The function `math::pitchclassToString` of `Math.h`. -/
def pitchclassToString (pitchclass : Int) : String :=
  if pitchclass = 0 then "C"
  else if pitchclass = 1 then "C#"
  else if pitchclass = 2 then "D"
  else if pitchclass = 3 then "D#"
  else if pitchclass = 4 then "E"
  else if pitchclass = 5 then "F"
  else if pitchclass = 6 then "F#"
  else if pitchclass = 7 then "G"
  else if pitchclass = 8 then "G#"
  else if pitchclass = 9 then "A"
  else if pitchclass = 10 then "A#"
  else if pitchclass = 11 then "B"
  else "C"

end math

namespace param

/-- The data members of `struct Params`; the flag is a `std::atomic<float>` in the source. -/
structure Params where
  params : List Param
  modDepthLocked : ℚ

/-- The operators `Params::operator()(PID)` and `Params::operator[](PID)`: the entry at
position `static_cast<int>(p)` of the vector; there is no result past its end. -/
def Params.get (ps : Params) (p : PID) : Option Param :=
  ps.params.get? p.toInt

/-- The function `processMacroMod`, whose body is empty. -/
def processMacroMod (ps : Params) : Params := ps

/-- The method `Params::isModDepthLocked`: the stored `float` read as a `bool`. -/
def Params.isModDepthLocked (ps : Params) : Bool :=
  decide (ps.modDepthLocked ≠ 0)

/-- The method `Params::setModDepthLocked`: the `bool` is stored as a `float`, and handed to
every member. -/
def Params.setModDepthLocked (ps : Params) (e : Bool) : Params :=
  { params := ps.params.map fun p => p.setModDepthLocked e
    modDepthLocked := if e then 1 else 0 }

/-- The method `Params::switchModDepthLocked`. -/
def Params.switchModDepthLocked (ps : Params) : Params :=
  ps.setModDepthLocked (!ps.isModDepthLocked)

/-- The method `Params::savePatch`; the store after all the writes is returned. -/
def Params.savePatch (ps : Params) (state : State) : State :=
  let state1 := ps.params.foldl (fun st param => param.savePatch st) state
  state1.set ("params" ++ "/moddepthlocked") (if ps.isModDepthLocked then 1 else 0)

/-- The method `Params::loadPatch`: the stored flag is converted with `static_cast<int>` and
compared with zero, then every member loads its own entries; there is no result when the
conversion leaves the range of `int`. -/
def Params.loadPatch (ps : Params) (state : State) : Option Params :=
  match state.get ("params" ++ "/moddepthlocked") with
  | some mdl =>
    match castToInt mdl with
    | none => none
    | some i =>
      let ps1 := ps.setModDepthLocked (decide (i ≠ 0))
      some { ps1 with params := ps1.params.map fun param => param.loadPatch state }
  | none => some { ps with params := ps.params.map fun param => param.loadPatch state }

/-- The method `Params::numParams`. -/
def Params.numParams (ps : Params) : Nat := ps.params.length

/-- What `Params::Params` takes from outside the files embedded here: the four ranges
`makeRange::lin (0, 127)`, `makeRange::stepped (0, 1)`,
`makeRange::withCentre (PPDGainOutMin, PPDGainOutMax, 0)` and `makeRange::toggle ()`
(`arch/Range.h`), and the pair of text conversions `makeParam` selects for a parameter by
its unit. -/
structure ParamsEnv where
  lin : Range
  stepped : Range
  withCentre : Range
  toggle : Range
  valToStrFunc : PID → ℚ → String
  strToValFunc : PID → String → ℚ

/-- The function `makeParam (id, valDenormDefault, range, unit)`: the `switch` over the unit
selects the two text conversions, and a `Param` is constructed. -/
def makeParam (penv : ParamsEnv) (id : PID) (valDenormDefault : ℚ) (range : Range) : Param :=
  Param.ctor id range valDenormDefault (penv.valToStrFunc id) (penv.strToValFunc id)

/-- The constructor `Params::Params`; the registration of every member with the host
(`audioProcessor.addParameter`) is left out. -/
def Params.ctor (penv : ParamsEnv) : Params :=
  { params :=
      [ makeParam penv PID.Slew 36 penv.lin,
        makeParam penv PID.FilterType 0 penv.stepped,
        makeParam penv PID.GainOut 0 penv.withCentre,
        makeParam penv PID.HQ 0 penv.toggle ]
    modDepthLocked := 0 }

/-- A concrete choice of ranges and text conversions for examples. -/
def ParamsEnv.example : ParamsEnv :=
  { lin := Range.linear 0 127 0
    stepped := Range.linear 0 1 1
    withCentre := Range.linear (-12) 12 0
    toggle := Range.linear 0 1 1
    valToStrFunc := fun _ _ => ""
    strToValFunc := fun _ _ => 0 }

/-- The library constructor `juce::String (int)`: the decimal digits of the number, after a
`-` when it is negative. -/
def intToString (i : Int) : String := Int.repr i

/-- The library method `juce::String::toLowerCase`. -/
def toLowerCase (s : String) : String := String.mk (s.data.map Char.toLower)

/-- The library method `juce::String::substring (startIndex)`. -/
def substring (s : String) (startIndex : Int) : String :=
  String.mk (s.data.drop startIndex.toNat)

/-- The library operator `juce::String::operator[] (index)`. -/
def charAt (s : String) (index : Int) : Char := s.data.getD index.toNat (Char.ofNat 0)

namespace strToVal

/-- The local `enum class State` of `strToVal::note`. -/
inductive NoteState where
  | Pitchclass
  | FlatOrSharp
  | Parse
  | numStates
  deriving DecidableEq, Repr

/-- The chain `if (chr == 'c') val = C; else if (chr == 'd') val = D; ...` of the state
`Pitchclass`, with the values of the local `enum pitchclass`; no value for another
character, where the source returns `69`. -/
def pitchclassOf (chr : Char) : Option ℚ :=
  if chr = 'c' then some 0
  else if chr = 'd' then some 2
  else if chr = 'e' then some 4
  else if chr = 'f' then some 5
  else if chr = 'g' then some 7
  else if chr = 'a' then some 9
  else if chr = 'b' then some 11
  else none

/-- The loop `while (val < 0.f) val += 12.f` of the state `Parse`; there is no result when
the fuel runs out before the condition fails. -/
def raiseOctaves : Nat → ℚ → Option ℚ
  | fuel, val =>
    if val < 0 then
      match fuel with
      | 0 => none
      | fuel + 1 => raiseOctaves fuel (val + 12)
    else some val

/-- The loop `for (i = 0; i < text.length (); ++i)` of `strToVal::note` together with the
`return juce::jlimit (0.f, 127.f, val + 12.f)` that follows it; `p` is the function
`parse ()` returns. There is no result when the fuel runs out before the loop is left. -/
def noteLoop (p : String → ℚ → ℚ) (text : String) : Nat → Int → NoteState → ℚ → Option ℚ
  | fuel, i, state, val =>
    if i < text.length then
      match fuel with
      | 0 => none
      | fuel + 1 =>
        let chr := charAt text i
        match state with
        | NoteState.Pitchclass =>
          match pitchclassOf chr with
          | some val1 => noteLoop p text fuel (i + 1) NoteState.FlatOrSharp val1
          | none => some 69
        | NoteState.FlatOrSharp =>
          if chr = '#' then noteLoop p text fuel (i + 1) NoteState.Parse (val + 1)
          else if chr = 'b' then noteLoop p text fuel (i + 1) NoteState.Parse (val - 1)
          else noteLoop p text fuel (i - 1 + 1) NoteState.Parse val
        | NoteState.Parse =>
          let newVal := p (substring text i) (-1)
          if newVal = -1 then some 69
          else
            let val1 := val + 12 + newVal * 12
            raiseOctaves (Int.toNat (Int.ceil (-val1 / 12))) val1
        | NoteState.numStates => some 69
    else some (jlimit 0 127 (val + 12))

/-- The function `strToVal::note ()` returns; `p` is the function `parse ()` returns, whose
`fx::Parser` lies outside the files embedded here. The loop gets `text.length () + 1` units
of fuel. -/
def note (p : String → ℚ → ℚ) (txt : String) : Option ℚ :=
  let text := toLowerCase txt
  let val := p text (-1)
  if val ≥ 0 ∧ val < 128 then some val
  else noteLoop p text (text.length + 1) 0 NoteState.Pitchclass val

/-- The value of a run of decimal digits, most significant digit first. -/
def digitsValue (ds : List Char) : Int :=
  ds.foldl (fun acc c => 10 * acc + math.getDigit c) 0

/-- An optionally signed decimal integer read from a text; no value for any other text. -/
def parseInt (txt : String) : Option Int :=
  match txt.data with
  | [] => none
  | c :: ds =>
    if c = '-' then
      if ds ≠ [] ∧ ds.all math.isDigit = true then some (-digitsValue ds) else none
    else if c = '+' then
      if ds ≠ [] ∧ ds.all math.isDigit = true then some (digitsValue ds) else none
    else if (c :: ds).all math.isDigit = true then some (digitsValue (c :: ds))
    else none

/-- Modelled from the spec: a numeric sub-parser for examples, in place of the function
`parse ()` returns: an optionally signed decimal integer is accepted and its value returned,
any other text gives the alternate value. -/
def parseDecimal (txt : String) (altVal : ℚ) : ℚ :=
  match parseInt txt with
  | some k => (k : ℚ)
  | none => altVal

end strToVal

namespace valToStr

/-- The function `valToStr::note ()` returns; there is no result when the rounded value does
not fit an `int`. -/
def note (v : ℚ) : Option String :=
  if v ≥ 0 then
    match castToInt ((math.stdRound v : Int) : ℚ) with
    | none => none
    | some note =>
      let octave := Int.tdiv note 12 - 1
      let noteName := Int.tmod note 12
      some (math.pitchclassToString noteName ++ intToString octave)
  else some "?"

end valToStr

end param

namespace audio

open param

/-- The sample data of a buffer, one list per channel. -/
abbrev Samples := List (List ℚ)

/-- A `juce::AudioBuffer<double>`: its channel count, its sample count and its samples. -/
structure AudioBufferD where
  numChannels : Nat
  numSamples : Nat
  samples : Samples
  deriving DecidableEq

/-- Zero the entries of a channel whose index lies in `[startSample, startSample + num)`;
`i` is the index of the head of the list. -/
def clearFrom (startSample num : Nat) : Nat → List ℚ → List ℚ
  | _, [] => []
  | i, x :: xs =>
    (if startSample ≤ i ∧ i < startSample + num then 0 else x)
      :: clearFrom startSample num (i + 1) xs

/-- Apply `f` to the entry at position `n` of a list, when there is one. -/
def modifyAt {α : Type} (f : α → α) : Nat → List α → List α
  | _, [] => []
  | 0, x :: xs => f x :: xs
  | n + 1, x :: xs => x :: modifyAt f n xs

/-- Apply `f` to the entries of a list whose index is below `bound`; `i` is the index of the
head of the list. -/
def mapBelow {α : Type} (bound : Nat) (f : α → α) : Nat → List α → List α
  | _, [] => []
  | i, x :: xs => (if i < bound then f x else x) :: mapBelow bound f (i + 1) xs

/-- A `juce::AudioBuffer<float>`: its channel count, its sample count and its samples. -/
structure AudioBufferF where
  numChannels : Nat
  numSamples : Nat
  samples : Samples
  deriving DecidableEq

/-- The buffer holds `numChannels` channels of `numSamples` samples each. -/
def AudioBufferF.WellFormed (b : AudioBufferF) : Prop :=
  b.samples.length = b.numChannels ∧ ∀ row ∈ b.samples, row.length = b.numSamples

/-- The conversion `static_cast<double>` of a `float`, which is exact. -/
def toDouble (x : ℚ) : ℚ := x

/-- The buffer holds `numChannels` channels of `numSamples` samples each. -/
def AudioBufferD.WellFormed (b : AudioBufferD) : Prop :=
  b.samples.length = b.numChannels ∧ ∀ row ∈ b.samples, row.length = b.numSamples

/-- The double-precision buffer with the channel count and the sample count of a
single-precision buffer, whose sample `(ch, s)` is sample `(ch, s)` of that buffer converted
to `double`. -/
def AudioBufferF.toD (b : AudioBufferF) : AudioBufferD :=
  { numChannels := b.numChannels
    numSamples := b.numSamples
    samples := b.samples.map (List.map toDouble) }

/-- The library method `AudioBuffer::setSize (newNumChannels, newNumSamples,
keepExistingContent, clearExtraSpace, avoidReallocating)`: nothing happens when the size is
the one the buffer has; otherwise a sample is the old one where `keepExistingContent` is set
and the old buffer had it, zero where `clearExtraSpace` is set, and unwritten memory
elsewhere. -/
def AudioBufferD.setSize (b : AudioBufferD) (newNumChannels newNumSamples : Nat)
    (keepExistingContent clearExtraSpace _avoidReallocating : Bool)
    (uninit : Nat → Nat → ℚ) : AudioBufferD :=
  if newNumSamples = b.numSamples ∧ newNumChannels = b.numChannels then b
  else
    { numChannels := newNumChannels
      numSamples := newNumSamples
      samples := (List.range newNumChannels).map fun ch =>
        (List.range newNumSamples).map fun s =>
          if keepExistingContent = true ∧ ch < b.numChannels ∧ s < b.numSamples then
            (b.samples.getD ch []).getD s 0
          else if clearExtraSpace = true then 0
          else uninit ch s }

/-- The inner loop `for (s = 0; s < numSamples; ++s) dst[s] = cast (src[s])` of the precision
bridge; `i` is the index of the head of `dst`. -/
def copySamples (cast : ℚ → ℚ) (numSamples : Nat) (src : List ℚ) : Nat → List ℚ → List ℚ
  | _, [] => []
  | i, d :: dst =>
    (if i < numSamples then cast (src.getD i 0) else d)
      :: copySamples cast numSamples src (i + 1) dst

/-- The outer loop `for (ch = 0; ch < numChannels; ++ch)` of the precision bridge, over the
channel pointers of source and destination; `ch` is the index of the head of `dst`. -/
def copyChannels (cast : ℚ → ℚ) (numChannels numSamples : Nat) (src : Samples) :
    Nat → Samples → Samples
  | _, [] => []
  | ch, d :: dst =>
    (if ch < numChannels then copySamples cast numSamples (src.getD ch []) 0 d else d)
      :: copyChannels cast numChannels numSamples src (ch + 1) dst

/-- The library method `AudioBuffer::clear (channel, startSample, numSamples)`. -/
def AudioBufferD.clear (b : AudioBufferD) (channel startSample numSamples : Nat) :
    AudioBufferD :=
  { b with samples := modifyAt (clearFrom startSample numSamples 0) channel b.samples }

/-- One call made by the render pipeline, with the arguments it was given; `s` is the
offset of the sub-block in the host buffer. -/
inductive Call where
  | clear (channel startSample numSamples : Nat)
  | samplesArray (channels : List Nat) (s : Nat)
  | upsample (s numChannels numSamples : Nat)
  | pluginProcessor (sampleRate : ℚ) (numChannels numSamples : Nat)
  | downsample (s numSamples : Nat)
  | join (s : Nat) (gainOutDb : ℚ) (numChannels numSamples : Nat)
  | processBlockBypassed (s numChannels numSamples : Nat)
  | hardclip (numChannels numSamples : Nat)
  deriving DecidableEq, Repr

/-- The stage a call belongs to. -/
inductive Stage where
  | clear
  | samplesArray
  | upsample
  | dsp
  | downsample
  | mixer
  | bypass
  | hardclip
  deriving DecidableEq, Repr

/-- The stage of a call. -/
def Call.stage : Call → Stage
  | .clear _ _ _ => Stage.clear
  | .samplesArray _ _ => Stage.samplesArray
  | .upsample _ _ _ => Stage.upsample
  | .pluginProcessor _ _ _ => Stage.dsp
  | .downsample _ _ => Stage.downsample
  | .join _ _ _ _ => Stage.mixer
  | .processBlockBypassed _ _ _ => Stage.bypass
  | .hardclip _ _ => Stage.hardclip

/-- The sub-block `(offset, sample count)` of the host buffer a call was handed, for the
calls that are handed one. -/
def Call.block : Call → Option (Nat × Nat)
  | .upsample s _ n => some (s, n)
  | .downsample s n => some (s, n)
  | .join s _ _ n => some (s, n)
  | .processBlockBypassed s _ n => some (s, n)
  | _ => none

/-- The collaborators of the render pipeline that lie outside the files embedded here
(`dsp::Oversampler`, `dsp::SlewLimiter`, the mix processor, `dsp::hardclip`, `std::exp2`), the
constants `dsp::BlockSize` and `dsp::BlockSize2x`, and the build flag `JUCE_DEBUG`. `σ` is
the internal state of the collaborators; each of them may read and write the samples of the
host buffer it is pointed at. `toFloat` is the rounding of `static_cast<float>` applied to a
`double`, and `uninit ch s` is what sample `s` of channel `ch` holds in memory a buffer has
newly taken and not written. -/
structure Env (σ : Type) where
  BlockSize : Nat
  BlockSize2x : Nat
  JUCE_DEBUG : Bool
  exp2 : ℚ → ℚ
  hardclip : ℚ → ℚ → ℚ
  osPrepare : σ → ℚ → Bool → σ
  osGetLatency : σ → Nat
  osSampleRateUp : σ → ℚ
  osEnabled : σ → Bool
  upsample : σ → Samples → Nat → Nat → Nat → σ × Samples × Nat
  downsample : σ → Samples → Nat → Nat → σ × Samples
  mixPrepare : σ → ℚ → σ
  join : σ → Samples → Nat → ℚ → Nat → Nat → σ × Samples
  freqHzToSlewRate : ℚ → ℚ → ℚ
  slew : σ → Samples → ℚ → Nat → Nat → Int → σ × Samples
  toFloat : ℚ → ℚ
  uninit : Nat → Nat → ℚ

/-- The data member of `class PluginProcessor` besides the parameter reference. -/
structure PluginProcessor where
  sampleRate : ℚ

/-- The method `PluginProcessor::prepare`. -/
def PluginProcessor.prepare (_pp : PluginProcessor) (_sampleRate : ℚ) : PluginProcessor :=
  { sampleRate := _sampleRate }

/-- The method `PluginProcessor::operator()`: the active path of the DSP stage. -/
def PluginProcessor.call {σ : Type} (env : Env σ) (pp : PluginProcessor) (params : Params)
    (w : σ) (samples : Samples) (numChannels numSamples : Nat) : Option (σ × Samples) :=
  match params.get PID.Slew with
  | none => none
  | some pSlew =>
    let slewPitch := pSlew.getValueDenorm
    let slewHz := math.noteInFreqHz2 env.exp2 slewPitch 69 440
    let slewRate := env.freqHzToSlewRate slewHz pp.sampleRate
    match params.get PID.FilterType with
    | none => none
    | some pType =>
      let type := math.stdRound pType.getValueDenorm
      some (env.slew w samples slewRate numChannels numSamples type)

/-- The method `PluginProcessor::processBlockBypassed`, whose body is empty. -/
def PluginProcessor.processBlockBypassed (_pp : PluginProcessor) (samples : Samples)
    (_numChannels _numSamples : Nat) : Samples :=
  samples

/-- A call of the processor into its `juce::AudioProcessor` and `juce::Timer` bases. -/
inductive HostCall where
  | suspendProcessing (shouldBeSuspended : Bool)
  | setLatencySamples (newLatency : Nat)
  | startTimerHz (timerFrequencyHz : Nat)
  deriving DecidableEq, Repr

/-- The state of `class Processor`: its data members, the state `ext` of its collaborators,
what the host base class holds for it (channel counts, reported latency, the sample rate and
block size of `getSampleRate ()` and `getBlockSize ()`, the suspension flag), the log `calls`
of the calls it has made into the render stages and the log `hostCalls` of those into its
base classes. -/
structure Processor (σ : Type) where
  params : Params
  pluginProcessor : PluginProcessor
  audioBufferD : AudioBufferD
  ext : σ
  sampleRateUp : ℚ
  blockSizeUp : Nat
  totalNumInputChannels : Nat
  totalNumOutputChannels : Nat
  latencySamples : Nat
  calls : List Call
  currentSampleRate : ℚ
  blockSize : Nat
  suspended : Bool
  hostCalls : List HostCall

namespace Processor

variable {σ : Type}

/-- The loop `for (i = totalNumInputChannels; i < totalNumOutputChannels; ++i)` of
`processBlock`, which clears the output channels that have no input. -/
def clearLoop (numSamplesMain : Nat) :
    Nat → Nat → Processor σ × AudioBufferD → Processor σ × AudioBufferD
  | 0, _, r => r
  | k + 1, i, (pr, buffer) =>
    clearLoop numSamplesMain k (i + 1)
      ({ pr with calls := pr.calls ++ [Call.clear i 0 numSamplesMain] },
        buffer.clear i 0 numSamplesMain)

/-- The method `Processor::processBlockOversampler`. -/
def processBlockOversampler (env : Env σ) (pr : Processor σ) (samples : Samples)
    (s numChannels numSamples : Nat) : Option (Processor σ × Samples) :=
  let bufferInfo := env.upsample pr.ext samples s numChannels numSamples
  let numSamplesUp := bufferInfo.2.2
  let pr1 := { pr with
    ext := bufferInfo.1
    calls := pr.calls ++ [Call.upsample s numChannels numSamples] }
  match PluginProcessor.call env pr1.pluginProcessor pr1.params pr1.ext bufferInfo.2.1
      numChannels numSamplesUp with
  | none => none
  | some r =>
    let pr2 := { pr1 with
      ext := r.1
      calls := pr1.calls ++
        [Call.pluginProcessor pr1.pluginProcessor.sampleRate numChannels numSamplesUp] }
    let d := env.downsample pr2.ext r.2 s numSamples
    some ({ pr2 with ext := d.1, calls := pr2.calls ++ [Call.downsample s numSamples] }, d.2)

/-- The loop `for (s = 0; s < numSamplesMain; s += dsp::BlockSize)` of
`processBlock(AudioBufferD&)`; there is no result when the fuel runs out before the loop
condition fails, or when a parameter is missing. -/
def processBlockLoop (env : Env σ) (gainOutDb : ℚ) (numChannels numSamplesMain : Nat) :
    Nat → Nat → Processor σ × Samples → Option (Processor σ × Samples)
  | fuel, s, (pr, samplesMain) =>
    if s < numSamplesMain then
      match fuel with
      | 0 => none
      | fuel + 1 =>
        let pr0 := { pr with calls := pr.calls ++ [Call.samplesArray [0, 1] s] }
        let dif := numSamplesMain - s
        let numSamples := if dif < env.BlockSize then dif else env.BlockSize
        match processBlockOversampler env pr0 samplesMain s numChannels numSamples with
        | none => none
        | some (pr1, samples1) =>
          let j := env.join pr1.ext samples1 s gainOutDb numChannels numSamples
          let pr2 := { pr1 with
            ext := j.1
            calls := pr1.calls ++ [Call.join s gainOutDb numChannels numSamples] }
          processBlockLoop env gainOutDb numChannels numSamplesMain fuel
            (s + env.BlockSize) (pr2, j.2)
    else some (pr, samplesMain)

/-- The debug-build loops at the end of `processBlock`: `dsp::hardclip (x, 1.)` on the first
`numSamplesMain` samples of the first `numChannels` channels. -/
def hardclipLoop (env : Env σ) (numChannels numSamplesMain : Nat) (samplesMain : Samples) :
    Samples :=
  mapBelow numChannels (mapBelow numSamplesMain (fun x => env.hardclip x 1) 0) 0 samplesMain

/-- The method `Processor::processBlock(AudioBufferD&, MidiBuffer&)`; the MIDI buffer, which
is only handed on, is left out. The loop gets `numSamplesMain` units of fuel. -/
def processBlock (env : Env σ) (pr : Processor σ) (buffer : AudioBufferD) :
    Option (Processor σ × AudioBufferD) :=
  let numSamplesMain := buffer.numSamples
  let r := clearLoop numSamplesMain (pr.totalNumOutputChannels - pr.totalNumInputChannels)
    pr.totalNumInputChannels (pr, buffer)
  if numSamplesMain = 0 then some r
  else
    let numChannels := r.2.numChannels
    match r.1.params.get PID.GainOut with
    | none => none
    | some pGain =>
      let gainOutDb := pGain.getValueDenorm
      match processBlockLoop env gainOutDb numChannels numSamplesMain numSamplesMain 0
          (r.1, r.2.samples) with
      | none => none
      | some (pr1, samples1) =>
        if env.JUCE_DEBUG then
          some ({ pr1 with calls := pr1.calls ++ [Call.hardclip numChannels numSamplesMain] },
            { r.2 with samples := hardclipLoop env numChannels numSamplesMain samples1 })
        else some (pr1, { r.2 with samples := samples1 })

/-- The loop `for (s = 0; s < numSamplesMain; s += dsp::BlockSize)` of
`processBlockBypassed(AudioBufferD&)`; there is no result when the fuel runs out before the
loop condition fails. -/
def processBlockBypassedLoop (env : Env σ) (numChannels numSamplesMain : Nat) :
    Nat → Nat → Processor σ × Samples → Option (Processor σ × Samples)
  | fuel, s, (pr, samplesMain) =>
    if s < numSamplesMain then
      match fuel with
      | 0 => none
      | fuel + 1 =>
        let pr0 := { pr with calls := pr.calls ++ [Call.samplesArray [0, 1] s] }
        let dif := numSamplesMain - s
        let numSamples := if dif < env.BlockSize then dif else env.BlockSize
        let samples1 :=
          pr0.pluginProcessor.processBlockBypassed samplesMain numChannels numSamples
        let pr1 := { pr0 with
          calls := pr0.calls ++ [Call.processBlockBypassed s numChannels numSamples] }
        processBlockBypassedLoop env numChannels numSamplesMain fuel
          (s + env.BlockSize) (pr1, samples1)
    else some (pr, samplesMain)

/-- The method `Processor::processBlockBypassed(AudioBufferD&, MidiBuffer&)`; the MIDI buffer
is left out. The loop gets `numSamplesMain` units of fuel. -/
def processBlockBypassed (env : Env σ) (pr : Processor σ) (buffer : AudioBufferD) :
    Option (Processor σ × AudioBufferD) :=
  let pr0 := { pr with params := processMacroMod pr.params }
  let numSamplesMain := buffer.numSamples
  if numSamplesMain = 0 then some (pr0, buffer)
  else
    let numChannels := if buffer.numChannels = 2 then 2 else 1
    match processBlockBypassedLoop env numChannels numSamplesMain numSamplesMain 0
        (pr0, buffer.samples) with
    | none => none
    | some (pr1, samples1) => some (pr1, { buffer with samples := samples1 })

/-- The method `Processor::processBlockBypassed(AudioBufferF&, MidiBuffer&)`: the scratch
buffer `audioBufferD` is the buffer the double-precision overload is run on. -/
def processBlockBypassedF (env : Env σ) (pr : Processor σ) (buffer : AudioBufferF) :
    Option (Processor σ × AudioBufferF) :=
  let numChannels := buffer.numChannels
  let numSamples := buffer.numSamples
  let scratch := pr.audioBufferD.setSize numChannels numSamples true false true env.uninit
  let samplesD := copyChannels toDouble numChannels numSamples buffer.samples 0 scratch.samples
  let pr0 := { pr with audioBufferD := { scratch with samples := samplesD } }
  match pr0.processBlockBypassed env pr0.audioBufferD with
  | none => none
  | some (pr1, audioBufferD1) =>
    let samplesF :=
      copyChannels env.toFloat numChannels numSamples audioBufferD1.samples 0 buffer.samples
    some ({ pr1 with audioBufferD := audioBufferD1 }, { buffer with samples := samplesF })

/-- The method `Processor::processBlock(AudioBufferF&, MidiBuffer&)`: the scratch buffer
`audioBufferD` is the buffer the double-precision overload is run on. -/
def processBlockF (env : Env σ) (pr : Processor σ) (buffer : AudioBufferF) :
    Option (Processor σ × AudioBufferF) :=
  let numChannels := buffer.numChannels
  let numSamples := buffer.numSamples
  let scratch := pr.audioBufferD.setSize numChannels numSamples true false true env.uninit
  let samplesD := copyChannels toDouble numChannels numSamples buffer.samples 0 scratch.samples
  let pr0 := { pr with audioBufferD := { scratch with samples := samplesD } }
  match pr0.processBlock env pr0.audioBufferD with
  | none => none
  | some (pr1, audioBufferD1) =>
    let samplesF :=
      copyChannels env.toFloat numChannels numSamples audioBufferD1.samples 0 buffer.samples
    some ({ pr1 with audioBufferD := audioBufferD1 }, { buffer with samples := samplesF })

/-- The base-class method `setLatencySamples`. -/
def setLatencySamples (pr : Processor σ) (newLatency : Nat) : Processor σ :=
  { pr with
    latencySamples := newLatency
    hostCalls := pr.hostCalls ++ [HostCall.setLatencySamples newLatency] }

/-- The base-class method `startTimerHz`. -/
def startTimerHz (pr : Processor σ) (timerFrequencyHz : Nat) : Processor σ :=
  { pr with hostCalls := pr.hostCalls ++ [HostCall.startTimerHz timerFrequencyHz] }

/-- The base-class method `suspendProcessing`. -/
def suspendProcessing (pr : Processor σ) (shouldBeSuspended : Bool) : Processor σ :=
  { pr with
    suspended := shouldBeSuspended
    hostCalls := pr.hostCalls ++ [HostCall.suspendProcessing shouldBeSuspended] }

/-- The method `Processor::prepareToPlay`, in the build with the oversampler (`PPDHasHQ`),
the one `timerCallback` and `processBlockOversampler` compile in. -/
def prepareToPlay (env : Env σ) (pr : Processor σ) (sampleRate : ℚ) (maxBlockSize : Nat) :
    Option (Processor σ) :=
  let latency := 0
  let pr1 := { pr with
    audioBufferD := pr.audioBufferD.setSize 2 maxBlockSize false true false env.uninit
    pluginProcessor := pr.pluginProcessor.prepare sampleRate
    ext := env.mixPrepare pr.ext sampleRate }
  match pr1.params.get PID.HQ with
  | none => none
  | some pHQ =>
    let hqEnabled := decide (pHQ.getValue > 1 / 2)
    let pr2 := { pr1 with ext := env.osPrepare pr1.ext sampleRate hqEnabled }
    let latency := latency + env.osGetLatency pr2.ext
    let pr3 := { pr2 with
      sampleRateUp := env.osSampleRateUp pr2.ext
      blockSizeUp := if env.osEnabled pr2.ext then env.BlockSize2x else env.BlockSize }
    some ((pr3.setLatencySamples latency).startTimerHz 4)

/-- The method `Processor::forcePrepare`. -/
def forcePrepare (env : Env σ) (pr : Processor σ) : Option (Processor σ) :=
  let pr1 := pr.suspendProcessing true
  match pr1.prepareToPlay env pr1.currentSampleRate pr1.blockSize with
  | none => none
  | some pr2 => some (pr2.suspendProcessing false)

/-- The method `Processor::timerCallback`. -/
def timerCallback (env : Env σ) (pr : Processor σ) : Option (Processor σ) :=
  let needForcePrepare := false
  match pr.params.get PID.HQ with
  | none => none
  | some pHQ =>
    let hqEnabled := decide (pHQ.getValue > 1 / 2)
    let needForcePrepare := if env.osEnabled pr.ext != hqEnabled then true else needForcePrepare
    if needForcePrepare then pr.forcePrepare env else some pr

end Processor

/-- Modelled from the spec: the oversampler (`dsp::Oversampler`), whose code is not among
the files embedded here. Once prepared it is in the enabled state it was prepared with; it
reports the fixed added latency `latency` when enabled and none when disabled; its working
sample rate is the host rate times the fixed integer factor `factor` when enabled and the
host rate when disabled. -/
def Env.OversamplerSpec {σ : Type} (env : Env σ) (latency factor : Nat) : Prop :=
  ∀ (w : σ) (sampleRate : ℚ),
    (∀ e, env.osEnabled (env.osPrepare w sampleRate e) = e) ∧
    env.osGetLatency (env.osPrepare w sampleRate true) = latency ∧
    env.osGetLatency (env.osPrepare w sampleRate false) = 0 ∧
    env.osSampleRateUp (env.osPrepare w sampleRate true) = (factor : ℚ) * sampleRate ∧
    env.osSampleRateUp (env.osPrepare w sampleRate false) = sampleRate

/-- The sub-blocks `(s, numSamples)` visited by the loop
`for (s = ...; s < numSamplesMain; s += BlockSize)` of `processBlock` and of
`processBlockBypassed`, with `numSamples = dif < BlockSize ? dif : BlockSize` and
`dif = numSamplesMain - s`: the loops above without their calls. -/
def subBlocksFrom (BlockSize numSamplesMain : Nat) : Nat → Nat → List (Nat × Nat)
  | fuel, s =>
    if s < numSamplesMain then
      match fuel with
      | 0 => []
      | fuel + 1 =>
        (s, if numSamplesMain - s < BlockSize then numSamplesMain - s else BlockSize)
          :: subBlocksFrom BlockSize numSamplesMain fuel (s + BlockSize)
    else []

/-- The chunking the design document asks for: for `N` samples and chunk length `C`,
`ceil (N / C)` sub-blocks at the offsets `0, C, 2C, ...`, each of `C` samples except the last,
which has `N - C * floor (N / C)` samples, or `C` when `N` is an exact multiple of `C`. -/
def specSubBlocks (C N : Nat) : List (Nat × Nat) :=
  (List.range ((N + C - 1) / C)).map fun k =>
    (k * C,
      if k + 1 < (N + C - 1) / C then C
      else if N % C = 0 then C
      else N - C * (N / C))

/-- What is compared of a call: its stage and the sub-block it was handed. -/
def Call.shape (c : Call) : Stage × Option (Nat × Nat) := (c.stage, c.block)

/-- The calls into the oversampler and into the DSP stage it brackets. -/
def Stage.bracket (st : Stage) : Bool :=
  decide (st = Stage.upsample ∨ st = Stage.dsp ∨ st = Stage.downsample)

/-- A concrete environment for examples: chunk length `8`, release build, and collaborators
that keep no state and leave the samples as they are. -/
def Env.example : Env Unit :=
  { BlockSize := 8
    BlockSize2x := 16
    JUCE_DEBUG := false
    exp2 := fun x => x
    hardclip := fun x b => jlimit (-b) b x
    osPrepare := fun w _ _ => w
    osGetLatency := fun _ => 0
    osSampleRateUp := fun _ => 44100
    osEnabled := fun _ => false
    upsample := fun w samples _ _ numSamples => (w, samples, numSamples)
    downsample := fun w samples _ _ => (w, samples)
    mixPrepare := fun w _ => w
    join := fun w samples _ _ _ _ => (w, samples)
    freqHzToSlewRate := fun hz sampleRate => hz / sampleRate
    slew := fun w samples _ _ _ _ => (w, samples)
    toFloat := fun x => x
    uninit := fun _ _ => 0 }

/-- Modelled from the spec: a concrete oversampler for examples, whose state is the pair of
the enabled flag and the host sample rate it was prepared with; added latency `latency`,
factor `factor`, and the block handed on with `factor` times the samples when enabled. The
other collaborators are those of `Env.example`. -/
def Env.oversampling (latency factor : Nat) : Env (Bool × ℚ) :=
  { BlockSize := 8
    BlockSize2x := 16
    JUCE_DEBUG := false
    exp2 := fun x => x
    hardclip := fun x b => jlimit (-b) b x
    osPrepare := fun _ sampleRate enabled => (enabled, sampleRate)
    osGetLatency := fun w => if w.1 then latency else 0
    osSampleRateUp := fun w => if w.1 then (factor : ℚ) * w.2 else w.2
    osEnabled := fun w => w.1
    upsample := fun w samples _ _ numSamples =>
      (w, samples, if w.1 then factor * numSamples else numSamples)
    downsample := fun w samples _ _ => (w, samples)
    mixPrepare := fun w _ => w
    join := fun w samples _ _ _ _ => (w, samples)
    freqHzToSlewRate := fun hz sampleRate => hz / sampleRate
    slew := fun w samples _ _ _ _ => (w, samples)
    toFloat := fun x => x
    uninit := fun _ _ => 0 }

/-- A concrete parameter set for examples: the four parameters in the order in which
`Params::Params` pushes them, each with a linear range. -/
def Params.example : Params :=
  { params :=
      [ Param.ctor PID.Slew (Range.linear 0 127 0) 36 (fun _ => "") (fun _ => 0),
        Param.ctor PID.FilterType (Range.linear 0 1 1) 0 (fun _ => "") (fun _ => 0),
        Param.ctor PID.GainOut (Range.linear (-12) 12 0) 0 (fun _ => "") (fun _ => 0),
        Param.ctor PID.HQ (Range.linear 0 1 1) 0 (fun _ => "") (fun _ => 0) ]
    modDepthLocked := 0 }

/-- A concrete processor for examples: stereo in and out, nothing called yet. -/
def Processor.example : Processor Unit :=
  { params := Params.example
    pluginProcessor := { sampleRate := 44100 }
    audioBufferD := { numChannels := 2, numSamples := 0, samples := [[], []] }
    ext := ()
    sampleRateUp := 44100
    blockSizeUp := 8
    totalNumInputChannels := 2
    totalNumOutputChannels := 2
    latencySamples := 0
    calls := []
    currentSampleRate := 44100
    blockSize := 512
    suspended := false
    hostCalls := [] }

/-- The example parameter set with the `HQ` toggle constructed at `1`: oversampling asked
for. -/
def Params.exampleHQ : Params :=
  { params :=
      [ Param.ctor PID.Slew (Range.linear 0 127 0) 36 (fun _ => "") (fun _ => 0),
        Param.ctor PID.FilterType (Range.linear 0 1 1) 0 (fun _ => "") (fun _ => 0),
        Param.ctor PID.GainOut (Range.linear (-12) 12 0) 0 (fun _ => "") (fun _ => 0),
        Param.ctor PID.HQ (Range.linear 0 1 1) 1 (fun _ => "") (fun _ => 0) ]
    modDepthLocked := 0 }

/-- A processor for examples over the oversampler of `Env.oversampling`, as constructed:
`PluginProcessor::PluginProcessor` sets the rate `1`, `Processor::Processor` the working rate
`0`; the oversampler is off, the host runs at `44100` Hz with blocks of `512` samples. -/
def Processor.exampleHQ : Processor (Bool × ℚ) :=
  { params := Params.exampleHQ
    pluginProcessor := { sampleRate := 1 }
    audioBufferD := { numChannels := 2, numSamples := 0, samples := [[], []] }
    ext := (false, 0)
    sampleRateUp := 0
    blockSizeUp := 8
    totalNumInputChannels := 2
    totalNumOutputChannels := 2
    latencySamples := 0
    calls := []
    currentSampleRate := 44100
    blockSize := 512
    suspended := false
    hostCalls := [] }

/-- A concrete single-precision host buffer for examples: two channels of ten samples. -/
def AudioBufferF.example : AudioBufferF :=
  { numChannels := 2
    numSamples := 10
    samples := [[1, 2, 3, 4, 5, 6, 7, 8, 9, 10], [-1, -2, -3, -4, -5, -6, -7, -8, -9, -10]] }

/-- A concrete host buffer for examples: two channels of ten samples. -/
def AudioBufferD.example : AudioBufferD :=
  { numChannels := 2
    numSamples := 10
    samples := [[1, 2, 3, 4, 5, 6, 7, 8, 9, 10], [-1, -2, -3, -4, -5, -6, -7, -8, -9, -10]] }

/-- A concrete one-channel host buffer for examples: ten samples. -/
def AudioBufferD.exampleMono : AudioBufferD :=
  { numChannels := 1
    numSamples := 10
    samples := [[1, 2, 3, 4, 5, 6, 7, 8, 9, 10]] }

end audio

/-! ## Theorems: the parameter -/

namespace param

theorem jlimit_eq_max_min (lo hi v : ℚ) (h : lo ≤ hi) :
    jlimit lo hi v = max lo (min hi v) := by
  unfold jlimit
  split_ifs with h1 h2
  · rw [max_eq_left]
    exact le_trans (min_le_right _ _) (le_of_lt h1)
  · rw [min_eq_left (le_of_lt h2), max_eq_right h]
  · rw [min_eq_right (not_lt.mp h2), max_eq_right (not_lt.mp h1)]

theorem jlimit_mem (lo hi v : ℚ) (h : lo ≤ hi) :
    lo ≤ jlimit lo hi v ∧ jlimit lo hi v ≤ hi := by
  rw [jlimit_eq_max_min lo hi v h]
  exact ⟨le_max_left _ _, max_le h (min_le_left _ _)⟩

theorem BiasEps_le : Param.BiasEps ≤ 1 - Param.BiasEps := by
  norm_num [Param.BiasEps]

/-- C1: on a parameter whose lock flag is set, `setValue x`, `setMaxModDepth x` and
`setModBias x` each return the state they were given, so the normalized value, the maximum
modulation depth and the modulation bias are unchanged and `getValue`, `getMaxModDepth` and
`getModBias` return the stored values; once `setLocked false` has run, `setValue x` stores
`x`, `setMaxModDepth x` stores `x` clamped to `[-1, 1]` and `setModBias x` stores `x` clamped
to `[BiasEps, 1 - BiasEps]`. -/
theorem Param.locked_setters_keep_state (p : Param) (x : ℚ) (h : p.locked = true) :
    (∀ q ∈ [p.setValue x, p.setMaxModDepth x, p.setModBias x],
      q = p ∧ q.valNorm = p.valNorm ∧ q.maxModDepth = p.maxModDepth ∧ q.modBias = p.modBias ∧
        q.getValue = p.valNorm ∧ q.getMaxModDepth = p.maxModDepth ∧
        q.getModBias = p.modBias) ∧
    ((p.setLocked false).setValue x).getValue = x ∧
    ((p.setLocked false).setMaxModDepth x).getMaxModDepth = max (-1) (min 1 x) ∧
    ((p.setLocked false).setModBias x).getModBias
      = max Param.BiasEps (min (1 - Param.BiasEps) x) := by
  have h1 : p.setValue x = p := by simp [Param.setValue, Param.isLocked, h]
  have h2 : p.setMaxModDepth x = p := by simp [Param.setMaxModDepth, Param.isLocked, h]
  have h3 : p.setModBias x = p := by simp [Param.setModBias, Param.isLocked, h]
  refine ⟨?_, ?_, ?_, ?_⟩
  · intro q hq
    simp only [List.mem_cons, List.mem_singleton, List.not_mem_nil, or_false] at hq
    rcases hq with hq | hq | hq <;>
      · subst hq
        first
          | rw [h1]
          | rw [h2]
          | rw [h3]
        simp [Param.getValue, Param.getMaxModDepth, Param.getModBias]
  · cases hd : p.modDepthLocked <;>
      simp [Param.setValue, Param.setLocked, Param.isLocked, Param.getValue,
        Param.setMaxModDepth, hd]
  · simp [Param.setMaxModDepth, Param.setLocked, Param.isLocked, Param.getMaxModDepth,
      jlimit_eq_max_min]
  · simp [Param.setModBias, Param.setLocked, Param.isLocked, Param.getModBias,
      jlimit_eq_max_min _ _ _ BiasEps_le]

/-- The instance of C1 at the example parameter after `setLocked true`, with input `2`. -/
theorem Param.locked_setters_keep_state_witness :
    (Param.example.setLocked true).locked = true ∧
    (Param.example.setLocked true).setValue 2 = Param.example.setLocked true ∧
    (((Param.example.setLocked true).setLocked false).setValue 2).getValue = 2 :=
  ⟨rfl,
    ((Param.locked_setters_keep_state (Param.example.setLocked true) 2 rfl).1 _
      (List.mem_cons_self _ _)).1,
    (Param.locked_setters_keep_state (Param.example.setLocked true) 2 rfl).2.1⟩

/-- C2: on an unlocked parameter in depth-lock mode with base value `p0` and depth `d0`,
after `setValue p1` the stored base value is `p1` and the stored maximum modulation depth is
`d0 - p1 + p0` clamped to `[-1, 1]`. -/
theorem Param.setValue_depth_lock (p : Param) (p1 : ℚ) (hl : p.locked = false)
    (hd : p.modDepthLocked = true) :
    (p.setValue p1).getValue = p1 ∧
    (p.setValue p1).getMaxModDepth = max (-1) (min 1 (p.maxModDepth - p1 + p.valNorm)) := by
  simp [Param.setValue, Param.setMaxModDepth, Param.isLocked, Param.getValue,
    Param.getMaxModDepth, hl, hd, jlimit_eq_max_min]

/-- The instance of C2 at the example parameter in depth-lock mode, with input `2`. -/
theorem Param.setValue_depth_lock_witness :
    (Param.example.setModDepthLocked true).locked = false ∧
    (Param.example.setModDepthLocked true).modDepthLocked = true ∧
    ((Param.example.setModDepthLocked true).setValue 2).getValue = 2 ∧
    ((Param.example.setModDepthLocked true).setValue 2).getMaxModDepth
      = max (-1) (min 1 ((Param.example.setModDepthLocked true).maxModDepth - 2
          + (Param.example.setModDepthLocked true).valNorm)) :=
  ⟨rfl, rfl, Param.setValue_depth_lock (Param.example.setModDepthLocked true) 2 rfl rfl⟩

/-- C3: on an unlocked parameter, for every input `x`, after `setMaxModDepth x` the getter
`getMaxModDepth` returns `x` clamped to `[-1, 1]`, and after `setModBias x` the getter
`getModBias` returns `x` clamped to `[eps, 1 - eps]` with `eps = 0.000001`. -/
theorem Param.setters_clamp (p : Param) (x : ℚ) (hl : p.locked = false) :
    (p.setMaxModDepth x).getMaxModDepth = max (-1) (min 1 x) ∧
    (p.setModBias x).getModBias = max (1 / 1000000) (min (1 - 1 / 1000000) x) := by
  have hb := jlimit_eq_max_min _ _ x BiasEps_le
  simp only [Param.BiasEps] at hb
  refine ⟨?_, ?_⟩
  · simp [Param.setMaxModDepth, Param.isLocked, Param.getMaxModDepth, hl, jlimit_eq_max_min]
  · simp only [Param.setModBias, Param.isLocked, Param.getModBias, hl, Param.BiasEps]
    exact hb

/-- The instance of C3 at the example parameter, with input `5`. -/
theorem Param.setters_clamp_witness :
    Param.example.locked = false ∧
    (Param.example.setMaxModDepth 5).getMaxModDepth = max (-1) (min 1 5) ∧
    (Param.example.setModBias 5).getModBias = max (1 / 1000000) (min (1 - 1 / 1000000) 5) :=
  ⟨rfl, Param.setters_clamp Param.example 5 rfl⟩

/-! ### Invariants of the reachable states -/

theorem Param.setMaxModDepth_depth_bias (p : Param) (v : ℚ)
    (h : (-1 ≤ p.maxModDepth ∧ p.maxModDepth ≤ 1) ∧
      (Param.BiasEps ≤ p.modBias ∧ p.modBias ≤ 1 - Param.BiasEps)) :
    (-1 ≤ (p.setMaxModDepth v).maxModDepth ∧ (p.setMaxModDepth v).maxModDepth ≤ 1) ∧
      (Param.BiasEps ≤ (p.setMaxModDepth v).modBias ∧
        (p.setMaxModDepth v).modBias ≤ 1 - Param.BiasEps) := by
  unfold Param.setMaxModDepth
  split_ifs
  · exact h
  · exact ⟨jlimit_mem (-1) 1 v (by norm_num), h.2⟩

theorem Param.setModBias_depth_bias (p : Param) (b : ℚ)
    (h : (-1 ≤ p.maxModDepth ∧ p.maxModDepth ≤ 1) ∧
      (Param.BiasEps ≤ p.modBias ∧ p.modBias ≤ 1 - Param.BiasEps)) :
    (-1 ≤ (p.setModBias b).maxModDepth ∧ (p.setModBias b).maxModDepth ≤ 1) ∧
      (Param.BiasEps ≤ (p.setModBias b).modBias ∧
        (p.setModBias b).modBias ≤ 1 - Param.BiasEps) := by
  unfold Param.setModBias
  split_ifs
  · exact h
  · exact ⟨h.1, jlimit_mem _ _ b BiasEps_le⟩

theorem Param.setValue_depth_bias (p : Param) (x : ℚ)
    (h : (-1 ≤ p.maxModDepth ∧ p.maxModDepth ≤ 1) ∧
      (Param.BiasEps ≤ p.modBias ∧ p.modBias ≤ 1 - Param.BiasEps)) :
    (-1 ≤ (p.setValue x).maxModDepth ∧ (p.setValue x).maxModDepth ≤ 1) ∧
      (Param.BiasEps ≤ (p.setValue x).modBias ∧
        (p.setValue x).modBias ≤ 1 - Param.BiasEps) := by
  unfold Param.setValue
  split_ifs
  · exact h
  · exact h
  · exact Param.setMaxModDepth_depth_bias _ _ h

theorem Param.setValueNotifyingHost_depth_bias (p : Param) (x : ℚ)
    (h : (-1 ≤ p.maxModDepth ∧ p.maxModDepth ≤ 1) ∧
      (Param.BiasEps ≤ p.modBias ∧ p.modBias ≤ 1 - Param.BiasEps)) :
    (-1 ≤ (p.setValueNotifyingHost x).maxModDepth ∧
        (p.setValueNotifyingHost x).maxModDepth ≤ 1) ∧
      (Param.BiasEps ≤ (p.setValueNotifyingHost x).modBias ∧
        (p.setValueNotifyingHost x).modBias ≤ 1 - Param.BiasEps) :=
  Param.setValue_depth_bias p x h

theorem Param.loadPatch_induct (I : Param → Prop) (p : Param) (state : State) (h : I p)
    (hv : ∀ val, I (p.setValueNotifyingHost
      (p.range.convertTo0to1 (p.range.snapToLegalValue val))))
    (hd : ∀ q v, I q → I (Param.setMaxModDepth q v))
    (hb : ∀ q b, I q → I (Param.setModBias q b)) :
    I (p.loadPatch state) := by
  dsimp only [Param.loadPatch]
  cases p.isLocked
  · cases State.get state (p.idStr ++ "/value") <;>
      cases State.get state (p.idStr ++ "/maxmoddepth") <;>
      cases State.get state (p.idStr ++ "/modbias") <;>
      simp only [Bool.not_false, if_true] <;>
      first
        | exact h
        | exact hv _
        | exact hb _ _ h
        | exact hb _ _ (hv _)
        | exact hd _ _ h
        | exact hd _ _ (hv _)
        | exact hb _ _ (hd _ _ h)
        | exact hb _ _ (hd _ _ (hv _))
  · simpa using h

theorem Param.loadPatch_depth_bias (p : Param) (state : State)
    (h : (-1 ≤ p.maxModDepth ∧ p.maxModDepth ≤ 1) ∧
      (Param.BiasEps ≤ p.modBias ∧ p.modBias ≤ 1 - Param.BiasEps)) :
    (-1 ≤ (p.loadPatch state).maxModDepth ∧ (p.loadPatch state).maxModDepth ≤ 1) ∧
      (Param.BiasEps ≤ (p.loadPatch state).modBias ∧
        (p.loadPatch state).modBias ≤ 1 - Param.BiasEps) :=
  Param.loadPatch_induct
    (fun q => (-1 ≤ q.maxModDepth ∧ q.maxModDepth ≤ 1) ∧
      (Param.BiasEps ≤ q.modBias ∧ q.modBias ≤ 1 - Param.BiasEps))
    p state h (fun _ => Param.setValueNotifyingHost_depth_bias p _ h)
    (fun q v hq => Param.setMaxModDepth_depth_bias q v hq)
    (fun q b hq => Param.setModBias_depth_bias q b hq)

theorem Op.apply_depth_bias (p : Param) (op : Op)
    (h : (-1 ≤ p.maxModDepth ∧ p.maxModDepth ≤ 1) ∧
      (Param.BiasEps ≤ p.modBias ∧ p.modBias ≤ 1 - Param.BiasEps)) :
    (-1 ≤ (op.apply p).maxModDepth ∧ (op.apply p).maxModDepth ≤ 1) ∧
      (Param.BiasEps ≤ (op.apply p).modBias ∧
        (op.apply p).modBias ≤ 1 - Param.BiasEps) := by
  cases op with
  | setValue x => exact Param.setValue_depth_bias p x h
  | setValueWithGesture x =>
    simp only [Op.apply, Param.setValueWithGesture]
    split_ifs
    · exact h
    · exact Param.setValueNotifyingHost_depth_bias (p.beginChangeGesture) x h
  | beginGesture => exact h
  | endGesture => exact h
  | setMaxModDepth v => exact Param.setMaxModDepth_depth_bias p v h
  | setModBias b => exact Param.setModBias_depth_bias p b h
  | setLocked e => exact h
  | switchLock => exact h
  | setModDepthLocked e => exact h
  | setDefaultValue norm => exact h
  | modulate macro_ => exact h
  | loadPatch state => exact Param.loadPatch_depth_bias p state h

theorem Param.run_depth_bias (ops : List Op) (p : Param)
    (h : (-1 ≤ p.maxModDepth ∧ p.maxModDepth ≤ 1) ∧
      (Param.BiasEps ≤ p.modBias ∧ p.modBias ≤ 1 - Param.BiasEps)) :
    (-1 ≤ (p.run ops).maxModDepth ∧ (p.run ops).maxModDepth ≤ 1) ∧
      (Param.BiasEps ≤ (p.run ops).modBias ∧
        (p.run ops).modBias ≤ 1 - Param.BiasEps) := by
  induction ops generalizing p with
  | nil => exact h
  | cons op ops ih => exact ih (op.apply p) (Op.apply_depth_bias p op h)

theorem Param.setMaxModDepth_value (p : Param) (v : ℚ) :
    (p.setMaxModDepth v).range = p.range ∧ (p.setMaxModDepth v).valNorm = p.valNorm := by
  unfold Param.setMaxModDepth
  split_ifs <;> exact ⟨rfl, rfl⟩

theorem Param.setValue_value (p : Param) (x : ℚ) :
    (p.setValue x).range = p.range ∧
      ((p.setValue x).valNorm = p.valNorm ∨ (p.setValue x).valNorm = x) := by
  unfold Param.setValue
  split_ifs
  · exact ⟨rfl, Or.inl rfl⟩
  · exact ⟨rfl, Or.inr rfl⟩
  · exact ⟨(Param.setMaxModDepth_value _ _).1, Or.inr (Param.setMaxModDepth_value _ _).2⟩

/-- C6: for every parameter state and every macro input, `calcValModOf` returns what the
specification computes: `clamp01 (baseValue + pol * biased (0, maxModDepth * pol, bias, macro))`
with `pol` the sign of the maximum modulation depth and `+1` when the depth is zero; and when
the maximum modulation depth is `0` the result is `clamp01 (baseValue)`. -/
theorem Param.calcValModOf_refines (p : Param) (macro_ : ℚ) :
    p.calcValModOf macro_ = p.calcValModOfSpec macro_ ∧
    p.calcValModOf macro_ =
      max 0 (min 1 (p.valNorm +
        (if p.maxModDepth > 0 then 1 else if p.maxModDepth < 0 then -1 else 1) *
          Param.biased 0
            (p.maxModDepth *
              (if p.maxModDepth > 0 then 1 else if p.maxModDepth < 0 then -1 else 1))
            p.modBias macro_)) ∧
    Param.calcValModOf { p with maxModDepth := 0 } macro_ = max 0 (min 1 p.valNorm) := by
  have key : p.calcValModOf macro_ = p.calcValModOfSpec macro_ := by
    simp only [Param.calcValModOf, Param.calcValModOfSpec, Param.getValue,
      jlimit_eq_max_min 0 1 _ zero_le_one]
    rcases lt_trichotomy p.maxModDepth 0 with h | h | h
    · simp [h, not_lt_of_gt h]
    · simp [h, Param.biased]
    · simp [h]
  refine ⟨key, ?_, ?_⟩
  · rw [key]
    simp only [Param.calcValModOfSpec]
    ring_nf
  · simp [Param.calcValModOf, Param.getValue, Param.biased,
      jlimit_eq_max_min 0 1 _ zero_le_one]

/-- C7: at bias `0.5` the curve `biased` is affine in `x` for all `s`, `e`: it equals
`s + (e - s) * x` when `e ≠ s` (and the constant `0` when `e = s`), which is the curve
`start + (end - start) * bias * x / ((1 - bias) - x + 2 * bias * x)` evaluated at bias `0.5`. -/
theorem Param.biased_half_affine (s e : ℚ) :
    (∃ a b : ℚ, ∀ x, Param.biased s e (1 / 2) x = a + b * x) ∧
    (∀ x, Param.biased s e (1 / 2) x = if e = s then 0 else s + (e - s) * x) ∧
    (∀ x : ℚ, s + (e - s) * x
      = s + (e - s) * (1 / 2) * x / ((1 - 1 / 2) - x + 2 * (1 / 2) * x)) := by
  have h2 : ∀ x : ℚ, s + (e - s) * x
      = s + (e - s) * (1 / 2) * x / ((1 - 1 / 2) - x + 2 * (1 / 2) * x) := by
    intro x
    have hd : ((1 : ℚ) - 1 / 2) - x + 2 * (1 / 2) * x = 1 / 2 := by ring
    rw [hd]
    ring
  have h1 : ∀ x, Param.biased s e (1 / 2) x = if e = s then 0 else s + (e - s) * x := by
    intro x
    unfold Param.biased
    by_cases hes : e = s
    · simp [hes]
    · have hr : e - s ≠ 0 := sub_ne_zero.mpr hes
      simp only [hr, hes, if_false]
      exact (h2 x).symm
  refine ⟨?_, h1, h2⟩
  by_cases hes : e = s
  · exact ⟨0, 0, fun x => by rw [h1 x, if_pos hes]; ring⟩
  · exact ⟨s, e - s, fun x => by rw [h1 x, if_neg hes]⟩

/-- C8: on a zero-width range `biased (s, s, b, x)` returns exactly `0` for all `s`, `b` and
`x`, also when `s` is not zero; the quotient is not evaluated. -/
theorem Param.biased_degenerate (s b x : ℚ) : Param.biased s s b x = 0 := by
  simp [Param.biased]

end param

/-! ## Theorems: the render pipeline -/

namespace audio

open param

/-! ### The sub-blocks of the chunking loop -/

theorem ceil_div_cases (C N : Nat) (hC : 0 < C) :
    (N + C - 1) / C = if N % C = 0 then N / C else N / C + 1 := by
  have h := Nat.div_add_mod N C
  have hr := Nat.mod_lt N hC
  split_ifs with h0
  · have h1 : N + C - 1 = C * (N / C) + (C - 1) := by omega
    rw [h1, Nat.mul_add_div hC, Nat.div_eq_of_lt (show C - 1 < C by omega)]
    rfl
  · have h1 : N + C - 1 = C * (N / C + 1) + (N % C - 1) := by
      rw [Nat.mul_add, Nat.mul_one]
      omega
    rw [h1, Nat.mul_add_div hC, Nat.div_eq_of_lt (show N % C - 1 < C by omega)]

theorem subBlock_length_cases (C N k : Nat) (hC : 0 < C) (hk : k < (N + C - 1) / C) :
    (if N - k * C < C then N - k * C else C) =
      (if k + 1 < (N + C - 1) / C then C else if N % C = 0 then C else N - C * (N / C)) := by
  have h := Nat.div_add_mod N C
  have hr := Nat.mod_lt N hC
  have h2 : (N / C) * C = C * (N / C) := Nat.mul_comm _ _
  have h1 : (k + 1) * C = k * C + C := by ring
  rw [ceil_div_cases C N hC] at hk ⊢
  by_cases h0 : N % C = 0
  · simp only [h0, if_true] at hk ⊢
    have hle : (k + 1) * C ≤ (N / C) * C := Nat.mul_le_mul_right C hk
    have h3 : ¬ (N - k * C < C) := by omega
    simp [h3]
  · simp only [h0, if_false] at hk ⊢
    by_cases hk1 : k + 1 < N / C + 1
    · have hle : (k + 1) * C ≤ (N / C) * C := Nat.mul_le_mul_right C (by omega)
      have h3 : ¬ (N - k * C < C) := by omega
      simp [h3, hk1]
    · have hkq : k = N / C := by omega
      subst hkq
      have h3 : N - (N / C) * C < C := by omega
      rw [if_pos h3, if_neg hk1, h2]

theorem subBlocksFrom_of_lt (C N fuel s : Nat) (h : s < N) :
    subBlocksFrom C N (fuel + 1) s =
      (s, if N - s < C then N - s else C) :: subBlocksFrom C N fuel (s + C) := by
  rw [subBlocksFrom]
  simp [h]

theorem subBlocksFrom_of_not_lt (C N fuel s : Nat) (h : ¬ s < N) :
    subBlocksFrom C N fuel s = [] := by
  rw [subBlocksFrom.eq_def]
  simp [h]

theorem subBlocksFrom_eq_range (C N : Nat) (hC : 0 < C) :
    ∀ fuel s, N - s ≤ fuel →
      subBlocksFrom C N fuel s =
        (List.range ((N - s + C - 1) / C)).map fun j =>
          (s + j * C, if N - (s + j * C) < C then N - (s + j * C) else C) := by
  intro fuel
  induction fuel with
  | zero =>
    intro s hs
    have h0 : (N - s + C - 1) / C = 0 :=
      Nat.div_eq_of_lt (by omega)
    rw [subBlocksFrom_of_not_lt C N 0 s (by omega), h0]
    rfl
  | succ fuel ih =>
    intro s hs
    by_cases hlt : s < N
    · have hcount : (N - s + C - 1) / C = (N - (s + C) + C - 1) / C + 1 := by
        have e1 : N - s + C - 1 = (N - s - 1) + C := by omega
        rw [e1, Nat.add_div_right _ hC]
        congr 1
        by_cases hge : C ≤ N - s
        · congr 1
          omega
        · rw [Nat.div_eq_of_lt (show N - s - 1 < C by omega),
            Nat.div_eq_of_lt (show N - (s + C) + C - 1 < C by omega)]
      rw [subBlocksFrom_of_lt C N fuel s hlt, ih (s + C) (by omega), hcount,
        List.range_succ_eq_map, List.map_cons, List.map_map]
      congr 1
      · simp
      · apply List.map_congr_left
        intro j _
        have e2 : s + C + j * C = s + (j + 1) * C := by ring
        simp [e2]
    · have h0 : (N - s + C - 1) / C = 0 :=
        Nat.div_eq_of_lt (by omega)
      rw [subBlocksFrom_of_not_lt C N _ s hlt, h0]
      rfl

theorem subBlocksFrom_eq_spec (C N : Nat) (hC : 0 < C) :
    subBlocksFrom C N N 0 = specSubBlocks C N := by
  rw [subBlocksFrom_eq_range C N hC N 0 (by omega), specSubBlocks]
  simp only [Nat.sub_zero, Nat.zero_add]
  apply List.map_congr_left
  intro k hk
  rw [subBlock_length_cases C N k hC (List.mem_range.mp hk)]

theorem subBlocksFrom_sum (C N : Nat) (hC : 0 < C) :
    ∀ fuel s, N - s ≤ fuel →
      ((subBlocksFrom C N fuel s).map Prod.snd).sum = N - s := by
  intro fuel
  induction fuel with
  | zero =>
    intro s hs
    rw [subBlocksFrom_of_not_lt C N 0 s (by omega)]
    simp
    omega
  | succ fuel ih =>
    intro s hs
    by_cases hlt : s < N
    · rw [subBlocksFrom_of_lt C N fuel s hlt, List.map_cons, List.sum_cons,
        ih (s + C) (by omega)]
      split_ifs <;> omega
    · rw [subBlocksFrom_of_not_lt C N _ s hlt]
      simp
      omega

theorem subBlocksFrom_mem (C N : Nat) (hC : 0 < C) :
    ∀ fuel s b, b ∈ subBlocksFrom C N fuel s →
      s ≤ b.1 ∧ 0 < b.2 ∧ b.2 ≤ C ∧ b.1 + b.2 ≤ N := by
  intro fuel
  induction fuel with
  | zero =>
    intro s b hb
    by_cases hlt : s < N
    · rw [subBlocksFrom.eq_def] at hb
      simp [hlt] at hb
    · rw [subBlocksFrom_of_not_lt C N 0 s hlt] at hb
      simp at hb
  | succ fuel ih =>
    intro s b hb
    by_cases hlt : s < N
    · rw [subBlocksFrom_of_lt C N fuel s hlt, List.mem_cons] at hb
      rcases hb with hb | hb
      · subst hb
        simp only
        split_ifs <;> omega
      · have := ih (s + C) b hb
        omega
    · rw [subBlocksFrom_of_not_lt C N _ s hlt] at hb
      simp at hb

/-! ### The loops of the render methods -/

theorem Params.get_of_length (ps : Params) (hp : NumParams ≤ ps.params.length) (p : PID)
    (h : p ≠ PID.NumParams) : ∃ q, ps.get p = some q := by
  have hlt : p.toInt < ps.params.length := by
    have h4 : NumParams = 4 := rfl
    cases p <;> simp [PID.toInt] at * <;> omega
  exact ⟨ps.params.get ⟨p.toInt, hlt⟩, List.get?_eq_get hlt⟩

theorem countP_flatten_map_one {α β : Type} (p : β → Bool) (f : α → List β)
    (h : ∀ a, (f a).countP p = 1) (l : List α) :
    ((l.map f).flatten).countP p = l.length := by
  induction l with
  | nil => rfl
  | cons a l ih =>
    rw [List.map_cons, List.flatten_cons, List.countP_append, ih, h a, List.length_cons]
    omega

theorem clearFrom_zero (startSample : Nat) (xs : List ℚ) :
    ∀ i, clearFrom startSample 0 i xs = xs := by
  induction xs with
  | nil => intro i; rfl
  | cons x xs ih =>
    intro i
    simp [clearFrom, ih]

theorem modifyAt_id {α : Type} (f : α → α) (hf : ∀ a, f a = a) (l : List α) :
    ∀ n, modifyAt f n l = l := by
  induction l with
  | nil => intro n; cases n <;> rfl
  | cons a l ih =>
    intro n
    cases n with
    | zero => simp [modifyAt, hf]
    | succ n => simp [modifyAt, ih]

theorem AudioBufferD.clear_zero (b : AudioBufferD) (channel startSample : Nat) :
    b.clear channel startSample 0 = b := by
  unfold AudioBufferD.clear
  rw [modifyAt_id _ (fun xs => clearFrom_zero startSample xs 0)]

theorem Processor.clearLoop_spec {σ : Type} (N : Nat) :
    ∀ (k i : Nat) (pr : Processor σ) (buffer : AudioBufferD),
      (Processor.clearLoop N k i (pr, buffer)).1 =
          { pr with calls := pr.calls ++ (List.range k).map fun j => Call.clear (i + j) 0 N } ∧
        (Processor.clearLoop N k i (pr, buffer)).2.numChannels = buffer.numChannels ∧
        (Processor.clearLoop N k i (pr, buffer)).2.numSamples = buffer.numSamples ∧
        (N = 0 → (Processor.clearLoop N k i (pr, buffer)).2 = buffer) := by
  intro k
  induction k with
  | zero =>
    intro i pr buffer
    simp [Processor.clearLoop]
  | succ k ih =>
    intro i pr buffer
    obtain ⟨h1, h2, h3, h4⟩ := ih (i + 1)
      { pr with calls := pr.calls ++ [Call.clear i 0 N] } (buffer.clear i 0 N)
    rw [Processor.clearLoop]
    refine ⟨?_, ?_, ?_, ?_⟩
    · rw [h1, List.range_succ_eq_map]
      simp [List.map_map, Function.comp_def, Nat.add_assoc, Nat.add_comm 1]
    · rw [h2]; rfl
    · rw [h3]; rfl
    · intro hN
      rw [h4 hN, hN, AudioBufferD.clear_zero]

theorem Processor.processBlockOversampler_some {σ : Type} (env : Env σ) (pr : Processor σ)
    (samples : Samples) (s numChannels numSamples : Nat)
    (hp : NumParams ≤ pr.params.params.length) :
    ∃ r, pr.processBlockOversampler env samples s numChannels numSamples = some r := by
  obtain ⟨q1, hq1⟩ := Params.get_of_length pr.params hp PID.Slew (by decide)
  obtain ⟨q2, hq2⟩ := Params.get_of_length pr.params hp PID.FilterType (by decide)
  simp [Processor.processBlockOversampler, PluginProcessor.call, hq1, hq2]

theorem Processor.processBlockOversampler_calls {σ : Type} (env : Env σ) (pr : Processor σ)
    (samples : Samples) (s numChannels numSamples : Nat) (pr1 : Processor σ)
    (samples1 : Samples)
    (h : pr.processBlockOversampler env samples s numChannels numSamples
      = some (pr1, samples1)) :
    ∃ w numSamplesUp, pr1 = { pr with
      ext := w
      calls := pr.calls ++
        [Call.upsample s numChannels numSamples,
          Call.pluginProcessor pr.pluginProcessor.sampleRate numChannels numSamplesUp,
          Call.downsample s numSamples] } := by
  unfold Processor.processBlockOversampler PluginProcessor.call at h
  cases h1 : pr.params.get PID.Slew with
  | none => simp [h1] at h
  | some q1 =>
    cases h2 : pr.params.get PID.FilterType with
    | none => simp [h1, h2] at h
    | some q2 =>
      simp only [h1, h2, Option.some.injEq, Prod.mk.injEq] at h
      refine ⟨pr1.ext, (env.upsample pr.ext samples s numChannels numSamples).2.2, ?_⟩
      rw [← h.1]
      simp

theorem Processor.processBlockLoop_some {σ : Type} (env : Env σ) (gainOutDb : ℚ)
    (numChannels N : Nat) (hC : 0 < env.BlockSize) :
    ∀ (fuel s : Nat) (pr : Processor σ) (samples : Samples),
      N - s ≤ fuel → NumParams ≤ pr.params.params.length →
      ∃ r, Processor.processBlockLoop env gainOutDb numChannels N fuel s (pr, samples)
        = some r := by
  intro fuel
  induction fuel with
  | zero =>
    intro s pr samples hs _
    rw [Processor.processBlockLoop.eq_def]
    simp [show ¬ s < N by omega]
  | succ fuel ih =>
    intro s pr samples hs hp
    rw [Processor.processBlockLoop.eq_def]
    by_cases hlt : s < N
    · simp only [hlt, if_true]
      obtain ⟨⟨pr1, samples1⟩, hr⟩ := Processor.processBlockOversampler_some env
        { pr with calls := pr.calls ++ [Call.samplesArray [0, 1] s] } samples s numChannels
        (if N - s < env.BlockSize then N - s else env.BlockSize) hp
      obtain ⟨w, nUp, hpr1⟩ := Processor.processBlockOversampler_calls env _ samples s
        numChannels _ pr1 samples1 hr
      simp only [hr]
      apply ih
      · omega
      · rw [hpr1]
        exact hp
    · simp [hlt]

theorem Processor.processBlockLoop_calls {σ : Type} (env : Env σ) (gainOutDb : ℚ)
    (numChannels N : Nat) :
    ∀ (fuel s : Nat) (pr : Processor σ) (samples : Samples) (pr' : Processor σ)
      (samples' : Samples),
      Processor.processBlockLoop env gainOutDb numChannels N fuel s (pr, samples)
        = some (pr', samples') →
      ∃ w new, pr' = { pr with ext := w, calls := pr.calls ++ new } ∧
        new.map Call.shape =
          ((subBlocksFrom env.BlockSize N fuel s).map fun b =>
            [(Stage.samplesArray, none), (Stage.upsample, some b), (Stage.dsp, none),
              (Stage.downsample, some b), (Stage.mixer, some b)]).flatten := by
  intro fuel
  induction fuel with
  | zero =>
    intro s pr samples pr' samples' h
    rw [Processor.processBlockLoop.eq_def] at h
    by_cases hlt : s < N
    · simp [hlt] at h
    · simp only [hlt, if_false, Option.some.injEq, Prod.mk.injEq] at h
      refine ⟨pr.ext, [], ?_, ?_⟩
      · rw [← h.1]
        simp
      · rw [subBlocksFrom_of_not_lt _ _ _ _ hlt]
        rfl
  | succ fuel ih =>
    intro s pr samples pr' samples' h
    rw [Processor.processBlockLoop.eq_def] at h
    by_cases hlt : s < N
    · simp only [hlt, if_true] at h
      cases hr : Processor.processBlockOversampler env
          { pr with calls := pr.calls ++ [Call.samplesArray [0, 1] s] } samples s numChannels
          (if N - s < env.BlockSize then N - s else env.BlockSize) with
      | none => simp [hr] at h
      | some r =>
        obtain ⟨pr1, samples1⟩ := r
        simp only [hr] at h
        obtain ⟨w, nUp, hpr1⟩ := Processor.processBlockOversampler_calls env _ samples s
          numChannels _ pr1 samples1 hr
        obtain ⟨w', new, hpr', hnew⟩ := ih _ _ _ _ _ h
        refine ⟨w', [Call.samplesArray [0, 1] s,
          Call.upsample s numChannels (if N - s < env.BlockSize then N - s else env.BlockSize),
          Call.pluginProcessor pr.pluginProcessor.sampleRate numChannels nUp,
          Call.downsample s (if N - s < env.BlockSize then N - s else env.BlockSize),
          Call.join s gainOutDb numChannels
            (if N - s < env.BlockSize then N - s else env.BlockSize)] ++ new, ?_, ?_⟩
        · rw [hpr', hpr1]
          simp
        · rw [subBlocksFrom_of_lt _ _ _ _ hlt, List.map_append, hnew]
          simp [Call.shape, Call.stage, Call.block]
    · simp only [hlt, if_false, Option.some.injEq, Prod.mk.injEq] at h
      refine ⟨pr.ext, [], ?_, ?_⟩
      · rw [← h.1]
        simp
      · rw [subBlocksFrom_of_not_lt _ _ _ _ hlt]
        rfl

theorem Processor.processBlockBypassedLoop_eq {σ : Type} (env : Env σ) (numChannels N : Nat)
    (hC : 0 < env.BlockSize) :
    ∀ (fuel s : Nat) (pr : Processor σ) (samples : Samples), N - s ≤ fuel →
      Processor.processBlockBypassedLoop env numChannels N fuel s (pr, samples) =
        some ({ pr with calls := pr.calls ++
          ((subBlocksFrom env.BlockSize N fuel s).map fun b =>
            [Call.samplesArray [0, 1] b.1,
              Call.processBlockBypassed b.1 numChannels b.2]).flatten }, samples) := by
  intro fuel
  induction fuel with
  | zero =>
    intro s pr samples hs
    rw [Processor.processBlockBypassedLoop.eq_def, subBlocksFrom_of_not_lt _ _ _ _ (by omega)]
    simp [show ¬ s < N by omega]
  | succ fuel ih =>
    intro s pr samples hs
    rw [Processor.processBlockBypassedLoop.eq_def]
    by_cases hlt : s < N
    · simp only [hlt, if_true]
      rw [PluginProcessor.processBlockBypassed, ih _ _ _ (by omega),
        subBlocksFrom_of_lt _ _ _ _ hlt]
      simp
    · rw [subBlocksFrom_of_not_lt _ _ _ _ hlt]
      simp [hlt]

theorem ceil_div_eq_natCeil (C N : Nat) (hC : 0 < C) :
    (N + C - 1) / C = ⌈(N : ℚ) / (C : ℚ)⌉₊ := by
  have hCq : (0 : ℚ) < (C : ℚ) := by exact_mod_cast hC
  have h := Nat.div_add_mod N C
  have hr := Nat.mod_lt N hC
  have hN : (N : ℚ) = (C : ℚ) * ((N / C : ℕ) : ℚ) + ((N % C : ℕ) : ℚ) := by
    exact_mod_cast h.symm
  rw [ceil_div_cases C N hC]
  symm
  split_ifs with h0
  · have hq : (N : ℚ) / (C : ℚ) = ((N / C : ℕ) : ℚ) := by
      rw [hN, h0]
      field_simp
    rw [hq, Nat.ceil_natCast]
  · rw [Nat.ceil_eq_iff (Nat.succ_ne_zero _)]
    have hrq : (0 : ℚ) < ((N % C : ℕ) : ℚ) := by
      exact_mod_cast Nat.pos_of_ne_zero h0
    have hrq' : ((N % C : ℕ) : ℚ) < (C : ℚ) := by exact_mod_cast hr
    constructor
    · show ((N / C : ℕ) : ℚ) < (N : ℚ) / (C : ℚ)
      rw [lt_div_iff₀ hCq, hN]
      nlinarith
    · rw [div_le_iff₀ hCq, hN]
      push_cast
      nlinarith

theorem specSubBlocks_eq_nil (C N : Nat) (hC : 0 < C) (hN : N = 0) :
    specSubBlocks C N = [] := by
  subst hN
  have h0 : (C - 1) / C = 0 := Nat.div_eq_of_lt (by omega)
  simp [specSubBlocks, h0]

theorem Processor.processBlock_spec {σ : Type} (env : Env σ) (pr : Processor σ)
    (buffer : AudioBufferD) (hC : 0 < env.BlockSize)
    (hp : NumParams ≤ pr.params.params.length) :
    ∃ (pr' : Processor σ) (buffer' : AudioBufferD) (new : List Call),
      pr.processBlock env buffer = some (pr', buffer') ∧
      pr'.calls = pr.calls
        ++ (List.range (pr.totalNumOutputChannels - pr.totalNumInputChannels)).map
            (fun j => Call.clear (pr.totalNumInputChannels + j) 0 buffer.numSamples)
        ++ new
        ++ (if env.JUCE_DEBUG = true ∧ buffer.numSamples ≠ 0
            then [Call.hardclip buffer.numChannels buffer.numSamples] else []) ∧
      new.map Call.shape =
        ((specSubBlocks env.BlockSize buffer.numSamples).map fun b =>
          [(Stage.samplesArray, none), (Stage.upsample, some b), (Stage.dsp, none),
            (Stage.downsample, some b), (Stage.mixer, some b)]).flatten ∧
      (∀ st ∈ [Stage.upsample, Stage.dsp, Stage.downsample, Stage.mixer],
        new.countP (fun c => decide (c.stage = st))
          = ⌈(buffer.numSamples : ℚ) / (env.BlockSize : ℚ)⌉₊) ∧
      (specSubBlocks env.BlockSize buffer.numSamples).length
        = ⌈(buffer.numSamples : ℚ) / (env.BlockSize : ℚ)⌉₊ ∧
      ((specSubBlocks env.BlockSize buffer.numSamples).map Prod.snd).sum
        = buffer.numSamples ∧
      (∀ b ∈ specSubBlocks env.BlockSize buffer.numSamples,
        0 < b.2 ∧ b.2 ≤ env.BlockSize ∧ b.1 + b.2 ≤ buffer.numSamples) ∧
      (buffer.numSamples = 0 → new = [] ∧ buffer' = buffer) := by
  have hlen : (specSubBlocks env.BlockSize buffer.numSamples).length
      = ⌈(buffer.numSamples : ℚ) / (env.BlockSize : ℚ)⌉₊ := by
    rw [← ceil_div_eq_natCeil _ _ hC]
    simp [specSubBlocks]
  have hsum : ((specSubBlocks env.BlockSize buffer.numSamples).map Prod.snd).sum
      = buffer.numSamples := by
    rw [← subBlocksFrom_eq_spec _ _ hC, subBlocksFrom_sum _ _ hC _ _ (by omega)]
    rfl
  have hmem : ∀ b ∈ specSubBlocks env.BlockSize buffer.numSamples,
      0 < b.2 ∧ b.2 ≤ env.BlockSize ∧ b.1 + b.2 ≤ buffer.numSamples := by
    intro b hb
    rw [← subBlocksFrom_eq_spec _ _ hC] at hb
    exact (subBlocksFrom_mem _ _ hC _ _ b hb).2
  have hcount : ∀ (new : List Call), new.map Call.shape =
        ((specSubBlocks env.BlockSize buffer.numSamples).map fun b =>
          [(Stage.samplesArray, none), (Stage.upsample, some b), (Stage.dsp, none),
            (Stage.downsample, some b), (Stage.mixer, some b)]).flatten →
      ∀ st ∈ [Stage.upsample, Stage.dsp, Stage.downsample, Stage.mixer],
        new.countP (fun c => decide (c.stage = st))
          = ⌈(buffer.numSamples : ℚ) / (env.BlockSize : ℚ)⌉₊ := by
    intro new hnew st hst
    have e : new.countP (fun c => decide (c.stage = st))
        = (new.map Call.shape).countP (fun x => decide (x.1 = st)) := by
      rw [List.countP_map]
      rfl
    rw [e, hnew, countP_flatten_map_one, hlen]
    intro b
    simp only [List.mem_cons, List.mem_singleton, List.not_mem_nil, or_false] at hst
    rcases hst with rfl | rfl | rfl | rfl <;> rfl
  obtain ⟨h1, h2, h3, h4⟩ := Processor.clearLoop_spec buffer.numSamples
    (pr.totalNumOutputChannels - pr.totalNumInputChannels) pr.totalNumInputChannels pr buffer
  unfold Processor.processBlock
  dsimp only
  generalize Processor.clearLoop buffer.numSamples
    (pr.totalNumOutputChannels - pr.totalNumInputChannels) pr.totalNumInputChannels
    (pr, buffer) = R at h1 h2 h3 h4 ⊢
  obtain ⟨R1, R2⟩ := R
  simp only at h1 h2 h3 h4 ⊢
  subst h1
  by_cases hN : buffer.numSamples = 0
  · rw [if_pos hN]
    refine ⟨_, _, [], rfl, ?_, ?_, ?_, hlen, hsum, hmem, ?_⟩
    · simp [hN]
    · rw [specSubBlocks_eq_nil _ _ hC hN]
      rfl
    · exact hcount [] (by rw [specSubBlocks_eq_nil _ _ hC hN]; rfl)
    · intro _
      exact ⟨rfl, h4 hN⟩
  · obtain ⟨pGain, hGain⟩ := Params.get_of_length pr.params hp PID.GainOut (by decide)
    rw [if_neg hN]
    simp only [hGain]
    obtain ⟨⟨pr1, samples1⟩, hloop⟩ := Processor.processBlockLoop_some env pGain.getValueDenorm
      R2.numChannels buffer.numSamples hC buffer.numSamples 0
      { pr with
        calls := pr.calls ++
          List.map (fun j => Call.clear (pr.totalNumInputChannels + j) 0 buffer.numSamples)
            (List.range (pr.totalNumOutputChannels - pr.totalNumInputChannels)) }
      R2.samples (by omega) hp
    obtain ⟨w, new, hpr1, hnew⟩ := Processor.processBlockLoop_calls env _ _ _ _ _ _ _ _ _ hloop
    rw [subBlocksFrom_eq_spec _ _ hC] at hnew
    rw [hloop]
    by_cases hdbg : env.JUCE_DEBUG = true
    · simp only [hdbg, if_true]
      refine ⟨_, _, new, rfl, ?_, hnew, hcount new hnew, hlen, hsum, hmem, ?_⟩
      · subst hpr1
        simp [hN, hdbg, h2]
      · intro h0
        exact absurd h0 hN
    · simp only [hdbg]
      refine ⟨_, _, new, rfl, ?_, hnew, hcount new hnew, hlen, hsum, hmem, ?_⟩
      · subst hpr1
        simp [hdbg]
      · intro h0
        exact absurd h0 hN

/-- C9: for a host buffer of `N ≥ 0` samples and chunk length `C = dsp::BlockSize > 0`,
`processBlock` returns, and the calls it makes after the clearing of the spare output channels
are, for each sub-block in turn, `upsample`, the DSP stage, `downsample` and the mixer: each is
invoked `ceil (N / C)` times (no call, and the buffer returned as it was, when `N = 0`), on the
consecutive sub-blocks at the offsets `0, C, 2C, ...`, each of `C` samples except the last,
which has `N - C * floor (N / C)` samples (`C` when `N` is an exact multiple); the sub-block
lengths sum to `N` and every sub-block lies inside `[0, N)`. -/
theorem Processor.processBlock_chunking {σ : Type} (env : Env σ) (pr : Processor σ)
    (buffer : AudioBufferD) (hC : 0 < env.BlockSize)
    (hp : NumParams ≤ pr.params.params.length) :
    ∃ (pr' : Processor σ) (buffer' : AudioBufferD) (new : List Call),
      pr.processBlock env buffer = some (pr', buffer') ∧
      pr'.calls = pr.calls
        ++ (List.range (pr.totalNumOutputChannels - pr.totalNumInputChannels)).map
            (fun j => Call.clear (pr.totalNumInputChannels + j) 0 buffer.numSamples)
        ++ new
        ++ (if env.JUCE_DEBUG = true ∧ buffer.numSamples ≠ 0
            then [Call.hardclip buffer.numChannels buffer.numSamples] else []) ∧
      new.map Call.shape =
        ((specSubBlocks env.BlockSize buffer.numSamples).map fun b =>
          [(Stage.samplesArray, none), (Stage.upsample, some b), (Stage.dsp, none),
            (Stage.downsample, some b), (Stage.mixer, some b)]).flatten ∧
      (∀ st ∈ [Stage.upsample, Stage.dsp, Stage.downsample, Stage.mixer],
        new.countP (fun c => decide (c.stage = st))
          = ⌈(buffer.numSamples : ℚ) / (env.BlockSize : ℚ)⌉₊) ∧
      (specSubBlocks env.BlockSize buffer.numSamples).length
        = ⌈(buffer.numSamples : ℚ) / (env.BlockSize : ℚ)⌉₊ ∧
      ((specSubBlocks env.BlockSize buffer.numSamples).map Prod.snd).sum
        = buffer.numSamples ∧
      (∀ b ∈ specSubBlocks env.BlockSize buffer.numSamples,
        0 < b.2 ∧ b.2 ≤ env.BlockSize ∧ b.1 + b.2 ≤ buffer.numSamples) ∧
      (buffer.numSamples = 0 → new = [] ∧ buffer' = buffer) :=
  Processor.processBlock_spec env pr buffer hC hp

/-- The instance of C9 for a buffer of `10` samples and chunk length `8`: two passes, over
`8` samples at offset `0` and over `2` samples at offset `8`. -/
theorem Processor.processBlock_chunking_witness :
    0 < Env.example.BlockSize ∧ NumParams ≤ Processor.example.params.params.length ∧
    ∃ (pr' : Processor Unit) (buffer' : AudioBufferD),
      Processor.example.processBlock Env.example AudioBufferD.example = some (pr', buffer') ∧
      pr'.calls.map Call.shape =
        [(Stage.samplesArray, none), (Stage.upsample, some (0, 8)), (Stage.dsp, none),
          (Stage.downsample, some (0, 8)), (Stage.mixer, some (0, 8)),
          (Stage.samplesArray, none), (Stage.upsample, some (8, 2)), (Stage.dsp, none),
          (Stage.downsample, some (8, 2)), (Stage.mixer, some (8, 2))] := by
  have hC : 0 < Env.example.BlockSize := by decide
  have hp : NumParams ≤ Processor.example.params.params.length := by decide
  obtain ⟨pr', buffer', new, h1, h2, h3, _⟩ :=
    Processor.processBlock_chunking Env.example Processor.example AudioBufferD.example hC hp
  refine ⟨hC, hp, pr', buffer', h1, ?_⟩
  have hs : specSubBlocks Env.example.BlockSize AudioBufferD.example.numSamples
      = [(0, 8), (8, 2)] := by decide
  have hcalls : pr'.calls = new := by
    rw [h2]
    simp [Processor.example, Env.example, AudioBufferD.example]
  rw [hcalls, h3, hs]
  rfl

theorem filterMap_flatten_map_one {α β γ : Type} (g : β → Option γ) (f : α → List β)
    (e : α → γ) (h : ∀ a, (f a).filterMap g = [e a]) (l : List α) :
    ((l.map f).flatten).filterMap g = l.map e := by
  induction l with
  | nil => rfl
  | cons a l ih =>
    rw [List.map_cons, List.flatten_cons, List.filterMap_append, ih, h a]
    rfl

/-- C10: for a double-precision buffer of `N` samples, `processBlockBypassed` returns the
buffer it was given, sample for sample, and changes nothing of the processor but the log of
calls: it invokes the bypass path of the DSP stage `ceil (N / C)` times, once per sub-block
of the chunking, makes no call to the mixer, to the active DSP path or to the oversampler,
and the sub-blocks are those the mixer is handed by `processBlock` on the same buffer. -/
theorem Processor.processBlockBypassed_chunking {σ : Type} (env : Env σ) (pr : Processor σ)
    (buffer : AudioBufferD) (hC : 0 < env.BlockSize) :
    ∃ new : List Call,
      pr.processBlockBypassed env buffer
        = some ({ pr with calls := pr.calls ++ new }, buffer) ∧
      new = ((specSubBlocks env.BlockSize buffer.numSamples).map fun b =>
        [Call.samplesArray [0, 1] b.1,
          Call.processBlockBypassed b.1 (if buffer.numChannels = 2 then 2 else 1)
            b.2]).flatten ∧
      new.countP (fun c => decide (c.stage = Stage.bypass))
        = ⌈(buffer.numSamples : ℚ) / (env.BlockSize : ℚ)⌉₊ ∧
      new.filterMap Call.block = specSubBlocks env.BlockSize buffer.numSamples ∧
      (∀ c ∈ new, c.stage ≠ Stage.mixer ∧ c.stage ≠ Stage.dsp ∧ c.stage ≠ Stage.upsample ∧
        c.stage ≠ Stage.downsample) ∧
      (NumParams ≤ pr.params.params.length →
        ∃ (pr2 : Processor σ) (buffer2 : AudioBufferD) (new2 : List Call),
          pr.processBlock env buffer = some (pr2, buffer2) ∧
          pr2.calls = pr.calls
            ++ (List.range (pr.totalNumOutputChannels - pr.totalNumInputChannels)).map
                (fun j => Call.clear (pr.totalNumInputChannels + j) 0 buffer.numSamples)
            ++ new2
            ++ (if env.JUCE_DEBUG = true ∧ buffer.numSamples ≠ 0
                then [Call.hardclip buffer.numChannels buffer.numSamples] else []) ∧
          new2.filterMap (fun c => if c.stage = Stage.mixer then c.block else none)
            = new.filterMap Call.block) := by
  have hblocks : (((specSubBlocks env.BlockSize buffer.numSamples).map fun b =>
        [Call.samplesArray [0, 1] b.1,
          Call.processBlockBypassed b.1 (if buffer.numChannels = 2 then 2 else 1)
            b.2]).flatten).filterMap Call.block
      = specSubBlocks env.BlockSize buffer.numSamples := by
    rw [filterMap_flatten_map_one Call.block (fun b : Nat × Nat =>
        [Call.samplesArray [0, 1] b.1,
          Call.processBlockBypassed b.1 (if buffer.numChannels = 2 then 2 else 1) b.2])
      (fun b => b) (fun b => rfl), List.map_id']
  refine ⟨_, ?_, rfl, ?_, hblocks, ?_, ?_⟩
  · unfold Processor.processBlockBypassed
    dsimp only
    by_cases hN : buffer.numSamples = 0
    · rw [if_pos hN, specSubBlocks_eq_nil _ _ hC hN]
      simp [processMacroMod]
    · rw [if_neg hN, Processor.processBlockBypassedLoop_eq env _ _ hC _ _ _ _ (by omega),
        subBlocksFrom_eq_spec _ _ hC]
      simp [processMacroMod]
  · rw [countP_flatten_map_one (fun c : Call => decide (c.stage = Stage.bypass)) (fun b : Nat × Nat =>
        [Call.samplesArray [0, 1] b.1,
          Call.processBlockBypassed b.1 (if buffer.numChannels = 2 then 2 else 1) b.2])
      (fun b => rfl), ← ceil_div_eq_natCeil _ _ hC]
    simp [specSubBlocks]
  · intro c hc
    simp only [List.mem_flatten, List.mem_map] at hc
    obtain ⟨l, ⟨b, _, rfl⟩, hcl⟩ := hc
    simp only [List.mem_cons, List.mem_singleton, List.not_mem_nil, or_false] at hcl
    rcases hcl with rfl | rfl <;> simp [Call.stage]
  · intro hp
    obtain ⟨pr2, buffer2, new2, h1, h2, h3, _⟩ :=
      Processor.processBlock_spec env pr buffer hC hp
    refine ⟨pr2, buffer2, new2, h1, h2, ?_⟩
    have e : new2.filterMap (fun c => if c.stage = Stage.mixer then c.block else none)
        = (new2.map Call.shape).filterMap
            (fun x => if x.1 = Stage.mixer then x.2 else none) := by
      rw [List.filterMap_map]
      rfl
    rw [e, h3, hblocks,
      filterMap_flatten_map_one (fun x : Stage × Option (Nat × Nat) =>
          if x.1 = Stage.mixer then x.2 else none)
        (fun b : Nat × Nat =>
          [(Stage.samplesArray, none), (Stage.upsample, some b), (Stage.dsp, none),
            (Stage.downsample, some b), (Stage.mixer, some b)])
        (fun b => b) (fun b => rfl), List.map_id']

/-- The instance of C10 for a buffer of `10` samples and chunk length `8`: the bypass path
runs on `8` samples at offset `0` and on `2` samples at offset `8`, and the buffer comes back
as it was. -/
theorem Processor.processBlockBypassed_chunking_witness :
    0 < Env.example.BlockSize ∧
    Processor.example.processBlockBypassed Env.example AudioBufferD.example
      = some ({ Processor.example with
          calls := [Call.samplesArray [0, 1] 0, Call.processBlockBypassed 0 2 8,
            Call.samplesArray [0, 1] 8, Call.processBlockBypassed 8 2 2] },
        AudioBufferD.example) := by
  have hC : 0 < Env.example.BlockSize := by decide
  obtain ⟨new, h1, h2, _⟩ :=
    Processor.processBlockBypassed_chunking Env.example Processor.example
      AudioBufferD.example hC
  have hs : specSubBlocks Env.example.BlockSize AudioBufferD.example.numSamples
      = [(0, 8), (8, 2)] := by decide
  refine ⟨hC, ?_⟩
  rw [h1, h2, hs]
  rfl

end audio

/-! ## Theorems: the parameter, continued -/

namespace param

theorem jlimit_of_mem (lo hi v : ℚ) (h1 : lo ≤ v) (h2 : v ≤ hi) : jlimit lo hi v = v := by
  unfold jlimit
  rw [if_neg (not_lt.mpr h1), if_neg (not_lt.mpr h2)]

/-- C12: on an unlocked parameter with depth-lock mode off, for every input `v`, `setValue v`
changes the stored normalized value to `v` and nothing else: `getValue` returns `v`, and the
maximum modulation depth, the modulation bias, the cached modulated value, the lock flag and
the gesture flag are the ones before the call. -/
theorem Param.setValue_plain (p : Param) (v : ℚ) (hl : p.locked = false)
    (hd : p.modDepthLocked = false) :
    p.setValue v = { p with valNorm := v } ∧
    (p.setValue v).getValue = v ∧
    (p.setValue v).maxModDepth = p.maxModDepth ∧
    (p.setValue v).modBias = p.modBias ∧
    (p.setValue v).valMod = p.valMod ∧
    (p.setValue v).locked = p.locked ∧
    (p.setValue v).inGesture = p.inGesture := by
  have h : p.setValue v = { p with valNorm := v } := by
    simp [Param.setValue, Param.isLocked, hl, hd]
  rw [h]
  exact ⟨rfl, rfl, rfl, rfl, rfl, rfl, rfl⟩

/-- The instance of C12 at the example parameter, with input `2`. -/
theorem Param.setValue_plain_witness :
    Param.example.locked = false ∧ Param.example.modDepthLocked = false ∧
    (Param.example.setValue 2).getValue = 2 ∧
    (Param.example.setValue 2).maxModDepth = Param.example.maxModDepth :=
  ⟨rfl, rfl, (Param.setValue_plain Param.example 2 rfl rfl).2.1,
    (Param.setValue_plain Param.example 2 rfl rfl).2.2.1⟩

/-- C13: on an unlocked parameter in depth-lock mode with base `p0` and depth `d0`, for every
`p1` with `d0 - p1 + p0` in `[-1, 1]`, after `setValue p1` the sum of base value and maximum
modulation depth is the one before the call: `p1 + d1 = p0 + d0`. -/
theorem Param.setValue_depth_lock_sum (p : Param) (p1 : ℚ) (hl : p.locked = false)
    (hd : p.modDepthLocked = true)
    (hr : -1 ≤ p.maxModDepth - p1 + p.valNorm ∧ p.maxModDepth - p1 + p.valNorm ≤ 1) :
    (p.setValue p1).getValue + (p.setValue p1).getMaxModDepth
      = p.getValue + p.getMaxModDepth := by
  simp only [Param.setValue, Param.setMaxModDepth, Param.isLocked, Param.getValue,
    Param.getMaxModDepth, hl, hd, jlimit_of_mem _ _ _ hr.1 hr.2]
  simp only [Bool.not_true, Bool.false_eq_true, if_false]
  ring

/-- The instance of C13 at the example parameter in depth-lock mode (base `36/127`, depth
`0`), with input `1/2`. -/
theorem Param.setValue_depth_lock_sum_witness :
    ((Param.example.setModDepthLocked true).setValue (1 / 2)).getValue
        + ((Param.example.setModDepthLocked true).setValue (1 / 2)).getMaxModDepth
      = (Param.example.setModDepthLocked true).getValue
        + (Param.example.setModDepthLocked true).getMaxModDepth :=
  Param.setValue_depth_lock_sum (Param.example.setModDepthLocked true) (1 / 2) rfl rfl
    (by
      have h1 : (Param.example.setModDepthLocked true).maxModDepth = 0 := rfl
      have h2 : (Param.example.setModDepthLocked true).valNorm = 36 / 127 := by
        norm_num [Param.example, Param.ctor, Param.setModDepthLocked, Range.linear, jlimit]
      rw [h1, h2]
      norm_num)

/-- C14: on a locked parameter, for every key-value store, whichever of the keys `value`,
`maxmoddepth` and `modbias` it holds, `loadPatch` returns the state it was given: the
normalized value, the maximum modulation depth and the modulation bias are unchanged. -/
theorem Param.loadPatch_locked (p : Param) (state : State) (h : p.locked = true) :
    p.loadPatch state = p ∧
    (p.loadPatch state).valNorm = p.valNorm ∧
    (p.loadPatch state).maxModDepth = p.maxModDepth ∧
    (p.loadPatch state).modBias = p.modBias := by
  have h1 : p.loadPatch state = p := by
    simp [Param.loadPatch, Param.isLocked, h]
  rw [h1]
  exact ⟨rfl, rfl, rfl, rfl⟩

/-- The instance of C14 at the locked example parameter and a store holding all three keys. -/
theorem Param.loadPatch_locked_witness :
    (Param.example.setLocked true).locked = true ∧
    (Param.example.setLocked true).loadPatch
        [("params/slew/value", 100), ("params/slew/maxmoddepth", 1),
          ("params/slew/modbias", 1 / 4)]
      = Param.example.setLocked true :=
  ⟨rfl, (Param.loadPatch_locked (Param.example.setLocked true) _ rfl).1⟩

theorem Param.loadPatch_fields (p : Param) (state : State) (hl : p.locked = false) :
    (p.loadPatch state).valNorm =
      (match state.get (p.idStr ++ "/value") with
        | some val => p.range.convertTo0to1 (p.range.snapToLegalValue val)
        | none => p.valNorm) ∧
    (p.loadPatch state).modBias =
      (match state.get (p.idStr ++ "/modbias") with
        | some b => jlimit Param.BiasEps (1 - Param.BiasEps) b
        | none => p.modBias) ∧
    (p.loadPatch state).maxModDepth =
      (match state.get (p.idStr ++ "/maxmoddepth") with
        | some d => jlimit (-1) 1 d
        | none =>
          match state.get (p.idStr ++ "/value") with
          | some val =>
            if p.modDepthLocked then
              jlimit (-1) 1
                (p.maxModDepth - p.range.convertTo0to1 (p.range.snapToLegalValue val)
                  + p.valNorm)
            else p.maxModDepth
          | none => p.maxModDepth) := by
  dsimp only [Param.loadPatch]
  cases hd : p.modDepthLocked <;>
    cases State.get state (p.idStr ++ "/value") <;>
    cases State.get state (p.idStr ++ "/maxmoddepth") <;>
    cases State.get state (p.idStr ++ "/modbias") <;>
    simp [Param.isLocked, Param.setValueNotifyingHost, Param.setValue, Param.setMaxModDepth,
      Param.setModBias, Param.getMaxModDepth, hl, hd]

/-- C15, as stated, fails: the unlocked parameter with range `[0, 1]`, default `0` and
depth-lock mode on loads a store that holds only `params/slew/value = 1`; the key
`params/slew/maxmoddepth` is absent, yet the stored maximum modulation depth changes (from
`0` to `-1`). -/
theorem Param.loadPatch_absent_depth_key_changes :
    ¬ (State.get [("params/slew/value", 1)]
          (((Param.ctor PID.Slew (Range.linear 0 1 0) 0 (fun _ => "")
            (fun _ => 0)).setModDepthLocked true).idStr ++ "/maxmoddepth") = none →
        (((Param.ctor PID.Slew (Range.linear 0 1 0) 0 (fun _ => "")
            (fun _ => 0)).setModDepthLocked true).loadPatch
              [("params/slew/value", 1)]).maxModDepth
          = ((Param.ctor PID.Slew (Range.linear 0 1 0) 0 (fun _ => "")
            (fun _ => 0)).setModDepthLocked true).maxModDepth) := by
  intro h
  have h1 := h (by decide)
  have hk1 : State.get [("params/slew/value", 1)]
      (((Param.ctor PID.Slew (Range.linear 0 1 0) 0 (fun _ => "")
        (fun _ => 0)).setModDepthLocked true).idStr ++ "/maxmoddepth") = none := by decide
  have hk2 : State.get [("params/slew/value", 1)]
      (((Param.ctor PID.Slew (Range.linear 0 1 0) 0 (fun _ => "")
        (fun _ => 0)).setModDepthLocked true).idStr ++ "/value") = some 1 := by decide
  rw [(Param.loadPatch_fields _ _ rfl).2.2, hk1, hk2] at h1
  norm_num [Param.ctor, Param.setModDepthLocked, Range.linear, jlimit] at h1

/-- C15, amended: for every parameter state and every key-value store, after `loadPatch` the
normalized value is the one before when the key `value` is absent, the modulation bias is the
one before when the key `modbias` is absent, and the maximum modulation depth is the one
before when the key `maxmoddepth` is absent and either depth-lock mode is off or the key
`value` is absent too; on an unlocked parameter in depth-lock mode, a store that holds `value`
and not `maxmoddepth` moves the depth by the depth-lock law of `setValue`, to
`d0 - p1 + p0` clamped to `[-1, 1]`, `p1` being the loaded normalized value. -/
theorem Param.loadPatch_absent_keys (p : Param) (state : State) :
    (state.get (p.idStr ++ "/value") = none → (p.loadPatch state).valNorm = p.valNorm) ∧
    (state.get (p.idStr ++ "/modbias") = none → (p.loadPatch state).modBias = p.modBias) ∧
    (state.get (p.idStr ++ "/maxmoddepth") = none →
      (p.modDepthLocked = false ∨ state.get (p.idStr ++ "/value") = none) →
      (p.loadPatch state).maxModDepth = p.maxModDepth) ∧
    (∀ val, p.locked = false → p.modDepthLocked = true →
      state.get (p.idStr ++ "/value") = some val →
      state.get (p.idStr ++ "/maxmoddepth") = none →
      (p.loadPatch state).maxModDepth =
        max (-1) (min 1 (p.maxModDepth
          - p.range.convertTo0to1 (p.range.snapToLegalValue val) + p.valNorm))) := by
  cases hl : p.locked
  · obtain ⟨h1, h2, h3⟩ := Param.loadPatch_fields p state hl
    refine ⟨?_, ?_, ?_, ?_⟩
    · intro hv
      rw [h1, hv]
    · intro hb
      rw [h2, hb]
    · intro hd hor
      rw [h3, hd]
      rcases hor with hm | hv
      · cases State.get state (p.idStr ++ "/value") <;> simp [hm]
      · rw [hv]
    · intro val _ hm hv hd
      rw [h3, hd, hv]
      simp [hm, jlimit_eq_max_min]
  · have h0 : p.loadPatch state = p := by
      simp [Param.loadPatch, Param.isLocked, hl]
    rw [h0]
    refine ⟨fun _ => rfl, fun _ => rfl, fun _ _ => rfl, ?_⟩
    intro val hc
    exact absurd hc (by simp)

/-- The instance of amended C15 at the example parameter and a store that holds only the key
`maxmoddepth`: value and bias stay. -/
theorem Param.loadPatch_absent_keys_witness :
    State.get [("params/slew/maxmoddepth", 1)] (Param.example.idStr ++ "/value") = none ∧
    State.get [("params/slew/maxmoddepth", 1)] (Param.example.idStr ++ "/modbias") = none ∧
    (Param.example.loadPatch [("params/slew/maxmoddepth", 1)]).valNorm
      = Param.example.valNorm ∧
    (Param.example.loadPatch [("params/slew/maxmoddepth", 1)]).modBias
      = Param.example.modBias :=
  ⟨by decide, by decide,
    (Param.loadPatch_absent_keys Param.example [("params/slew/maxmoddepth", 1)]).1
      (by decide),
    (Param.loadPatch_absent_keys Param.example [("params/slew/maxmoddepth", 1)]).2.1
      (by decide)⟩

theorem Params.savePatch_foldl_length (ps : List Param) :
    ∀ state : State,
      (ps.foldl (fun st param => Param.savePatch param st) state).length
        = state.length + 3 * ps.length := by
  induction ps with
  | nil => intro state; rfl
  | cons p ps ih =>
    intro state
    rw [List.foldl_cons, ih]
    simp only [Param.savePatch, State.set, List.length_cons]
    omega

/-- C16: `Param::savePatch` writes exactly three entries, under the keys `params/<id>/value`,
`params/<id>/maxmoddepth` and `params/<id>/modbias`, where `<id>` is the display name of the
parameter lower-cased and without spaces (`slew`, `filtertype`, `gainout`, `hq`), and they hold
the denormalized value, the maximum modulation depth and the bias; `Params::savePatch` writes
the entries of every member and then `params/moddepthlocked`, whose value is `1` when
depth-lock is on and `0` otherwise. -/
theorem Param.savePatch_entries (p : Param) (ps : Params) (state : State) :
    p.savePatch state =
      (p.idStr ++ "/modbias", p.getModBias) :: (p.idStr ++ "/maxmoddepth", p.getMaxModDepth)
        :: (p.idStr ++ "/value", p.getValueDenorm) :: state ∧
    p.idStr = "params/" ++ toID (toString p.id) ∧
    toID (toString PID.Slew) = "slew" ∧
    toID (toString PID.FilterType) = "filtertype" ∧
    toID (toString PID.GainOut) = "gainout" ∧
    toID (toString PID.HQ) = "hq" ∧
    (State.get (p.savePatch state) (p.idStr ++ "/value") = some p.getValueDenorm ∧
      State.get (p.savePatch state) (p.idStr ++ "/maxmoddepth") = some p.getMaxModDepth ∧
      State.get (p.savePatch state) (p.idStr ++ "/modbias") = some p.getModBias) ∧
    ps.savePatch state =
      ("params/moddepthlocked", if ps.isModDepthLocked then 1 else 0)
        :: ps.params.foldl (fun st param => param.savePatch st) state ∧
    (ps.savePatch state).length = state.length + 3 * ps.params.length + 1 := by
  refine ⟨rfl, rfl, by decide, by decide, by decide, by decide, ?_, rfl, ?_⟩
  · have hkeys : (p.idStr ++ "/value" == p.idStr ++ "/modbias") = false ∧
        (p.idStr ++ "/value" == p.idStr ++ "/maxmoddepth") = false ∧
        (p.idStr ++ "/maxmoddepth" == p.idStr ++ "/modbias") = false := by
      unfold Param.idStr
      cases p.id <;> decide
    simp [Param.savePatch, State.set, State.get, List.lookup, Param.getValueDenorm,
      hkeys.1, hkeys.2.1, hkeys.2.2]
  · simp only [Params.savePatch, State.set, List.length_cons,
      Params.savePatch_foldl_length]

/-- C18, as stated, fails: for the range `[0, 10]` with interval `2` (non-zero, and not the
interval `1` over `[0, 1]`) `getType` returns `Float`, not `Int`; so `Float` is not returned
only for the interval zero. -/
theorem Param.getType_interval_two :
    ¬ (((Param.ctor PID.Slew (Range.linear 0 10 2) 0 (fun _ => "")
          (fun _ => 0)).range.interval ≠ 0 →
        (Param.ctor PID.Slew (Range.linear 0 10 2) 0 (fun _ => "")
          (fun _ => 0)).getType = ParamType.Int) ∧
      ((Param.ctor PID.Slew (Range.linear 0 10 2) 0 (fun _ => "")
          (fun _ => 0)).getType = ParamType.Float ↔
        (Param.ctor PID.Slew (Range.linear 0 10 2) 0 (fun _ => "")
          (fun _ => 0)).range.interval = 0)) := by
  have h : (Param.ctor PID.Slew (Range.linear 0 10 2) 0 (fun _ => "")
      (fun _ => 0)).getType = ParamType.Float := by
    norm_num [Param.getType, Param.ctor, Range.linear]
  have hi : (Param.ctor PID.Slew (Range.linear 0 10 2) 0 (fun _ => "")
      (fun _ => 0)).range.interval = 2 := rfl
  rw [h, hi]
  rintro ⟨h1, _⟩
  exact absurd (h1 (by norm_num)) (by decide)

/-- C18, amended: `getType` returns `Bool` exactly when the interval is `1` and the
denormalized domain is `[0, 1]`, returns `Int` exactly when the interval is `1` over any other
domain, and returns `Float` exactly when the interval is not `1`, zero or not. -/
theorem Param.getType_cases (p : Param) :
    (p.getType = ParamType.Bool ↔
      p.range.interval = 1 ∧ p.range.start = 0 ∧ p.range.end_ = 1) ∧
    (p.getType = ParamType.Int ↔
      p.range.interval = 1 ∧ ¬ (p.range.start = 0 ∧ p.range.end_ = 1)) ∧
    (p.getType = ParamType.Float ↔ p.range.interval ≠ 1) := by
  unfold Param.getType
  by_cases hi : p.range.interval = 1
  · by_cases hse : p.range.start = 0 ∧ p.range.end_ = 1
    · simp [hi, hse]
    · simp [hi, hse]
  · simp [hi]

/-- C19: `beginGesture` sets the in-gesture flag and sends one gesture-start signal;
`endGesture` clears the flag and sends one gesture-end signal; `setValueWithGesture v` returns
the state it was given, with nothing sent, when the in-gesture flag is set, and otherwise
sends gesture-start, the value change to `v`, gesture-end, in that order, around one call of
`setValue v`. -/
theorem Param.gesture_protocol (p : Param) (v : ℚ) :
    p.beginGesture
      = { p with inGesture := true, host := p.host ++ [HostSignal.gestureBegin] } ∧
    p.endGesture
      = { p with inGesture := false, host := p.host ++ [HostSignal.gestureEnd] } ∧
    (p.inGesture = true → p.setValueWithGesture v = p) ∧
    (p.inGesture = false →
      p.setValueWithGesture v =
        { p.setValue v with
          host := p.host ++
            [HostSignal.gestureBegin, HostSignal.valueChanged v, HostSignal.gestureEnd] } ∧
      (p.setValueWithGesture v).inGesture = false) := by
  refine ⟨rfl, rfl, ?_, ?_⟩
  · intro h
    simp [Param.setValueWithGesture, Param.isInGesture, h]
  · intro h
    have hs : p.setValueWithGesture v =
        { p.setValue v with
          host := p.host ++
            [HostSignal.gestureBegin, HostSignal.valueChanged v, HostSignal.gestureEnd] } := by
      cases hl : p.locked <;> cases hd : p.modDepthLocked <;>
        simp [Param.setValueWithGesture, Param.isInGesture, Param.beginChangeGesture,
          Param.endChangeGesture, Param.setValueNotifyingHost, Param.setValue,
          Param.setMaxModDepth, Param.isLocked, Param.getMaxModDepth, h, hl, hd]
    refine ⟨hs, ?_⟩
    rw [hs]
    cases hl : p.locked <;> cases hd : p.modDepthLocked <;>
      simp [Param.setValue, Param.setMaxModDepth, Param.isLocked, h, hl, hd]

/-- The instance of C19 at the example parameter, outside and inside a gesture, with input
`1/2`. -/
theorem Param.gesture_protocol_witness :
    Param.example.inGesture = false ∧
    (Param.example.setValueWithGesture (1 / 2)).host
      = [HostSignal.gestureBegin, HostSignal.valueChanged (1 / 2), HostSignal.gestureEnd] ∧
    (Param.example.beginGesture).inGesture = true ∧
    (Param.example.beginGesture).setValueWithGesture (1 / 2) = Param.example.beginGesture := by
  refine ⟨rfl, ?_, rfl, ?_⟩
  · rw [((Param.gesture_protocol Param.example (1 / 2)).2.2.2 rfl).1]
    rfl
  · exact (Param.gesture_protocol (Param.example.beginGesture) (1 / 2)).2.2.1 rfl

end param

/-! ## Theorems: the precision bridge -/

namespace audio

open param

theorem copySamples_getD (cast : ℚ → ℚ) (N : Nat) (src : List ℚ) :
    ∀ (dst : List ℚ) (i j : Nat), j < dst.length → i + j < N →
      (copySamples cast N src i dst).getD j 0 = cast (src.getD (i + j) 0) := by
  intro dst
  induction dst with
  | nil => intro i j hj; simp at hj
  | cons d dst ih =>
    intro i j hj hN
    cases j with
    | zero =>
      have hi : i < N := by omega
      simp [copySamples, hi]
    | succ j =>
      have h := ih (i + 1) j (by simpa using hj) (by omega)
      have e : i + 1 + j = i + (j + 1) := by omega
      simp only [copySamples, List.getD_cons_succ]
      rw [h, e]

theorem copySamples_length (cast : ℚ → ℚ) (N : Nat) (src : List ℚ) :
    ∀ (dst : List ℚ) (i : Nat), (copySamples cast N src i dst).length = dst.length := by
  intro dst
  induction dst with
  | nil => intro i; rfl
  | cons d dst ih => intro i; simp [copySamples, ih]

theorem copyChannels_getD (cast : ℚ → ℚ) (numChannels N : Nat) (src : Samples) :
    ∀ (dst : Samples) (c ch : Nat), ch < dst.length → c + ch < numChannels →
      (copyChannels cast numChannels N src c dst).getD ch []
        = copySamples cast N (src.getD (c + ch) []) 0 (dst.getD ch []) := by
  intro dst
  induction dst with
  | nil => intro c ch hch; simp at hch
  | cons d dst ih =>
    intro c ch hch hN
    cases ch with
    | zero =>
      have hc : c < numChannels := by omega
      simp [copyChannels, hc]
    | succ ch =>
      have h := ih (c + 1) ch (by simpa using hch) (by omega)
      have e : c + 1 + ch = c + (ch + 1) := by omega
      simp only [copyChannels, List.getD_cons_succ]
      rw [h, e]

theorem copySamples_eq (cast : ℚ → ℚ) (N : Nat) (src : List ℚ) :
    ∀ (dst : List ℚ) (i : Nat), i + dst.length ≤ N → src.length = i + dst.length →
      copySamples cast N src i dst = (src.drop i).map cast := by
  intro dst
  induction dst with
  | nil =>
    intro i _ hlen
    rw [List.drop_eq_nil_of_le (by simp at hlen; omega)]
    rfl
  | cons d dst ih =>
    intro i hN hlen
    simp only [List.length_cons] at hN hlen
    have hi : i < src.length := by omega
    have hiN : i < N := by omega
    rw [List.drop_eq_getElem_cons hi, List.map_cons, copySamples, if_pos hiN,
      ih (i + 1) (by omega) (by omega), List.getD_eq_getElem _ _ hi]

theorem copyChannels_eq (cast : ℚ → ℚ) (numChannels N : Nat) (src : Samples)
    (hsrc : ∀ row ∈ src, row.length = N) :
    ∀ (dst : Samples) (c : Nat), c + dst.length ≤ numChannels → src.length = c + dst.length →
      (∀ row ∈ dst, row.length = N) →
      copyChannels cast numChannels N src c dst = (src.drop c).map (List.map cast) := by
  intro dst
  induction dst with
  | nil =>
    intro c _ hlen _
    rw [List.drop_eq_nil_of_le (by simp at hlen; omega)]
    rfl
  | cons d dst ih =>
    intro c hN hlen hdst
    simp only [List.length_cons] at hN hlen
    have hc : c < src.length := by omega
    have hcN : c < numChannels := by omega
    have hrow : (src[c]).length = N := hsrc _ (List.getElem_mem _)
    have hd : d.length = N := hdst d (List.mem_cons_self _ _)
    rw [List.drop_eq_getElem_cons hc, List.map_cons, copyChannels, if_pos hcN,
      ih (c + 1) (by omega) (by omega) (fun row hr => hdst row (List.mem_cons_of_mem _ hr)),
      List.getD_eq_getElem _ _ hc,
      copySamples_eq cast N _ d 0 (by omega) (by omega)]
    rfl

theorem AudioBufferD.setSize_wellFormed (b : AudioBufferD) (numChannels N : Nat)
    (keep clear avoid : Bool) (uninit : Nat → Nat → ℚ) (hb : b.WellFormed) :
    (b.setSize numChannels N keep clear avoid uninit).numChannels = numChannels ∧
      (b.setSize numChannels N keep clear avoid uninit).numSamples = N ∧
      (b.setSize numChannels N keep clear avoid uninit).WellFormed := by
  unfold AudioBufferD.setSize
  by_cases h : N = b.numSamples ∧ numChannels = b.numChannels
  · rw [if_pos h]
    exact ⟨h.2.symm, h.1.symm, hb⟩
  · rw [if_neg h]
    refine ⟨rfl, rfl, ?_, ?_⟩
    · simp
    · intro row hrow
      simp only [List.mem_map, List.mem_range] at hrow
      obtain ⟨ch, _, rfl⟩ := hrow
      simp

theorem Processor.scratch_eq_toD {σ : Type} (env : Env σ) (pr : Processor σ)
    (buffer : AudioBufferF) (hS : pr.audioBufferD.WellFormed) (hF : buffer.WellFormed) :
    ({ pr.audioBufferD.setSize buffer.numChannels buffer.numSamples true false true
          env.uninit with
        samples := copyChannels toDouble buffer.numChannels buffer.numSamples buffer.samples 0
          (pr.audioBufferD.setSize buffer.numChannels buffer.numSamples true false true
            env.uninit).samples } : AudioBufferD) = buffer.toD := by
  obtain ⟨h1, h2, h3, h4⟩ := AudioBufferD.setSize_wellFormed pr.audioBufferD
    buffer.numChannels buffer.numSamples true false true env.uninit hS
  rw [h1] at h3
  rw [h2] at h4
  rw [copyChannels_eq toDouble _ _ buffer.samples hF.2 _ 0 (by omega) (by rw [hF.1]; omega) h4]
  simp [AudioBufferF.toD, h1, h2]

theorem Processor.processBlockBypassed_eq {σ : Type} (env : Env σ) (pr : Processor σ)
    (buffer : AudioBufferD) (hC : 0 < env.BlockSize) :
    pr.processBlockBypassed env buffer =
      some ({ pr with
        calls := pr.calls ++
          ((specSubBlocks env.BlockSize buffer.numSamples).map fun b =>
            [Call.samplesArray [0, 1] b.1,
              Call.processBlockBypassed b.1 (if buffer.numChannels = 2 then 2 else 1)
                b.2]).flatten }, buffer) := by
  unfold Processor.processBlockBypassed
  dsimp only
  by_cases hN : buffer.numSamples = 0
  · rw [if_pos hN, specSubBlocks_eq_nil _ _ hC hN]
    simp [processMacroMod]
  · rw [if_neg hN, Processor.processBlockBypassedLoop_eq env _ _ hC _ _ _ _ (by omega),
      subBlocksFrom_eq_spec _ _ hC]
    simp [processMacroMod]

theorem Processor.processBlockF_eq {σ : Type} (env : Env σ) (pr : Processor σ)
    (buffer : AudioBufferF) (hS : pr.audioBufferD.WellFormed) (hF : buffer.WellFormed) :
    pr.processBlockF env buffer =
      (Processor.processBlock env { pr with audioBufferD := buffer.toD } buffer.toD).map
        fun r =>
          ({ r.1 with audioBufferD := r.2 },
            { buffer with
              samples := copyChannels env.toFloat buffer.numChannels buffer.numSamples
                r.2.samples 0 buffer.samples }) := by
  unfold Processor.processBlockF
  dsimp only
  rw [Processor.scratch_eq_toD env pr buffer hS hF]
  cases Processor.processBlock env { pr with audioBufferD := buffer.toD } buffer.toD <;> rfl

theorem Processor.processBlockBypassedF_eq {σ : Type} (env : Env σ) (pr : Processor σ)
    (buffer : AudioBufferF) (hS : pr.audioBufferD.WellFormed) (hF : buffer.WellFormed) :
    pr.processBlockBypassedF env buffer =
      (Processor.processBlockBypassed env { pr with audioBufferD := buffer.toD }
          buffer.toD).map
        fun r =>
          ({ r.1 with audioBufferD := r.2 },
            { buffer with
              samples := copyChannels env.toFloat buffer.numChannels buffer.numSamples
                r.2.samples 0 buffer.samples }) := by
  unfold Processor.processBlockBypassedF
  dsimp only
  rw [Processor.scratch_eq_toD env pr buffer hS hF]
  cases Processor.processBlockBypassed env { pr with audioBufferD := buffer.toD }
    buffer.toD <;> rfl

theorem copyChannels_sample (cast : ℚ → ℚ) (buffer : AudioBufferF) (hF : buffer.WellFormed)
    (d : Samples) (ch s : Nat) (hch : ch < buffer.numChannels) (hs : s < buffer.numSamples) :
    ((copyChannels cast buffer.numChannels buffer.numSamples d 0 buffer.samples).getD ch
        []).getD s 0
      = cast ((d.getD ch []).getD s 0) := by
  have hlen : ch < buffer.samples.length := by rw [hF.1]; exact hch
  have hrow : (buffer.samples.getD ch []).length = buffer.numSamples := by
    rw [List.getD_eq_getElem _ _ hlen]
    exact hF.2 _ (List.getElem_mem _)
  rw [copyChannels_getD cast _ _ d buffer.samples 0 ch hlen (by omega),
    copySamples_getD cast _ _ _ 0 s (by rw [hrow]; exact hs) (by omega)]
  simp

theorem Processor.processBlockBypassedF_id {σ : Type} (env : Env σ) (pr : Processor σ)
    (buffer : AudioBufferF) (hC : 0 < env.BlockSize) (hS : pr.audioBufferD.WellFormed)
    (hF : buffer.WellFormed) (hrep : ∀ row ∈ buffer.samples, ∀ x ∈ row, env.toFloat x = x) :
    ∃ new : List Call,
      pr.processBlockBypassedF env buffer =
        some ({ pr with audioBufferD := buffer.toD, calls := pr.calls ++ new }, buffer) := by
  refine ⟨((specSubBlocks env.BlockSize buffer.toD.numSamples).map fun b =>
    [Call.samplesArray [0, 1] b.1,
      Call.processBlockBypassed b.1 (if buffer.toD.numChannels = 2 then 2 else 1)
        b.2]).flatten, ?_⟩
  rw [Processor.processBlockBypassedF_eq env pr buffer hS hF,
    Processor.processBlockBypassed_eq env _ _ hC]
  simp only [Option.map_some']
  have hrows : ∀ row ∈ buffer.toD.samples, row.length = buffer.numSamples := by
    intro row hrow
    simp only [AudioBufferF.toD, List.mem_map] at hrow
    obtain ⟨r, hr, rfl⟩ := hrow
    rw [List.length_map]
    exact hF.2 r hr
  have hcopy : copyChannels env.toFloat buffer.numChannels buffer.numSamples
      buffer.toD.samples 0 buffer.samples = buffer.samples := by
    rw [copyChannels_eq env.toFloat _ _ _ hrows buffer.samples 0 (by rw [hF.1]; omega)
      (by simp [AudioBufferF.toD]) hF.2]
    simp only [AudioBufferF.toD, List.drop_zero, List.map_map]
    conv_rhs => rw [← List.map_id buffer.samples]
    apply List.map_congr_left
    intro row hrow
    simp only [Function.comp_apply, List.map_map, id_eq]
    conv_rhs => rw [← List.map_id row]
    apply List.map_congr_left
    intro x hx
    simp only [Function.comp_apply, toDouble, id_eq]
    exact hrep row hrow x hx
  rw [hcopy]

/-- C11: for a single-precision buffer with any channel count and sample count, each of the
two single-precision entry points hands the double-precision overload a scratch buffer whose
sample `(ch, s)` is sample `(ch, s)` of the host buffer as a `double`, and afterwards stores
in sample `(ch, s)` of the host buffer the scratch sample `(ch, s)` converted to `float`;
hence on the bypassed path, which leaves the scratch samples as they are, the host buffer
comes back sample for sample as it was (its samples being `float` values), without scaling
and without reordering of channels, and an all-zero buffer stays all-zero. -/
theorem Processor.precision_bridge {σ : Type} (env : Env σ) (pr : Processor σ)
    (buffer : AudioBufferF) (hC : 0 < env.BlockSize) (hS : pr.audioBufferD.WellFormed)
    (hF : buffer.WellFormed) :
    (buffer.toD.numChannels = buffer.numChannels ∧
      buffer.toD.numSamples = buffer.numSamples ∧
      ∀ ch s, ch < buffer.numChannels → s < buffer.numSamples →
        (buffer.toD.samples.getD ch []).getD s 0
          = toDouble ((buffer.samples.getD ch []).getD s 0)) ∧
    pr.processBlockF env buffer =
      (Processor.processBlock env { pr with audioBufferD := buffer.toD } buffer.toD).map
        (fun r =>
          ({ r.1 with audioBufferD := r.2 },
            { buffer with
              samples := copyChannels env.toFloat buffer.numChannels buffer.numSamples
                r.2.samples 0 buffer.samples })) ∧
    pr.processBlockBypassedF env buffer =
      (Processor.processBlockBypassed env { pr with audioBufferD := buffer.toD }
          buffer.toD).map
        (fun r =>
          ({ r.1 with audioBufferD := r.2 },
            { buffer with
              samples := copyChannels env.toFloat buffer.numChannels buffer.numSamples
                r.2.samples 0 buffer.samples })) ∧
    (∀ (d : Samples) (ch s : Nat), ch < buffer.numChannels → s < buffer.numSamples →
      ((copyChannels env.toFloat buffer.numChannels buffer.numSamples d 0
          buffer.samples).getD ch []).getD s 0
        = env.toFloat ((d.getD ch []).getD s 0)) ∧
    ((∀ row ∈ buffer.samples, ∀ x ∈ row, env.toFloat x = x) →
      ∃ new : List Call,
        pr.processBlockBypassedF env buffer =
          some ({ pr with audioBufferD := buffer.toD, calls := pr.calls ++ new }, buffer)) ∧
    ((∀ row ∈ buffer.samples, ∀ x ∈ row, x = 0) → env.toFloat 0 = 0 →
      ∃ new : List Call,
        pr.processBlockBypassedF env buffer =
          some ({ pr with audioBufferD := buffer.toD, calls := pr.calls ++ new }, buffer)) := by
  refine ⟨⟨rfl, rfl, ?_⟩, Processor.processBlockF_eq env pr buffer hS hF,
    Processor.processBlockBypassedF_eq env pr buffer hS hF,
    fun d ch s hch hs => copyChannels_sample env.toFloat buffer hF d ch s hch hs,
    fun hrep => Processor.processBlockBypassedF_id env pr buffer hC hS hF hrep, ?_⟩
  · intro ch s _ _
    have hid : (List.map (List.map toDouble) buffer.samples) = buffer.samples := by
      have h1 : (List.map toDouble : List ℚ → List ℚ) = id := by
        funext l
        have h2 : (toDouble : ℚ → ℚ) = id := rfl
        rw [h2, List.map_id, id_eq]
      rw [h1, List.map_id]
    simp only [AudioBufferF.toD, hid, toDouble]
  · intro hzero h0
    apply Processor.processBlockBypassedF_id env pr buffer hC hS hF
    intro row hrow x hx
    rw [hzero row hrow x hx]
    exact h0

/-- The instance of C11 at the example processor and the example buffer of two channels of
ten samples, with the conversion to `float` that rounds nothing: the bypassed path returns
the buffer as it was. -/
theorem Processor.precision_bridge_witness :
    0 < Env.example.BlockSize ∧ Processor.example.audioBufferD.WellFormed ∧
    AudioBufferF.example.WellFormed ∧
    ∃ new : List Call,
      Processor.example.processBlockBypassedF Env.example AudioBufferF.example =
        some ({ Processor.example with
          audioBufferD := AudioBufferF.example.toD
          calls := Processor.example.calls ++ new }, AudioBufferF.example) := by
  have hC : 0 < Env.example.BlockSize := by decide
  have hS : Processor.example.audioBufferD.WellFormed := by
    simp [AudioBufferD.WellFormed, Processor.example]
  have hF : AudioBufferF.example.WellFormed := by
    simp [AudioBufferF.WellFormed, AudioBufferF.example]
  exact ⟨hC, hS, hF,
    (Processor.precision_bridge Env.example Processor.example AudioBufferF.example hC hS
      hF).2.2.2.2.1 (fun _ _ _ _ => rfl)⟩

end audio

/-! ## Theorems: denormalized values, the parameter set, the bias curve -/

namespace param

theorem Range.linear_convertFrom0to1_half :
    (Range.linear 0 127 1).convertFrom0to1 (1 / 2) = 127 / 2 := by
  norm_num [Range.linear, jlimit]

theorem Range.linear_snap_half : (Range.linear 0 127 1).snapToLegalValue (127 / 2) = 64 := by
  have hfloor : Int.floor ((64 : ℚ)) = 64 := by
    rw [Int.floor_eq_iff]
    norm_num
  have h : ((127 : ℚ) / 2 - 0) / 1 + 1 / 2 = 64 := by norm_num
  simp only [Range.linear]
  rw [h, hfloor]
  norm_num

theorem Param.setValue_getValueDenorm (p : Param) (v : ℚ) (hl : p.locked = false) :
    (p.setValue v).getValueDenorm = p.range.convertFrom0to1 v := by
  cases hd : p.modDepthLocked <;>
    simp [Param.setValue, Param.setMaxModDepth, Param.getValueDenorm, Param.getValue,
      Param.isLocked, hl, hd]

/-- C21, as stated, fails: the parameter constructed with range `[0, 127]`, interval `1` and
default `69` returns from `getValueDenorm`, after `setValue 0.5`, the value `63.5`, which is
neither the snapped value `64` of the range nor an integer. -/
theorem Param.getValueDenorm_not_snapped :
    ¬ (((Param.ctor PID.Slew (Range.linear 0 127 1) 69 (fun _ => "")
            (fun _ => 0)).setValue (1 / 2)).getValueDenorm
          = (Range.linear 0 127 1).snapToLegalValue
              ((Range.linear 0 127 1).convertFrom0to1 (1 / 2)) ∨
        ∃ n : Int, ((Param.ctor PID.Slew (Range.linear 0 127 1) 69 (fun _ => "")
            (fun _ => 0)).setValue (1 / 2)).getValueDenorm = (n : ℚ)) := by
  have h : ((Param.ctor PID.Slew (Range.linear 0 127 1) 69 (fun _ => "")
      (fun _ => 0)).setValue (1 / 2)).getValueDenorm = 127 / 2 := by
    rw [Param.setValue_getValueDenorm _ _ rfl]
    exact Range.linear_convertFrom0to1_half
  rw [h, Range.linear_convertFrom0to1_half, Range.linear_snap_half]
  rintro (h1 | ⟨n, hn⟩)
  · norm_num at h1
  · have h2 : (127 : ℚ) = ((2 * n : Int) : ℚ) := by
      push_cast
      linarith
    have h3 : (127 : Int) = 2 * n := by exact_mod_cast h2
    omega

/-- C21, amended: on an unlocked parameter, after `setValue v` the method `getValueDenorm`
returns `convertFrom0to1 v` of the range, unsnapped; for the range `[0, 127]` with interval `1`
and `v = 0.5` that is `63.5`, while the snapped value `64` is what `getText` formats, which
applies `snapToLegalValue` itself. -/
theorem Param.getValueDenorm_unsnapped (p : Param) (v : ℚ) (hl : p.locked = false) :
    (p.setValue v).getValueDenorm = p.range.convertFrom0to1 v ∧
    (p.range = Range.linear 0 127 1 →
      (p.setValue (1 / 2)).getValueDenorm = 127 / 2 ∧
      (p.setValue (1 / 2)).getText (p.setValue (1 / 2)).getValue = p.valToStr 64) := by
  refine ⟨Param.setValue_getValueDenorm p v hl, ?_⟩
  intro hr
  have hrange : (p.setValue (1 / 2)).range = p.range := (Param.setValue_value p (1 / 2)).1
  have hv2s : (p.setValue (1 / 2)).valToStr = p.valToStr := by
    cases hd : p.modDepthLocked <;>
      simp [Param.setValue, Param.setMaxModDepth, Param.isLocked, hl, hd]
  have hval : (p.setValue (1 / 2)).getValue = 1 / 2 := by
    cases hd : p.modDepthLocked <;>
      simp [Param.setValue, Param.setMaxModDepth, Param.isLocked, Param.getValue, hl, hd]
  refine ⟨?_, ?_⟩
  · rw [Param.setValue_getValueDenorm p _ hl, hr]
    exact Range.linear_convertFrom0to1_half
  · rw [Param.getText, hrange, hv2s, hval, hr, Range.linear_convertFrom0to1_half,
      Range.linear_snap_half]

/-- The instance of amended C21 at the parameter with range `[0, 127]`, interval `1` and
default `69`. -/
theorem Param.getValueDenorm_unsnapped_witness :
    ((Param.ctor PID.Slew (Range.linear 0 127 1) 69 (fun _ => "")
      (fun _ => 0)).setValue (1 / 2)).getValueDenorm = 127 / 2 :=
  ((Param.getValueDenorm_unsnapped
    (Param.ctor PID.Slew (Range.linear 0 127 1) 69 (fun _ => "") (fun _ => 0)) (1 / 2)
    rfl).2 rfl).1

theorem Param.loadPatch_modDepthLocked (p : Param) (state : State) :
    (p.loadPatch state).modDepthLocked = p.modDepthLocked := by
  refine Param.loadPatch_induct (fun q => q.modDepthLocked = p.modDepthLocked) p state rfl
    ?_ ?_ ?_
  · intro val
    cases hl : p.locked <;> cases hd : p.modDepthLocked <;>
      simp [Param.setValueNotifyingHost, Param.setValue, Param.setMaxModDepth, Param.isLocked,
        hl, hd]
  · intro q v hq
    rw [← hq]
    unfold Param.setMaxModDepth
    split_ifs <;> rfl
  · intro q b hq
    rw [← hq]
    unfold Param.setModBias
    split_ifs <;> rfl

theorem Params.setModDepthLocked_flags (ps : Params) (e : Bool) :
    (ps.setModDepthLocked e).isModDepthLocked = e ∧
      (∀ p ∈ (ps.setModDepthLocked e).params, p.modDepthLocked = e) ∧
      (ps.setModDepthLocked e).params.length = ps.params.length := by
  refine ⟨?_, ?_, ?_⟩
  · cases e <;> simp [Params.setModDepthLocked, Params.isModDepthLocked]
  · intro p hp
    simp only [Params.setModDepthLocked, List.mem_map] at hp
    obtain ⟨q, _, rfl⟩ := hp
    rfl
  · simp [Params.setModDepthLocked]

theorem castToInt_intCast (n : Int) (hlo : -2147483648 ≤ n) (hhi : n < 2147483648) :
    castToInt (n : ℚ) = some n := by
  unfold castToInt
  have ht : (if (n : ℚ) < 0 then -Int.floor (-(n : ℚ)) else Int.floor (n : ℚ)) = n := by
    split_ifs
    · rw [← Int.cast_neg, Int.floor_intCast, neg_neg]
    · rw [Int.floor_intCast]
  simp only [ht, hlo, hhi, and_self, if_true]

theorem castToInt_half : castToInt (1 / 2) = some 0 := by
  have hfloor : Int.floor ((1 : ℚ) / 2) = 0 := by
    rw [Int.floor_eq_iff]
    norm_num
  have hneg : ¬ ((1 : ℚ) / 2 < 0) := by norm_num
  simp only [castToInt, hneg, if_false, hfloor]
  rfl

theorem Params.loadPatch_flag (ps : Params) (state : State) (mdl : ℚ) (i : Int)
    (hk : state.get ("params" ++ "/moddepthlocked") = some mdl)
    (hi : castToInt mdl = some i) :
    ∃ ps', ps.loadPatch state = some ps' ∧
      ps'.isModDepthLocked = decide (i ≠ 0) ∧
      ∀ p ∈ ps'.params, p.modDepthLocked = decide (i ≠ 0) := by
  refine ⟨{ ps.setModDepthLocked (decide (i ≠ 0)) with
      params := (ps.setModDepthLocked (decide (i ≠ 0))).params.map
        fun param => param.loadPatch state },
    by simp only [Params.loadPatch, hk, hi], ?_, ?_⟩
  · exact (Params.setModDepthLocked_flags ps _).1
  · intro p hp
    simp only [List.mem_map] at hp
    obtain ⟨q, hq, rfl⟩ := hp
    rw [Param.loadPatch_modDepthLocked]
    exact (Params.setModDepthLocked_flags ps _).2.1 q hq

/-- C22, as stated, fails for the part on `Params::loadPatch`: with the stored value
`params/moddepthlocked = 0.5`, which is not zero, the loaded set has the depth-lock flag
cleared, because the value is converted to `int` before it is compared with zero. -/
theorem Params.loadPatch_half_not_locked :
    ¬ (∀ ps', audio.Params.example.loadPatch [("params/moddepthlocked", 1 / 2)] = some ps' →
        (ps'.isModDepthLocked = true ↔ ((1 : ℚ) / 2 ≠ 0))) := by
  intro h
  obtain ⟨ps', h1, h2, _⟩ := Params.loadPatch_flag audio.Params.example
    [("params/moddepthlocked", 1 / 2)] (1 / 2) 0 rfl castToInt_half
  have h3 := (h ps' h1).mpr (by norm_num)
  rw [h2] at h3
  simp at h3

/-- C22, amended: after `setModDepthLocked e` the method `isModDepthLocked` returns `e` and
the depth-lock flag of every member is `e`; `switchModDepthLocked` sets all of them to the
negation of the previous global flag; `Params::loadPatch` sets them to true exactly when the
stored value `params/moddepthlocked`, converted to `int` (its fraction dropped), is not zero:
for an integer stored value, exactly when it is not zero; and it leaves them as they are
when the key is absent. -/
theorem Params.modDepthLocked_flags (ps : Params) (e : Bool) (state : State) :
    ((ps.setModDepthLocked e).isModDepthLocked = e ∧
      ∀ p ∈ (ps.setModDepthLocked e).params, p.modDepthLocked = e) ∧
    (ps.switchModDepthLocked.isModDepthLocked = !ps.isModDepthLocked ∧
      ∀ p ∈ ps.switchModDepthLocked.params, p.modDepthLocked = !ps.isModDepthLocked) ∧
    (∀ (mdl : ℚ) (i : Int), state.get ("params" ++ "/moddepthlocked") = some mdl →
      castToInt mdl = some i →
      ∃ ps', ps.loadPatch state = some ps' ∧
        (ps'.isModDepthLocked = true ↔ i ≠ 0) ∧
        ∀ p ∈ ps'.params, (p.modDepthLocked = true ↔ i ≠ 0)) ∧
    (∀ n : Int, -2147483648 ≤ n → n < 2147483648 →
      state.get ("params" ++ "/moddepthlocked") = some (n : ℚ) →
      ∃ ps', ps.loadPatch state = some ps' ∧
        (ps'.isModDepthLocked = true ↔ (n : ℚ) ≠ 0) ∧
        ∀ p ∈ ps'.params, (p.modDepthLocked = true ↔ (n : ℚ) ≠ 0)) ∧
    (state.get ("params" ++ "/moddepthlocked") = none →
      ∃ ps', ps.loadPatch state = some ps' ∧
        ps'.isModDepthLocked = ps.isModDepthLocked ∧
        ps'.params.map Param.modDepthLocked = ps.params.map Param.modDepthLocked) := by
  have hset := Params.setModDepthLocked_flags
  have hload : ∀ (mdl : ℚ) (i : Int), state.get ("params" ++ "/moddepthlocked") = some mdl →
      castToInt mdl = some i →
      ∃ ps', ps.loadPatch state = some ps' ∧
        (ps'.isModDepthLocked = true ↔ i ≠ 0) ∧
        ∀ p ∈ ps'.params, (p.modDepthLocked = true ↔ i ≠ 0) := by
    intro mdl i hk hi
    obtain ⟨ps', h1, h2, h3⟩ := Params.loadPatch_flag ps state mdl i hk hi
    refine ⟨ps', h1, ?_, ?_⟩
    · rw [h2]
      simp
    · intro p hp
      rw [h3 p hp]
      simp
  refine ⟨⟨(hset ps e).1, (hset ps e).2.1⟩,
    ⟨(hset ps _).1, (hset ps _).2.1⟩, hload, ?_, ?_⟩
  · intro n hlo hhi hk
    obtain ⟨ps', h1, h2, h3⟩ := hload (n : ℚ) n hk (castToInt_intCast n hlo hhi)
    refine ⟨ps', h1, ?_, ?_⟩
    · rw [h2]
      exact (Int.cast_ne_zero).symm
    · intro p hp
      rw [h3 p hp]
      exact (Int.cast_ne_zero).symm
  · intro hk
    refine ⟨{ ps with params := ps.params.map fun param => param.loadPatch state },
      by simp only [Params.loadPatch, hk], rfl, ?_⟩
    simp only [List.map_map]
    apply List.map_congr_left
    intro p _
    exact Param.loadPatch_modDepthLocked p state

/-- The instance of amended C22 at the example set and a store holding
`params/moddepthlocked = 1`. -/
theorem Params.modDepthLocked_flags_witness :
    ∃ ps', audio.Params.example.loadPatch [("params/moddepthlocked", ((1 : Int) : ℚ))] = some ps' ∧
      (ps'.isModDepthLocked = true ↔ ((1 : Int) : ℚ) ≠ 0) ∧
      ∀ p ∈ ps'.params, (p.modDepthLocked = true ↔ ((1 : Int) : ℚ) ≠ 0) :=
  (Params.modDepthLocked_flags audio.Params.example true
    [("params/moddepthlocked", ((1 : Int) : ℚ))]).2.2.2.1 1 (by norm_num) (by norm_num) rfl

theorem Range.linear_roundtrip (start end_ interval v : ℚ) (hse : start < end_)
    (hv : 0 ≤ v ∧ v ≤ 1) :
    (Range.linear start end_ interval).convertTo0to1
      ((Range.linear start end_ interval).convertFrom0to1 v) = v := by
  have hne : end_ - start ≠ 0 := by linarith
  simp only [Range.linear]
  rw [jlimit_of_mem 0 1 v hv.1 hv.2]
  have h : (start + (end_ - start) * v - start) / (end_ - start) = v := by
    field_simp
  rw [h, jlimit_of_mem 0 1 v hv.1 hv.2]

/-- C23: for every parameter whose range has `start < end` (with the mapping the library
gives a range built from start, end and interval) and every normalized `v` in `[0, 1]`,
`setDefaultValue v` followed by `getDefaultValue` returns `v` itself, whatever the interval:
within the quantization step of a stepped range, and exactly for a continuous one; neither
method snaps, the result is `convertTo0to1 (convertFrom0to1 v)` for every range. -/
theorem Param.default_roundtrip (p : Param) (v start end_ interval : ℚ)
    (hr : p.range = Range.linear start end_ interval) (hse : start < end_)
    (hv : 0 ≤ v ∧ v ≤ 1) :
    (p.setDefaultValue v).getDefaultValue = v ∧
    (0 ≤ interval →
      |(p.setDefaultValue v).getDefaultValue - v| ≤ interval / (end_ - start)) ∧
    (∀ (q : Param) (w : ℚ),
      (q.setDefaultValue w).getDefaultValue
        = q.range.convertTo0to1 (q.range.convertFrom0to1 w)) := by
  have h : (p.setDefaultValue v).getDefaultValue = v := by
    simp only [Param.setDefaultValue, Param.getDefaultValue, hr]
    exact Range.linear_roundtrip start end_ interval v hse hv
  refine ⟨h, ?_, fun q w => rfl⟩
  intro hi
  rw [h, sub_self, abs_zero]
  exact div_nonneg hi (by linarith)

/-- The instance of C23 at the example parameter (range `[0, 127]`, continuous), with
`v = 1/3`. -/
theorem Param.default_roundtrip_witness :
    (Param.example.setDefaultValue (1 / 3)).getDefaultValue = 1 / 3 :=
  (Param.default_roundtrip Param.example (1 / 3) 0 127 0 rfl (by norm_num)
    (by norm_num)).1

theorem biased_denominator_pos (b x : ℚ)
    (hb : Param.BiasEps ≤ b ∧ b ≤ 1 - Param.BiasEps) (hx : 0 ≤ x ∧ x ≤ 1) :
    0 < (1 - b) - x + 2 * b * x := by
  have heps : (0 : ℚ) < Param.BiasEps := by norm_num [Param.BiasEps]
  have hb0 : 0 < b := lt_of_lt_of_le heps hb.1
  have hb1 : b < 1 := by linarith [hb.2]
  have hsplit : (1 - b) - x + 2 * b * x = (1 - b) * (1 - x) + b * x := by ring
  rw [hsplit]
  rcases eq_or_lt_of_le hx.2 with h1 | h1
  · rw [h1]
    linarith
  · have h2 : 0 < (1 - b) * (1 - x) := mul_pos (by linarith) (by linarith)
    have h3 : 0 ≤ b * x := mul_nonneg hb0.le hx.1
    linarith

/-- C25: for every bias `b` in `[eps, 1 - eps]`, the range every stored bias lies in, and
every macro input `x` in `[0, 1]`, the denominator `(1 - b) - x + 2 * b * x` of the bias curve
is strictly positive, so the quotient in `biased` has a non-zero divisor; this holds for the
bias of every state reached from a newly constructed parameter, so for the call of `biased`
in `calcValModOf`. -/
theorem Param.biased_denominator_positive (b x : ℚ)
    (hb : Param.BiasEps ≤ b ∧ b ≤ 1 - Param.BiasEps) (hx : 0 ≤ x ∧ x ≤ 1) :
    0 < (1 - b) - x + 2 * b * x ∧
    (∀ s e : ℚ, Param.biased s e b x
      = if e - s = 0 then 0 else s + (e - s) * b * x / ((1 - b) - x + 2 * b * x)) ∧
    (∀ (pID : PID) (range : Range) (valDenormDefault : ℚ) (valToStr : ℚ → String)
      (strToVal : String → ℚ) (ops : List Op),
      0 < (1 - ((Param.ctor pID range valDenormDefault valToStr strToVal).run ops).modBias)
        - x
        + 2 * ((Param.ctor pID range valDenormDefault valToStr strToVal).run ops).modBias
          * x) := by
  refine ⟨biased_denominator_pos b x hb hx, fun s e => rfl, ?_⟩
  intro pID range d v2s s2v ops
  have hinv := Param.run_depth_bias ops (Param.ctor pID range d v2s s2v)
    (by
      simp only [Param.ctor, Param.BiasEps]
      norm_num)
  exact biased_denominator_pos _ x hinv.2 hx

/-- The instance of C25 at bias `eps` and macro input `1`. -/
theorem Param.biased_denominator_positive_witness :
    (0 : ℚ) < (1 - Param.BiasEps) - 1 + 2 * Param.BiasEps * 1 :=
  (Param.biased_denominator_positive Param.BiasEps 1
    ⟨le_refl _, BiasEps_le⟩ (by norm_num)).1

/-- C30: in the set built by `Params::Params`, for every `PID` below `NumParams` (`Slew`,
`FilterType`, `GainOut`, `HQ`) the parameter at position `static_cast<int> (p)`, the one
`params (p)` and `params[p]` return, has the id `p`; and `numParams ()` is `NumParams`. -/
theorem Params.ctor_addressing (penv : ParamsEnv) (p : PID) (hp : p.toInt < NumParams) :
    (∃ q, (Params.ctor penv).get p = some q ∧ q.id = p) ∧
    (Params.ctor penv).numParams = NumParams ∧
    (Params.ctor penv).params.map Param.id
      = [PID.Slew, PID.FilterType, PID.GainOut, PID.HQ] := by
  refine ⟨?_, rfl, rfl⟩
  cases p with
  | Slew => exact ⟨_, rfl, rfl⟩
  | FilterType => exact ⟨_, rfl, rfl⟩
  | GainOut => exact ⟨_, rfl, rfl⟩
  | HQ => exact ⟨_, rfl, rfl⟩
  | NumParams => exact absurd hp (by decide)

/-- The instance of C30 at the example ranges and the id `GainOut`. -/
theorem Params.ctor_addressing_witness :
    PID.GainOut.toInt < NumParams ∧
    ∃ q, (Params.ctor ParamsEnv.example).get PID.GainOut = some q ∧ q.id = PID.GainOut :=
  ⟨by decide, (Params.ctor_addressing ParamsEnv.example PID.GainOut (by decide)).1⟩

end param

/-! ## Theorems: preparing the render pipeline -/

namespace audio

open param

theorem AudioBufferD.setSize_dims (b : AudioBufferD) (numChannels N : Nat)
    (keep clear avoid : Bool) (uninit : Nat → Nat → ℚ) :
    (b.setSize numChannels N keep clear avoid uninit).numChannels = numChannels ∧
      (b.setSize numChannels N keep clear avoid uninit).numSamples = N := by
  unfold AudioBufferD.setSize
  by_cases h : N = b.numSamples ∧ numChannels = b.numChannels
  · rw [if_pos h]
    exact ⟨h.2.symm, h.1.symm⟩
  · rw [if_neg h]
    exact ⟨rfl, rfl⟩

theorem Processor.prepareToPlay_eq {σ : Type} (env : Env σ) (pr : Processor σ)
    (sampleRate : ℚ) (maxBlockSize : Nat) (pHQ : Param)
    (h : pr.params.get PID.HQ = some pHQ) :
    pr.prepareToPlay env sampleRate maxBlockSize =
      some { pr with
        audioBufferD := pr.audioBufferD.setSize 2 maxBlockSize false true false env.uninit
        pluginProcessor := { sampleRate := sampleRate }
        ext := env.osPrepare (env.mixPrepare pr.ext sampleRate) sampleRate
          (decide (pHQ.getValue > 1 / 2))
        sampleRateUp := env.osSampleRateUp
          (env.osPrepare (env.mixPrepare pr.ext sampleRate) sampleRate
            (decide (pHQ.getValue > 1 / 2)))
        blockSizeUp :=
          if env.osEnabled (env.osPrepare (env.mixPrepare pr.ext sampleRate) sampleRate
            (decide (pHQ.getValue > 1 / 2))) then env.BlockSize2x else env.BlockSize
        latencySamples := env.osGetLatency
          (env.osPrepare (env.mixPrepare pr.ext sampleRate) sampleRate
            (decide (pHQ.getValue > 1 / 2)))
        hostCalls := pr.hostCalls ++
          [HostCall.setLatencySamples (env.osGetLatency
            (env.osPrepare (env.mixPrepare pr.ext sampleRate) sampleRate
              (decide (pHQ.getValue > 1 / 2)))),
            HostCall.startTimerHz 4] } := by
  simp [Processor.prepareToPlay, h, Processor.setLatencySamples, Processor.startTimerHz,
    PluginProcessor.prepare]

theorem Env.OversamplerSpec.latency {σ : Type} {env : Env σ} {latency factor : Nat}
    (hos : env.OversamplerSpec latency factor) (w : σ) (sampleRate : ℚ) (e : Bool) :
    env.osGetLatency (env.osPrepare w sampleRate e) = if e = true then latency else 0 := by
  obtain ⟨_, h2, h3, _⟩ := hos w sampleRate
  cases e
  · simpa using h3
  · simpa using h2

theorem Env.oversampling_spec (latency factor : Nat) :
    (Env.oversampling latency factor).OversamplerSpec latency factor := by
  intro w sampleRate
  refine ⟨fun e => rfl, ?_, ?_, ?_, ?_⟩ <;> simp [Env.oversampling]

theorem Processor.timerCallback_eq {σ : Type} (env : Env σ) (pr : Processor σ) (pHQ : Param)
    (h : pr.params.get PID.HQ = some pHQ) :
    pr.timerCallback env =
      if env.osEnabled pr.ext = decide (pHQ.getValue > 1 / 2) then some pr
      else ((pr.suspendProcessing true).prepareToPlay env pr.currentSampleRate
        pr.blockSize).map fun pr2 => pr2.suspendProcessing false := by
  unfold Processor.timerCallback Processor.forcePrepare
  simp only [h]
  by_cases he : env.osEnabled pr.ext = decide (pHQ.getValue > 1 / 2)
  · simp [he]
  · have hne : (env.osEnabled pr.ext != decide (pHQ.getValue > 1 / 2)) = true := by
      simpa using he
    rw [if_neg he]
    simp only [hne, if_true]
    have hs : (pr.suspendProcessing true).currentSampleRate = pr.currentSampleRate := rfl
    have hb : (pr.suspendProcessing true).blockSize = pr.blockSize := rfl
    rw [hs, hb]
    cases (pr.suspendProcessing true).prepareToPlay env pr.currentSampleRate pr.blockSize
      <;> rfl

theorem Processor.processBlockOversampler_trace {σ : Type} (env : Env σ) (pr : Processor σ)
    (samples : Samples) (s numChannels numSamples : Nat)
    (hp : NumParams ≤ pr.params.params.length) :
    ∃ w out, pr.processBlockOversampler env samples s numChannels numSamples =
      some ({ pr with
        ext := w
        calls := pr.calls ++
          [Call.upsample s numChannels numSamples,
            Call.pluginProcessor pr.pluginProcessor.sampleRate numChannels
              (env.upsample pr.ext samples s numChannels numSamples).2.2,
            Call.downsample s numSamples] }, out) := by
  obtain ⟨q1, hq1⟩ := Params.get_of_length pr.params hp PID.Slew (by decide)
  obtain ⟨q2, hq2⟩ := Params.get_of_length pr.params hp PID.FilterType (by decide)
  obtain ⟨⟨pr1, out⟩, hr⟩ := Processor.processBlockOversampler_some env pr samples s
    numChannels numSamples hp
  have h := hr
  unfold Processor.processBlockOversampler PluginProcessor.call at h
  simp only [hq1, hq2, Option.some.injEq, Prod.mk.injEq] at h
  refine ⟨pr1.ext, out, ?_⟩
  rw [hr, ← h.1]
  simp

theorem Params.exampleHQ_value :
    (Param.ctor PID.HQ (Range.linear 0 1 1) 1 (fun _ => "") (fun _ => 0)).getValue = 1 := by
  norm_num [Param.getValue, Param.ctor, Range.linear, jlimit]

theorem Params.example_value :
    (Param.ctor PID.HQ (Range.linear 0 1 1) 0 (fun _ => "") (fun _ => 0)).getValue = 0 := by
  norm_num [Param.getValue, Param.ctor, Range.linear, jlimit]

/-- C24: with an oversampler that reports the fixed added latency `latency` when it was
prepared enabled and `0` when it was prepared disabled, `prepareToPlay (sampleRate,
maxBlockSize)` reports to the host (`setLatencySamples`) the latency `0` when the `HQ`
parameter reads at most `0.5` and `latency` when it reads above `0.5`; and when the
parameters are then changed, one `timerCallback` tick leaves the reported latency at the value
that matches the new reading of `HQ`. -/
theorem Processor.latency_reporting {σ : Type} (env : Env σ) (latency factor : Nat)
    (hos : env.OversamplerSpec latency factor) (pr : Processor σ) (sampleRate : ℚ)
    (maxBlockSize : Nat) (pHQ : Param) (h : pr.params.get PID.HQ = some pHQ) :
    ∃ pr1, pr.prepareToPlay env sampleRate maxBlockSize = some pr1 ∧
      pr1.latencySamples = (if pHQ.getValue > 1 / 2 then latency else 0) ∧
      pr1.hostCalls = pr.hostCalls ++
        [HostCall.setLatencySamples (if pHQ.getValue > 1 / 2 then latency else 0),
          HostCall.startTimerHz 4] ∧
      ∀ (params1 : Params) (pHQ1 : Param), params1.get PID.HQ = some pHQ1 →
        ∃ pr2, Processor.timerCallback env { pr1 with params := params1 } = some pr2 ∧
          pr2.latencySamples = (if pHQ1.getValue > 1 / 2 then latency else 0) := by
  have hlat : ∀ (w : σ) (sr : ℚ) (q : Param),
      env.osGetLatency (env.osPrepare w sr (decide (q.getValue > 1 / 2)))
        = if q.getValue > 1 / 2 then latency else 0 := by
    intro w sr q
    rw [hos.latency w sr]
    simp only [decide_eq_true_eq]
  rw [Processor.prepareToPlay_eq env pr sampleRate maxBlockSize pHQ h]
  refine ⟨_, rfl, ?_, ?_, ?_⟩
  · exact hlat _ _ _
  · simp only [hlat]
  · intro params1 pHQ1 h1
    rw [Processor.timerCallback_eq env _ pHQ1 h1]
    simp only [(hos _ sampleRate).1]
    by_cases hd : decide (pHQ.getValue > 1 / 2) = decide (pHQ1.getValue > 1 / 2)
    · rw [if_pos hd]
      refine ⟨_, rfl, ?_⟩
      simp only [hlat]
      simp only [decide_eq_decide] at hd
      simp only [hd]
    · rw [if_neg hd, Processor.prepareToPlay_eq env _ _ _ pHQ1
        (by simpa [Processor.suspendProcessing] using h1)]
      refine ⟨_, rfl, ?_⟩
      simp only [Processor.suspendProcessing, hlat]

/-- The instance of C24 at the oversampler of the examples with added latency `32` and the
example processor whose `HQ` parameter reads `1`: the latency reported is `32`. -/
theorem Processor.latency_reporting_witness :
    ∃ pr1, Processor.exampleHQ.prepareToPlay (Env.oversampling 32 2) 44100 512 = some pr1 ∧
      pr1.latencySamples = 32 := by
  obtain ⟨pr1, h1, h2, _⟩ := Processor.latency_reporting (Env.oversampling 32 2) 32 2
    (Env.oversampling_spec 32 2) Processor.exampleHQ 44100 512
    (Param.ctor PID.HQ (Range.linear 0 1 1) 1 (fun _ => "") (fun _ => 0)) rfl
  refine ⟨pr1, h1, ?_⟩
  rw [h2, Params.exampleHQ_value]
  norm_num

/-- C26: `prepareToPlay` hands the DSP stage the host sample rate (`pluginProcessor.prepare
(sampleRate)`), which is the rate `operator()` converts the slew frequency with, and takes
`sampleRateUp` from the oversampler; with an oversampler of factor `2` enabled at `44100` Hz
the DSP stage converts with `44100` while `sampleRateUp` is `88200`, and it is invoked on the
upsampled block of `16` samples for a sub-block of `8`. -/
theorem Processor.dsp_rate_is_host_rate :
    (∀ (σ : Type) (env : Env σ) (pr : Processor σ) (sampleRate : ℚ) (maxBlockSize : Nat)
      (pHQ : Param), pr.params.get PID.HQ = some pHQ →
      ∃ pr1, pr.prepareToPlay env sampleRate maxBlockSize = some pr1 ∧
        pr1.pluginProcessor.sampleRate = sampleRate ∧
        pr1.sampleRateUp = env.osSampleRateUp pr1.ext) ∧
    ∃ pr1, Processor.exampleHQ.prepareToPlay (Env.oversampling 32 2) 44100 512 = some pr1 ∧
      pr1.sampleRateUp = 88200 ∧
      pr1.pluginProcessor.sampleRate = 44100 ∧
      pr1.pluginProcessor.sampleRate ≠ pr1.sampleRateUp ∧
      ∃ pr2 out, pr1.processBlockOversampler (Env.oversampling 32 2)
          AudioBufferD.example.samples 0 2 8 = some (pr2, out) ∧
        pr2.calls = [Call.upsample 0 2 8, Call.pluginProcessor 44100 2 16,
          Call.downsample 0 8] := by
  constructor
  · intro σ env pr sampleRate maxBlockSize pHQ h
    rw [Processor.prepareToPlay_eq env pr sampleRate maxBlockSize pHQ h]
    exact ⟨_, rfl, rfl, rfl⟩
  · rw [Processor.prepareToPlay_eq (Env.oversampling 32 2) Processor.exampleHQ 44100 512
      (Param.ctor PID.HQ (Range.linear 0 1 1) 1 (fun _ => "") (fun _ => 0)) rfl]
    have hd : decide ((Param.ctor PID.HQ (Range.linear 0 1 1) 1 (fun _ => "")
        (fun _ => 0)).getValue > 1 / 2) = true := by
      rw [Params.exampleHQ_value]
      norm_num
    refine ⟨_, rfl, ?_, rfl, ?_, ?_⟩
    · simp only [hd]
      norm_num [Env.oversampling]
    · simp only [hd]
      norm_num [Env.oversampling]
    · obtain ⟨w, out, hr⟩ := Processor.processBlockOversampler_trace (Env.oversampling 32 2)
        { Processor.exampleHQ with
          audioBufferD := Processor.exampleHQ.audioBufferD.setSize 2 512 false true false
            (Env.oversampling 32 2).uninit
          pluginProcessor := { sampleRate := 44100 }
          ext := (Env.oversampling 32 2).osPrepare
            ((Env.oversampling 32 2).mixPrepare Processor.exampleHQ.ext 44100) 44100
            (decide ((Param.ctor PID.HQ (Range.linear 0 1 1) 1 (fun _ => "")
              (fun _ => 0)).getValue > 1 / 2))
          sampleRateUp := (Env.oversampling 32 2).osSampleRateUp
            ((Env.oversampling 32 2).osPrepare
              ((Env.oversampling 32 2).mixPrepare Processor.exampleHQ.ext 44100) 44100
              (decide ((Param.ctor PID.HQ (Range.linear 0 1 1) 1 (fun _ => "")
                (fun _ => 0)).getValue > 1 / 2)))
          blockSizeUp :=
            if (Env.oversampling 32 2).osEnabled ((Env.oversampling 32 2).osPrepare
              ((Env.oversampling 32 2).mixPrepare Processor.exampleHQ.ext 44100) 44100
              (decide ((Param.ctor PID.HQ (Range.linear 0 1 1) 1 (fun _ => "")
                (fun _ => 0)).getValue > 1 / 2))) then (Env.oversampling 32 2).BlockSize2x
            else (Env.oversampling 32 2).BlockSize
          latencySamples := (Env.oversampling 32 2).osGetLatency
            ((Env.oversampling 32 2).osPrepare
              ((Env.oversampling 32 2).mixPrepare Processor.exampleHQ.ext 44100) 44100
              (decide ((Param.ctor PID.HQ (Range.linear 0 1 1) 1 (fun _ => "")
                (fun _ => 0)).getValue > 1 / 2)))
          hostCalls := Processor.exampleHQ.hostCalls ++
            [HostCall.setLatencySamples ((Env.oversampling 32 2).osGetLatency
              ((Env.oversampling 32 2).osPrepare
                ((Env.oversampling 32 2).mixPrepare Processor.exampleHQ.ext 44100) 44100
                (decide ((Param.ctor PID.HQ (Range.linear 0 1 1) 1 (fun _ => "")
                  (fun _ => 0)).getValue > 1 / 2)))),
              HostCall.startTimerHz 4] }
        AudioBufferD.example.samples 0 2 8 (by decide)
      refine ⟨_, _, hr, ?_⟩
      simp only [hd]
      simp [Env.oversampling, Processor.exampleHQ]

/-- C27: on a `timerCallback` tick, when `(HQ value > 0.5)` equals the oversampler's
`enabled` flag the processor is left as it is; when the two differ the tick is
`suspendProcessing (true)`, `prepareToPlay (getSampleRate (), getBlockSize ())`,
`suspendProcessing (false)`, in this order, which changes the state (the host has been called
four more times). -/
theorem Processor.timerCallback_mismatch {σ : Type} (env : Env σ) (pr : Processor σ)
    (pHQ : Param) (h : pr.params.get PID.HQ = some pHQ) :
    (env.osEnabled pr.ext = decide (pHQ.getValue > 1 / 2) →
      pr.timerCallback env = some pr) ∧
    (env.osEnabled pr.ext ≠ decide (pHQ.getValue > 1 / 2) →
      ∃ pr1, (pr.suspendProcessing true).prepareToPlay env pr.currentSampleRate pr.blockSize
          = some pr1 ∧
        pr.timerCallback env = some (pr1.suspendProcessing false) ∧
        (pr1.suspendProcessing false).hostCalls = pr.hostCalls ++
          [HostCall.suspendProcessing true, HostCall.setLatencySamples pr1.latencySamples,
            HostCall.startTimerHz 4, HostCall.suspendProcessing false] ∧
        (pr1.suspendProcessing false).suspended = false ∧
        pr.timerCallback env ≠ some pr) := by
  constructor
  · intro he
    simp [Processor.timerCallback, h, he]
  · intro hne
    have hprep := Processor.prepareToPlay_eq env (pr.suspendProcessing true)
      pr.currentSampleRate pr.blockSize pHQ
      (by simpa [Processor.suspendProcessing] using h)
    rw [Processor.timerCallback_eq env pr pHQ h, if_neg hne, hprep]
    refine ⟨_, rfl, rfl, ?_, rfl, ?_⟩
    · simp [Processor.suspendProcessing]
    · intro hc
      have hl := congrArg (fun o => o.map fun p => p.hostCalls.length) hc
      simp [Processor.suspendProcessing] at hl

/-- The instance of C27 at the example processor, whose `HQ` parameter reads `0` and whose
oversampler is off: the tick leaves the processor as it is. -/
theorem Processor.timerCallback_mismatch_witness :
    Processor.example.timerCallback Env.example = some Processor.example :=
  (Processor.timerCallback_mismatch Env.example Processor.example
    (Param.ctor PID.HQ (Range.linear 0 1 1) 0 (fun _ => "") (fun _ => 0)) rfl).1
    (by
      rw [Params.example_value]
      norm_num [Env.example])

theorem Processor.processBlock_frame {σ : Type} (env : Env σ) (pr : Processor σ)
    (buffer : AudioBufferD) (pr1 : Processor σ) (out : AudioBufferD)
    (h : pr.processBlock env buffer = some (pr1, out)) :
    pr1.audioBufferD = pr.audioBufferD ∧ out.numChannels = buffer.numChannels ∧
      out.numSamples = buffer.numSamples := by
  unfold Processor.processBlock at h
  dsimp only at h
  obtain ⟨h1, h2, h3, _⟩ := Processor.clearLoop_spec buffer.numSamples
    (pr.totalNumOutputChannels - pr.totalNumInputChannels) pr.totalNumInputChannels pr buffer
  generalize Processor.clearLoop buffer.numSamples
    (pr.totalNumOutputChannels - pr.totalNumInputChannels) pr.totalNumInputChannels
    (pr, buffer) = r at h h1 h2 h3
  by_cases hN : buffer.numSamples = 0
  · rw [if_pos hN] at h
    simp only [Option.some.injEq] at h
    rw [h] at h1 h2 h3
    simp only at h1 h2 h3
    rw [h1]
    exact ⟨rfl, h2, h3⟩
  · rw [if_neg hN] at h
    cases hg : r.1.params.get PID.GainOut with
    | none => simp [hg] at h
    | some pGain =>
      simp only [hg] at h
      cases hl : Processor.processBlockLoop env pGain.getValueDenorm r.2.numChannels
          buffer.numSamples buffer.numSamples 0 (r.1, r.2.samples) with
      | none => simp [hl] at h
      | some q =>
        obtain ⟨pr2, samples2⟩ := q
        obtain ⟨w, new, hpr2, _⟩ := Processor.processBlockLoop_calls env _ _ _ _ _ _ _ _ _ hl
        simp only [hl] at h
        by_cases hd : env.JUCE_DEBUG = true
        · rw [if_pos hd] at h
          simp only [Option.some.injEq, Prod.mk.injEq] at h
          rw [← h.1, ← h.2, hpr2, h1]
          exact ⟨rfl, h2, h3⟩
        · rw [if_neg hd] at h
          simp only [Option.some.injEq, Prod.mk.injEq] at h
          rw [← h.1, ← h.2, hpr2, h1]
          exact ⟨rfl, h2, h3⟩

theorem Processor.processBlockF_dims {σ : Type} (env : Env σ) (pr : Processor σ)
    (buffer : AudioBufferF) (hC : 0 < env.BlockSize)
    (hp : NumParams ≤ pr.params.params.length) :
    ∃ pr1 out, pr.processBlockF env buffer = some (pr1, out) ∧
      pr1.audioBufferD.numChannels = buffer.numChannels ∧
      pr1.audioBufferD.numSamples = buffer.numSamples := by
  obtain ⟨d1, d2⟩ := AudioBufferD.setSize_dims pr.audioBufferD buffer.numChannels
    buffer.numSamples true false true env.uninit
  unfold Processor.processBlockF
  dsimp only
  obtain ⟨pr2, out2, _, h2, _⟩ := Processor.processBlock_spec env
    { pr with audioBufferD :=
      { pr.audioBufferD.setSize buffer.numChannels buffer.numSamples true false true
          env.uninit with
        samples := copyChannels toDouble buffer.numChannels buffer.numSamples buffer.samples 0
          (pr.audioBufferD.setSize buffer.numChannels buffer.numSamples true false true
            env.uninit).samples } }
    { pr.audioBufferD.setSize buffer.numChannels buffer.numSamples true false true
        env.uninit with
      samples := copyChannels toDouble buffer.numChannels buffer.numSamples buffer.samples 0
        (pr.audioBufferD.setSize buffer.numChannels buffer.numSamples true false true
          env.uninit).samples } hC hp
  obtain ⟨_, f2, f3⟩ := Processor.processBlock_frame env _ _ _ _ h2
  rw [h2]
  exact ⟨_, _, rfl, by rw [f2]; exact d1, by rw [f3]; exact d2⟩

theorem Processor.processBlockBypassedF_dims {σ : Type} (env : Env σ) (pr : Processor σ)
    (buffer : AudioBufferF) (hC : 0 < env.BlockSize) :
    ∃ pr1 out, pr.processBlockBypassedF env buffer = some (pr1, out) ∧
      pr1.audioBufferD.numChannels = buffer.numChannels ∧
      pr1.audioBufferD.numSamples = buffer.numSamples := by
  obtain ⟨d1, d2⟩ := AudioBufferD.setSize_dims pr.audioBufferD buffer.numChannels
    buffer.numSamples true false true env.uninit
  unfold Processor.processBlockBypassedF
  dsimp only
  rw [Processor.processBlockBypassed_eq env _ _ hC]
  exact ⟨_, _, rfl, d1, d2⟩

/-- C28, the claim refuted: after `prepareToPlay (44100, 512)` the scratch buffer has `512`
samples per channel, and `processBlockBypassed` on a single-precision buffer of `10` samples
leaves it with `10`. -/
theorem Processor.float_overload_resizes_scratch :
    ¬ (∀ (pr0 pr1 : Processor Unit) (out : AudioBufferF),
      Processor.example.prepareToPlay Env.example 44100 512 = some pr0 →
      pr0.processBlockBypassedF Env.example AudioBufferF.example = some (pr1, out) →
      pr1.audioBufferD.numChannels = pr0.audioBufferD.numChannels ∧
        pr1.audioBufferD.numSamples = pr0.audioBufferD.numSamples) := by
  intro hall
  have h0 := Processor.prepareToPlay_eq Env.example Processor.example 44100 512
    (Param.ctor PID.HQ (Range.linear 0 1 1) 0 (fun _ => "") (fun _ => 0)) rfl
  obtain ⟨pr1, out, h1, _, h3⟩ := Processor.processBlockBypassedF_dims Env.example
    { Processor.example with
      audioBufferD := Processor.example.audioBufferD.setSize 2 512 false true false
        Env.example.uninit
      pluginProcessor := { sampleRate := 44100 }
      ext := Env.example.osPrepare (Env.example.mixPrepare Processor.example.ext 44100) 44100
        (decide ((Param.ctor PID.HQ (Range.linear 0 1 1) 0 (fun _ => "")
          (fun _ => 0)).getValue > 1 / 2))
      sampleRateUp := Env.example.osSampleRateUp
        (Env.example.osPrepare (Env.example.mixPrepare Processor.example.ext 44100) 44100
          (decide ((Param.ctor PID.HQ (Range.linear 0 1 1) 0 (fun _ => "")
            (fun _ => 0)).getValue > 1 / 2)))
      blockSizeUp :=
        if Env.example.osEnabled (Env.example.osPrepare
          (Env.example.mixPrepare Processor.example.ext 44100) 44100
          (decide ((Param.ctor PID.HQ (Range.linear 0 1 1) 0 (fun _ => "")
            (fun _ => 0)).getValue > 1 / 2))) then Env.example.BlockSize2x
        else Env.example.BlockSize
      latencySamples := Env.example.osGetLatency
        (Env.example.osPrepare (Env.example.mixPrepare Processor.example.ext 44100) 44100
          (decide ((Param.ctor PID.HQ (Range.linear 0 1 1) 0 (fun _ => "")
            (fun _ => 0)).getValue > 1 / 2)))
      hostCalls := Processor.example.hostCalls ++
        [HostCall.setLatencySamples (Env.example.osGetLatency
          (Env.example.osPrepare (Env.example.mixPrepare Processor.example.ext 44100) 44100
            (decide ((Param.ctor PID.HQ (Range.linear 0 1 1) 0 (fun _ => "")
              (fun _ => 0)).getValue > 1 / 2)))),
          HostCall.startTimerHz 4] }
    AudioBufferF.example (by decide)
  have h := (hall _ pr1 out h0 h1).2
  rw [h3, (AudioBufferD.setSize_dims _ 2 512 false true false _).2] at h
  exact absurd h (by decide)

/-- C28, amended: `prepareToPlay` sets the scratch buffer to two channels of `maxBlockSize`
samples; `processBlock` and `processBlockBypassed` on a double-precision buffer leave the
scratch buffer as it is; `processBlock` and `processBlockBypassed` on a single-precision
buffer set its dimensions to the channel count and sample count of that buffer. -/
theorem Processor.scratch_dimensions {σ : Type} (env : Env σ) (pr : Processor σ)
    (bufferD : AudioBufferD) (bufferF : AudioBufferF) (sampleRate : ℚ) (maxBlockSize : Nat)
    (hC : 0 < env.BlockSize) (hp : NumParams ≤ pr.params.params.length) :
    (∃ pr1, pr.prepareToPlay env sampleRate maxBlockSize = some pr1 ∧
      pr1.audioBufferD.numChannels = 2 ∧ pr1.audioBufferD.numSamples = maxBlockSize) ∧
    (∃ pr1 out, pr.processBlock env bufferD = some (pr1, out) ∧
      pr1.audioBufferD = pr.audioBufferD) ∧
    (∃ pr1 out, pr.processBlockBypassed env bufferD = some (pr1, out) ∧
      pr1.audioBufferD = pr.audioBufferD) ∧
    (∃ pr1 out, pr.processBlockF env bufferF = some (pr1, out) ∧
      pr1.audioBufferD.numChannels = bufferF.numChannels ∧
      pr1.audioBufferD.numSamples = bufferF.numSamples) ∧
    (∃ pr1 out, pr.processBlockBypassedF env bufferF = some (pr1, out) ∧
      pr1.audioBufferD.numChannels = bufferF.numChannels ∧
      pr1.audioBufferD.numSamples = bufferF.numSamples) := by
  obtain ⟨pHQ, hHQ⟩ := Params.get_of_length pr.params hp PID.HQ (by decide)
  refine ⟨?_, ?_, ?_, Processor.processBlockF_dims env pr bufferF hC hp,
    Processor.processBlockBypassedF_dims env pr bufferF hC⟩
  · rw [Processor.prepareToPlay_eq env pr sampleRate maxBlockSize pHQ hHQ]
    exact ⟨_, rfl, (AudioBufferD.setSize_dims _ 2 maxBlockSize false true false _).1,
      (AudioBufferD.setSize_dims _ 2 maxBlockSize false true false _).2⟩
  · obtain ⟨pr1, out, _, h1, _⟩ := Processor.processBlock_spec env pr bufferD hC hp
    exact ⟨pr1, out, h1, (Processor.processBlock_frame env pr bufferD pr1 out h1).1⟩
  · rw [Processor.processBlockBypassed_eq env pr bufferD hC]
    exact ⟨_, _, rfl, rfl⟩

/-- The instance of C28 at the example processor: a double-precision buffer of ten samples
leaves the scratch buffer as it is, a single-precision one leaves it with ten samples. -/
theorem Processor.scratch_dimensions_witness :
    (∃ pr1 out, Processor.example.processBlock Env.example AudioBufferD.example
        = some (pr1, out) ∧ pr1.audioBufferD = Processor.example.audioBufferD) ∧
    (∃ pr1 out, Processor.example.processBlockF Env.example AudioBufferF.example
        = some (pr1, out) ∧ pr1.audioBufferD.numChannels = 2 ∧
        pr1.audioBufferD.numSamples = 10) :=
  ⟨(Processor.scratch_dimensions Env.example Processor.example AudioBufferD.example
      AudioBufferF.example 44100 512 (by decide) (by decide)).2.1,
    (Processor.scratch_dimensions Env.example Processor.example AudioBufferD.example
      AudioBufferF.example 44100 512 (by decide) (by decide)).2.2.2.1⟩

theorem filter_flatten_map {α β : Type} (p : β → Bool) (f : α → List β) (l : List α) :
    ((l.map f).flatten).filter p = (l.map fun a => (f a).filter p).flatten := by
  induction l with
  | nil => rfl
  | cons a l ih =>
    rw [List.map_cons, List.flatten_cons, List.filter_append, ih, List.map_cons,
      List.flatten_cons]

/-- C29: for every sub-block of `n` samples at offset `s`, `processBlockOversampler` makes
exactly the calls `upsample (samples, numChannels, n)`, the DSP stage on the upsampled block
with the sample count `upsample` returned, `downsample (samples, n)` with the original count
`n`, in this order; and over a whole `processBlock` call the calls into the oversampler and
the DSP stage are, for each sub-block in turn, one `upsample`, one DSP invocation and one
`downsample` of that sub-block, so every `upsample` is followed by exactly one DSP invocation
and exactly one `downsample` before the next `upsample`. -/
theorem Processor.oversampler_bracket {σ : Type} (env : Env σ) (pr : Processor σ)
    (samples : Samples) (s numChannels n : Nat) (buffer : AudioBufferD)
    (hC : 0 < env.BlockSize) (hp : NumParams ≤ pr.params.params.length) :
    (∃ pr1 out, pr.processBlockOversampler env samples s numChannels n = some (pr1, out) ∧
      pr1.calls = pr.calls ++
        [Call.upsample s numChannels n,
          Call.pluginProcessor pr.pluginProcessor.sampleRate numChannels
            (env.upsample pr.ext samples s numChannels n).2.2,
          Call.downsample s n]) ∧
    (∃ pr1 out, pr.processBlock env buffer = some (pr1, out) ∧
      (((pr1.calls.drop pr.calls.length).map Call.shape).filter fun c => Stage.bracket c.1)
        = ((specSubBlocks env.BlockSize buffer.numSamples).map fun b =>
            [(Stage.upsample, some b), (Stage.dsp, none),
              (Stage.downsample, some b)]).flatten) := by
  constructor
  · obtain ⟨w, out, h⟩ := Processor.processBlockOversampler_trace env pr samples s
      numChannels n hp
    exact ⟨_, out, h, rfl⟩
  · obtain ⟨pr1, out, new, h1, h2, h3, _⟩ := Processor.processBlock_spec env pr buffer hC hp
    refine ⟨pr1, out, h1, ?_⟩
    rw [h2, List.append_assoc, List.append_assoc, List.drop_left, List.map_append,
      List.map_append, List.filter_append, List.filter_append, h3, filter_flatten_map]
    have hclear : (List.map Call.shape
        ((List.range (pr.totalNumOutputChannels - pr.totalNumInputChannels)).map
          fun j => Call.clear (pr.totalNumInputChannels + j) 0 buffer.numSamples)).filter
        (fun c => Stage.bracket c.1) = [] := by
      rw [List.filter_eq_nil_iff]
      intro c hc
      simp only [List.mem_map, List.mem_range] at hc
      obtain ⟨_, ⟨j, _, rfl⟩, rfl⟩ := hc
      simp [Call.shape, Call.stage, Stage.bracket]
    have hclip : (List.map Call.shape
        (if env.JUCE_DEBUG = true ∧ buffer.numSamples ≠ 0
          then [Call.hardclip buffer.numChannels buffer.numSamples] else [])).filter
        (fun c => Stage.bracket c.1) = [] := by
      split_ifs <;> simp [Call.shape, Call.stage, Stage.bracket]
    rw [hclear, hclip, List.nil_append, List.append_nil]
    congr 1

/-- The instance of C29 for the example processor and a buffer of `10` samples with chunk
length `8`: the bracket on `8` samples at offset `0`, then the bracket on `2` samples at
offset `8`. -/
theorem Processor.oversampler_bracket_witness :
    ∃ pr1 out, Processor.example.processBlock Env.example AudioBufferD.example
        = some (pr1, out) ∧
      (((pr1.calls.drop Processor.example.calls.length).map Call.shape).filter
          fun c => Stage.bracket c.1)
        = [(Stage.upsample, some (0, 8)), (Stage.dsp, none), (Stage.downsample, some (0, 8)),
          (Stage.upsample, some (8, 2)), (Stage.dsp, none),
          (Stage.downsample, some (8, 2))] := by
  obtain ⟨pr1, out, h1, h2⟩ := (Processor.oversampler_bracket Env.example Processor.example
    AudioBufferD.example.samples 0 2 8 AudioBufferD.example (by decide) (by decide)).2
  refine ⟨pr1, out, h1, ?_⟩
  rw [h2]
  have hs : specSubBlocks Env.example.BlockSize AudioBufferD.example.numSamples
      = [(0, 8), (8, 2)] := by decide
  rw [hs]
  rfl

end audio

/-! ## Theorems: the modulation curve, the patch round trip, the constructor -/

namespace param

theorem jlimit_mono (lo hi a b : ℚ) (h : lo ≤ hi) (hab : a ≤ b) :
    jlimit lo hi a ≤ jlimit lo hi b := by
  rw [jlimit_eq_max_min lo hi a h, jlimit_eq_max_min lo hi b h]
  exact max_le_max le_rfl (min_le_min le_rfl hab)

theorem Param.calcValModOf_eq (p : Param) (x : ℚ) :
    p.calcValModOf x = jlimit 0 1
      (p.valNorm + p.maxModDepth
        * (p.modBias * x / ((1 - p.modBias) - x + 2 * p.modBias * x))) := by
  simp only [Param.calcValModOf, Param.getValue, Param.biased]
  rcases lt_trichotomy p.maxModDepth 0 with h | h | h
  · have h1 : ¬ p.maxModDepth > 0 := not_lt_of_gt h
    have h2 : p.maxModDepth * -1 - 0 ≠ 0 := by
      intro hc
      have : p.maxModDepth = 0 := by linarith
      exact absurd this (ne_of_lt h)
    simp only [h1, if_false, h2]
    congr 2
    ring
  · simp [h]
  · have h2 : p.maxModDepth * 1 - 0 ≠ 0 := by
      intro hc
      have : p.maxModDepth = 0 := by linarith
      exact absurd this (ne_of_gt h)
    simp only [h, if_true, h2, if_false]
    congr 2
    ring

theorem biased_quotient_mono (b x y : ℚ)
    (hb : Param.BiasEps ≤ b ∧ b ≤ 1 - Param.BiasEps) (hx : 0 ≤ x) (hxy : x ≤ y)
    (hy : y ≤ 1) :
    b * x / ((1 - b) - x + 2 * b * x) ≤ b * y / ((1 - b) - y + 2 * b * y) := by
  have heps : (0 : ℚ) < Param.BiasEps := by norm_num [Param.BiasEps]
  have hb0 : 0 < b := lt_of_lt_of_le heps hb.1
  have hb1 : b < 1 := by linarith [hb.2]
  have hdx := biased_denominator_pos b x hb ⟨hx, le_trans hxy hy⟩
  have hdy := biased_denominator_pos b y hb ⟨le_trans hx hxy, hy⟩
  rw [div_le_div_iff₀ hdx hdy]
  have hkey : b * y * ((1 - b) - x + 2 * b * x) - b * x * ((1 - b) - y + 2 * b * y)
      = b * (1 - b) * (y - x) := by ring
  have hnn : 0 ≤ b * (1 - b) * (y - x) :=
    mul_nonneg (mul_nonneg hb0.le (by linarith)) (by linarith)
  linarith

theorem biased_quotient_zero (b : ℚ) : b * 0 / ((1 - b) - 0 + 2 * b * 0) = 0 := by
  simp

theorem biased_quotient_one (b : ℚ) (hb : Param.BiasEps ≤ b) :
    b * 1 / ((1 - b) - 1 + 2 * b * 1) = 1 := by
  have heps : (0 : ℚ) < Param.BiasEps := by norm_num [Param.BiasEps]
  have hb0 : b ≠ 0 := ne_of_gt (lt_of_lt_of_le heps hb)
  have hd : (1 - b) - 1 + 2 * b * 1 = b := by ring
  rw [hd, mul_one, div_self hb0]

/-- Over exact numbers, without rounding: for every parameter state whose bias lies in
`[eps, 1 - eps]`, `calcValModOf 0` is the base value clamped to `[0, 1]` and `calcValModOf 1`
is the base value plus the maximum modulation depth, clamped to `[0, 1]`. -/
theorem Param.calcValModOf_endpoints_exact (p : Param)
    (hb : Param.BiasEps ≤ p.modBias ∧ p.modBias ≤ 1 - Param.BiasEps) :
    p.calcValModOf 0 = jlimit 0 1 p.getValue ∧
    p.calcValModOf 1 = jlimit 0 1 (p.getValue + p.getMaxModDepth) := by
  constructor
  · rw [Param.calcValModOf_eq, biased_quotient_zero, mul_zero, add_zero]
    rfl
  · rw [Param.calcValModOf_eq, biased_quotient_one _ hb.1, mul_one]
    rfl

/-- Over exact numbers, without rounding: for every parameter state whose bias lies in
`[eps, 1 - eps]`, `calcValModOf` is monotone in the macro input over `[0, 1]`, non-decreasing
when the maximum modulation depth is not negative and non-increasing when it is not positive,
and its values lie between the clamped base value and the clamped sum of base value and
maximum modulation depth. -/
theorem Param.calcValModOf_monotone_exact (p : Param)
    (hb : Param.BiasEps ≤ p.modBias ∧ p.modBias ≤ 1 - Param.BiasEps) (x y : ℚ)
    (hx : 0 ≤ x) (hxy : x ≤ y) (hy : y ≤ 1) :
    (0 ≤ p.getMaxModDepth →
      p.calcValModOf x ≤ p.calcValModOf y ∧
      jlimit 0 1 p.getValue ≤ p.calcValModOf x ∧
      p.calcValModOf x ≤ jlimit 0 1 (p.getValue + p.getMaxModDepth)) ∧
    (p.getMaxModDepth ≤ 0 →
      p.calcValModOf y ≤ p.calcValModOf x ∧
      jlimit 0 1 (p.getValue + p.getMaxModDepth) ≤ p.calcValModOf x ∧
      p.calcValModOf x ≤ jlimit 0 1 p.getValue) := by
  have hx1 : x ≤ 1 := le_trans hxy hy
  have h01 : (0 : ℚ) ≤ 1 := zero_le_one
  have hxy1 := biased_quotient_mono p.modBias x y hb hx hxy hy
  have h0x := biased_quotient_mono p.modBias 0 x hb le_rfl hx hx1
  have hx1q := biased_quotient_mono p.modBias x 1 hb hx hx1 le_rfl
  rw [biased_quotient_zero] at h0x
  rw [biased_quotient_one _ hb.1] at hx1q
  have e0 : jlimit 0 1 p.getValue = jlimit 0 1 (p.valNorm + p.maxModDepth * 0) := by
    rw [mul_zero, add_zero]
    rfl
  have e1 : jlimit 0 1 (p.getValue + p.getMaxModDepth)
      = jlimit 0 1 (p.valNorm + p.maxModDepth * 1) := by
    rw [mul_one]
    rfl
  rw [e0, e1, Param.calcValModOf_eq, Param.calcValModOf_eq]
  simp only [Param.getMaxModDepth]
  constructor
  · intro hd
    refine ⟨jlimit_mono 0 1 _ _ h01 ?_, jlimit_mono 0 1 _ _ h01 ?_,
      jlimit_mono 0 1 _ _ h01 ?_⟩
    · exact add_le_add_left (mul_le_mul_of_nonneg_left hxy1 hd) _
    · exact add_le_add_left (mul_le_mul_of_nonneg_left h0x hd) _
    · exact add_le_add_left (mul_le_mul_of_nonneg_left hx1q hd) _
  · intro hd
    refine ⟨jlimit_mono 0 1 _ _ h01 ?_, jlimit_mono 0 1 _ _ h01 ?_,
      jlimit_mono 0 1 _ _ h01 ?_⟩
    · exact add_le_add_left (mul_le_mul_of_nonpos_left hxy1 hd) _
    · exact add_le_add_left (mul_le_mul_of_nonpos_left hx1q hd) _
    · exact add_le_add_left (mul_le_mul_of_nonpos_left h0x hd) _

theorem Range.linear_snap_mem (s e i v : ℚ) (hse : s < e) :
    s ≤ (Range.linear s e i).snapToLegalValue v ∧
      (Range.linear s e i).snapToLegalValue v ≤ e := by
  simp only [Range.linear]
  generalize (if i > 0 then s + i * (Int.floor ((v - s) / i + 1 / 2) : ℚ) else v) = w
  by_cases h1 : w ≤ s ∨ e ≤ s
  · rw [if_pos h1]
    exact ⟨le_rfl, hse.le⟩
  · rw [if_neg h1]
    push_neg at h1
    by_cases h2 : w ≥ e
    · rw [if_pos h2]
      exact ⟨hse.le, le_rfl⟩
    · rw [if_neg h2]
      push_neg at h2
      exact ⟨h1.1.le, h2.le⟩

theorem Range.linear_snap_continuous (s e v : ℚ) (hv : s ≤ v ∧ v ≤ e) :
    (Range.linear s e 0).snapToLegalValue v = v := by
  simp only [Range.linear, gt_iff_lt, lt_irrefl, if_false]
  split_ifs with h1 h2
  · rcases h1 with h1 | h1 <;> linarith
  · linarith
  · rfl

theorem Range.linear_convertFrom0to1_mem (s e i v : ℚ) (hse : s < e) (hv : 0 ≤ v ∧ v ≤ 1) :
    s ≤ (Range.linear s e i).convertFrom0to1 v ∧
      (Range.linear s e i).convertFrom0to1 v ≤ e := by
  simp only [Range.linear]
  rw [jlimit_of_mem 0 1 v hv.1 hv.2]
  constructor
  · nlinarith
  · nlinarith

theorem Range.linear_from_to (s e i x : ℚ) (hse : s < e) (hx : s ≤ x ∧ x ≤ e) :
    (Range.linear s e i).convertFrom0to1 ((Range.linear s e i).convertTo0to1 x) = x := by
  have hpos : 0 < e - s := by linarith
  have h0 : 0 ≤ (x - s) / (e - s) := div_nonneg (by linarith) hpos.le
  have h1 : (x - s) / (e - s) ≤ 1 := by
    rw [div_le_one hpos]
    linarith
  simp only [Range.linear]
  rw [jlimit_of_mem 0 1 _ h0 h1, jlimit_of_mem 0 1 _ h0 h1]
  field_simp

theorem Param.savePatch_get (p : Param) (state : State) :
    State.get (p.savePatch state) (p.idStr ++ "/value") = some p.getValueDenorm ∧
      State.get (p.savePatch state) (p.idStr ++ "/maxmoddepth") = some p.getMaxModDepth ∧
      State.get (p.savePatch state) (p.idStr ++ "/modbias") = some p.getModBias := by
  have hkeys : (p.idStr ++ "/value" == p.idStr ++ "/modbias") = false ∧
      (p.idStr ++ "/value" == p.idStr ++ "/maxmoddepth") = false ∧
      (p.idStr ++ "/maxmoddepth" == p.idStr ++ "/modbias") = false := by
    unfold Param.idStr
    cases p.id <;> decide
  simp [Param.savePatch, State.set, State.get, List.lookup, Param.getValueDenorm,
    hkeys.1, hkeys.2.1, hkeys.2.2]

/-- C34: for every unlocked parameter (with depth-lock mode off, and also with it on), a
continuous range (interval `0`, `start < end`, the mapping the library gives such a range),
value in `[0, 1]`, depth in `[-1, 1]` and bias in `[eps, 1 - eps]`, `savePatch` into a store followed by `loadPatch` from
that store leaves the normalized value, the maximum modulation depth and the modulation bias
as they were before `savePatch`. -/
theorem Param.patch_roundtrip (p : Param) (state : State) (s e : ℚ)
    (hl : p.locked = false)
    (hr : p.range = Range.linear s e 0) (hse : s < e)
    (hv : 0 ≤ p.valNorm ∧ p.valNorm ≤ 1)
    (hdepth : -1 ≤ p.maxModDepth ∧ p.maxModDepth ≤ 1)
    (hb : Param.BiasEps ≤ p.modBias ∧ p.modBias ≤ 1 - Param.BiasEps) :
    (p.loadPatch (p.savePatch state)).getValue = p.getValue ∧
    (p.loadPatch (p.savePatch state)).getMaxModDepth = p.getMaxModDepth ∧
    (p.loadPatch (p.savePatch state)).getModBias = p.getModBias := by
  obtain ⟨g1, g2, g3⟩ := Param.savePatch_get p state
  obtain ⟨f1, f2, f3⟩ := Param.loadPatch_fields p (p.savePatch state) hl
  rw [g1] at f1 f3
  rw [g2] at f3
  rw [g3] at f2
  simp only at f1 f2 f3
  refine ⟨?_, ?_, ?_⟩
  · show (p.loadPatch (p.savePatch state)).valNorm = p.valNorm
    rw [f1, Param.getValueDenorm, Param.getValue, hr,
      Range.linear_snap_continuous s e _
        (Range.linear_convertFrom0to1_mem s e 0 p.valNorm hse hv),
      Range.linear_roundtrip s e 0 p.valNorm hse hv]
  · show (p.loadPatch (p.savePatch state)).maxModDepth = p.maxModDepth
    rw [f3]
    exact jlimit_of_mem (-1) 1 _ hdepth.1 hdepth.2
  · show (p.loadPatch (p.savePatch state)).modBias = p.modBias
    rw [f2]
    exact jlimit_of_mem _ _ _ hb.1 hb.2

/-- The instance of C34 at the example parameter (range `[0, 127]`, continuous, value
`36 / 127`, depth `0`, bias `0.5`) and the empty store. -/
theorem Param.patch_roundtrip_witness :
    (Param.example.loadPatch (Param.example.savePatch [])).getValue
        = Param.example.getValue ∧
      (Param.example.loadPatch (Param.example.savePatch [])).getMaxModDepth
        = Param.example.getMaxModDepth ∧
      (Param.example.loadPatch (Param.example.savePatch [])).getModBias
        = Param.example.getModBias :=
  Param.patch_roundtrip Param.example [] 0 127 rfl rfl (by norm_num)
    (by norm_num [Param.example, Param.ctor, Range.linear, jlimit])
    (by norm_num [Param.example, Param.ctor])
    (by norm_num [Param.example, Param.ctor, Param.BiasEps])

/-- C35: a newly constructed parameter whose range has `start < end` (with the mapping the
library gives a range built from start, end and interval), for every default `D`: the
normalized value is `getDefaultValue ()`, `getValueDenorm ()` is `D` snapped to a legal value
of the range, the cached modulated value is the normalized value, the maximum modulation
depth is `0`, the modulation bias is `0.5`, and the lock, in-gesture and depth-lock flags are
all false. -/
theorem Param.ctor_state (pID : PID) (range : Range) (D : ℚ) (valToStr : ℚ → String)
    (strToVal : String → ℚ) (s e i : ℚ) (hr : range = Range.linear s e i) (hse : s < e) :
    (Param.ctor pID range D valToStr strToVal).getValue
      = (Param.ctor pID range D valToStr strToVal).getDefaultValue ∧
    (Param.ctor pID range D valToStr strToVal).getValueDenorm = range.snapToLegalValue D ∧
    (Param.ctor pID range D valToStr strToVal).getValMod
      = (Param.ctor pID range D valToStr strToVal).getValue ∧
    (Param.ctor pID range D valToStr strToVal).getMaxModDepth = 0 ∧
    (Param.ctor pID range D valToStr strToVal).getModBias = 1 / 2 ∧
    (Param.ctor pID range D valToStr strToVal).isLocked = false ∧
    (Param.ctor pID range D valToStr strToVal).isInGesture = false ∧
    (Param.ctor pID range D valToStr strToVal).modDepthLocked = false := by
  refine ⟨rfl, ?_, rfl, rfl, rfl, rfl, rfl, rfl⟩
  show range.convertFrom0to1 (range.convertTo0to1 (range.snapToLegalValue D))
    = range.snapToLegalValue D
  rw [hr]
  exact Range.linear_from_to s e i _ hse (Range.linear_snap_mem s e i D hse)

/-- The instance of C35 at the parameter with range `[0, 127]`, interval `1` and default
`69`. -/
theorem Param.ctor_state_witness :
    (Param.ctor PID.Slew (Range.linear 0 127 1) 69 (fun _ => "") (fun _ => 0)).getValueDenorm
      = (Range.linear 0 127 1).snapToLegalValue 69 :=
  (Param.ctor_state PID.Slew (Range.linear 0 127 1) 69 (fun _ => "") (fun _ => 0) 0 127 1
    rfl (by norm_num)).2.1

end param

/-! ## Theorems: the channel pointers of a sub-block -/

namespace audio

open param

theorem Processor.processBlockLoop_arrays {σ : Type} (env : Env σ) (gainOutDb : ℚ)
    (numChannels N : Nat) :
    ∀ (fuel s : Nat) (pr : Processor σ) (samples : Samples) (pr1 : Processor σ)
      (samples1 : Samples),
      Processor.processBlockLoop env gainOutDb numChannels N fuel s (pr, samples)
        = some (pr1, samples1) →
      ∃ new, pr1.calls = pr.calls ++ new ∧
        new.filter (fun c => decide (c.stage = Stage.samplesArray)) =
          (subBlocksFrom env.BlockSize N fuel s).map fun b => Call.samplesArray [0, 1] b.1 := by
  intro fuel
  induction fuel with
  | zero =>
    intro s pr samples pr1 samples1 h
    rw [Processor.processBlockLoop.eq_def] at h
    by_cases hlt : s < N
    · simp [hlt] at h
    · simp only [hlt, if_false, Option.some.injEq, Prod.mk.injEq] at h
      refine ⟨[], ?_, ?_⟩
      · rw [← h.1]
        simp
      · rw [subBlocksFrom_of_not_lt _ _ _ _ hlt]
        rfl
  | succ fuel ih =>
    intro s pr samples pr1 samples1 h
    rw [Processor.processBlockLoop.eq_def] at h
    by_cases hlt : s < N
    · simp only [hlt, if_true] at h
      cases hr : Processor.processBlockOversampler env
          { pr with calls := pr.calls ++ [Call.samplesArray [0, 1] s] } samples s numChannels
          (if N - s < env.BlockSize then N - s else env.BlockSize) with
      | none => simp [hr] at h
      | some r =>
        obtain ⟨pr2, samples2⟩ := r
        simp only [hr] at h
        obtain ⟨w, nUp, hpr2⟩ := Processor.processBlockOversampler_calls env _ samples s
          numChannels _ pr2 samples2 hr
        obtain ⟨new, hcalls, hnew⟩ := ih _ _ _ _ _ h
        refine ⟨[Call.samplesArray [0, 1] s,
          Call.upsample s numChannels (if N - s < env.BlockSize then N - s else env.BlockSize),
          Call.pluginProcessor pr.pluginProcessor.sampleRate numChannels nUp,
          Call.downsample s (if N - s < env.BlockSize then N - s else env.BlockSize),
          Call.join s gainOutDb numChannels
            (if N - s < env.BlockSize then N - s else env.BlockSize)] ++ new, ?_, ?_⟩
        · rw [hcalls, hpr2]
          simp
        · rw [subBlocksFrom_of_lt _ _ _ _ hlt, List.filter_append, hnew]
          simp [Call.stage]
    · simp only [hlt, if_false, Option.some.injEq, Prod.mk.injEq] at h
      refine ⟨[], ?_, ?_⟩
      · rw [← h.1]
        simp
      · rw [subBlocksFrom_of_not_lt _ _ _ _ hlt]
        rfl

theorem Processor.processBlock_arrays {σ : Type} (env : Env σ) (pr : Processor σ)
    (buffer : AudioBufferD) (hC : 0 < env.BlockSize) (pr1 : Processor σ) (out : AudioBufferD)
    (h : pr.processBlock env buffer = some (pr1, out)) :
    (pr1.calls.drop pr.calls.length).filter (fun c => decide (c.stage = Stage.samplesArray))
      = (specSubBlocks env.BlockSize buffer.numSamples).map
          fun b => Call.samplesArray [0, 1] b.1 := by
  unfold Processor.processBlock at h
  dsimp only at h
  obtain ⟨h1, _, _, _⟩ := Processor.clearLoop_spec buffer.numSamples
    (pr.totalNumOutputChannels - pr.totalNumInputChannels) pr.totalNumInputChannels pr buffer
  generalize Processor.clearLoop buffer.numSamples
    (pr.totalNumOutputChannels - pr.totalNumInputChannels) pr.totalNumInputChannels
    (pr, buffer) = r at h h1
  have hclear : ∀ l : List Call,
      (((List.range (pr.totalNumOutputChannels - pr.totalNumInputChannels)).map
          fun j => Call.clear (pr.totalNumInputChannels + j) 0 buffer.numSamples) ++ l).filter
        (fun c => decide (c.stage = Stage.samplesArray))
      = l.filter (fun c => decide (c.stage = Stage.samplesArray)) := by
    intro l
    rw [List.filter_append]
    have : ((List.range (pr.totalNumOutputChannels - pr.totalNumInputChannels)).map
        fun j => Call.clear (pr.totalNumInputChannels + j) 0 buffer.numSamples).filter
        (fun c => decide (c.stage = Stage.samplesArray)) = [] := by
      rw [List.filter_eq_nil_iff]
      intro c hc
      simp only [List.mem_map, List.mem_range] at hc
      obtain ⟨j, _, rfl⟩ := hc
      simp [Call.stage]
    rw [this, List.nil_append]
  by_cases hN : buffer.numSamples = 0
  · rw [if_pos hN] at h
    simp only [Option.some.injEq] at h
    rw [h] at h1
    simp only at h1
    rw [h1, specSubBlocks_eq_nil _ _ hC hN]
    simp only [List.drop_left, List.map_nil]
    have := hclear []
    simpa using this
  · rw [if_neg hN] at h
    cases hg : r.1.params.get PID.GainOut with
    | none => simp [hg] at h
    | some pGain =>
      simp only [hg] at h
      cases hl : Processor.processBlockLoop env pGain.getValueDenorm r.2.numChannels
          buffer.numSamples buffer.numSamples 0 (r.1, r.2.samples) with
      | none => simp [hl] at h
      | some q =>
        obtain ⟨pr2, samples2⟩ := q
        obtain ⟨new, hcalls, hnew⟩ := Processor.processBlockLoop_arrays env _ _ _ _ _ _ _ _ _ hl
        rw [subBlocksFrom_eq_spec _ _ hC] at hnew
        simp only [hl] at h
        rw [h1] at hcalls
        simp only at hcalls
        by_cases hd : env.JUCE_DEBUG = true
        · rw [if_pos hd] at h
          simp only [Option.some.injEq, Prod.mk.injEq] at h
          rw [← h.1]
          simp only [hcalls, List.append_assoc, List.drop_left]
          rw [hclear, List.filter_append, hnew]
          simp [Call.stage]
        · rw [if_neg hd] at h
          simp only [Option.some.injEq, Prod.mk.injEq] at h
          rw [← h.1, hcalls, List.append_assoc, List.drop_left, hclear, hnew]

theorem specSubBlocks_head (C N : Nat) (hC : 0 < C) (hN : 1 ≤ N) :
    ∃ n rest, specSubBlocks C N = (0, n) :: rest := by
  rw [← subBlocksFrom_eq_spec C N hC]
  obtain ⟨k, rfl⟩ : ∃ k, N = k + 1 := ⟨N - 1, by omega⟩
  rw [subBlocksFrom_of_lt C (k + 1) k 0 (by omega)]
  exact ⟨_, _, rfl⟩

/-- C33: for every buffer of `N ≥ 1` samples, whatever its channel count, `processBlock` and
`processBlockBypassed` build the channel array of every sub-block from the channel pointers
at the positions `0` and `1` (`{ &samplesMain[0][s], &samplesMain[1][s] }`), so position `1`
is indexed also for a one-channel buffer; the sample offsets `s` they form are those of the
sub-blocks, and every sub-block `(s, n)` has `s < N` and `s + n ≤ N`. -/
theorem Processor.channel_array_positions {σ : Type} (env : Env σ) (pr : Processor σ)
    (buffer : AudioBufferD) (hC : 0 < env.BlockSize)
    (hp : NumParams ≤ pr.params.params.length) (hN : 1 ≤ buffer.numSamples) :
    (∃ pr1 out, pr.processBlock env buffer = some (pr1, out) ∧
      (pr1.calls.drop pr.calls.length).filter
          (fun c => decide (c.stage = Stage.samplesArray))
        = (specSubBlocks env.BlockSize buffer.numSamples).map
            (fun b => Call.samplesArray [0, 1] b.1) ∧
      Call.samplesArray [0, 1] 0 ∈ pr1.calls) ∧
    (∃ pr1 out, pr.processBlockBypassed env buffer = some (pr1, out) ∧
      (pr1.calls.drop pr.calls.length).filter
          (fun c => decide (c.stage = Stage.samplesArray))
        = (specSubBlocks env.BlockSize buffer.numSamples).map
            (fun b => Call.samplesArray [0, 1] b.1) ∧
      Call.samplesArray [0, 1] 0 ∈ pr1.calls) ∧
    (∀ b ∈ specSubBlocks env.BlockSize buffer.numSamples,
      b.1 < buffer.numSamples ∧ b.1 + b.2 ≤ buffer.numSamples) := by
  obtain ⟨n, rest, hhead⟩ := specSubBlocks_head env.BlockSize buffer.numSamples hC hN
  have hmem : ∀ l : List Call,
      l.filter (fun c => decide (c.stage = Stage.samplesArray))
        = (specSubBlocks env.BlockSize buffer.numSamples).map
            (fun b => Call.samplesArray [0, 1] b.1) →
      Call.samplesArray [0, 1] 0 ∈ l := by
    intro l hl
    have h0 : Call.samplesArray [0, 1] 0
        ∈ l.filter (fun c => decide (c.stage = Stage.samplesArray)) := by
      rw [hl, hhead]
      simp
    exact (List.mem_filter.mp h0).1
  refine ⟨?_, ?_, ?_⟩
  · obtain ⟨pr1, out, _, h1, _⟩ := Processor.processBlock_spec env pr buffer hC hp
    have ha := Processor.processBlock_arrays env pr buffer hC pr1 out h1
    exact ⟨pr1, out, h1, ha, List.mem_of_mem_drop (hmem _ ha)⟩
  · rw [Processor.processBlockBypassed_eq env pr buffer hC]
    have ha : (((pr.calls ++
        ((specSubBlocks env.BlockSize buffer.numSamples).map fun b =>
          [Call.samplesArray [0, 1] b.1,
            Call.processBlockBypassed b.1 (if buffer.numChannels = 2 then 2 else 1)
              b.2]).flatten).drop pr.calls.length).filter
          (fun c => decide (c.stage = Stage.samplesArray)))
        = (specSubBlocks env.BlockSize buffer.numSamples).map
            (fun b => Call.samplesArray [0, 1] b.1) := by
      rw [List.drop_left, filter_flatten_map]
      induction specSubBlocks env.BlockSize buffer.numSamples with
      | nil => rfl
      | cons b l ih =>
        rw [List.map_cons, List.flatten_cons, List.map_cons, ih]
        simp [Call.stage]
    exact ⟨_, _, rfl, ha, List.mem_of_mem_drop (hmem _ ha)⟩
  · intro b hb
    rw [← subBlocksFrom_eq_spec _ _ hC] at hb
    obtain ⟨_, h2, _, h4⟩ := subBlocksFrom_mem env.BlockSize buffer.numSamples hC _ _ b hb
    exact ⟨by omega, h4⟩

/-- The instance of C33 at the example processor and the one-channel buffer of ten samples:
the channel array of the sub-block at offset `0` is built from the positions `0` and `1`,
and `1` is not below the channel count. -/
theorem Processor.channel_array_positions_witness :
    AudioBufferD.exampleMono.numChannels = 1 ∧
    (∃ pr1 out, Processor.example.processBlock Env.example AudioBufferD.exampleMono
        = some (pr1, out) ∧ Call.samplesArray [0, 1] 0 ∈ pr1.calls) ∧
    (∃ pr1 out, Processor.example.processBlockBypassed Env.example AudioBufferD.exampleMono
        = some (pr1, out) ∧ Call.samplesArray [0, 1] 0 ∈ pr1.calls) := by
  obtain ⟨⟨pr1, out, h1, _, h2⟩, ⟨pr2, out2, h3, _, h4⟩, _⟩ :=
    Processor.channel_array_positions Env.example Processor.example AudioBufferD.exampleMono
      (by decide) (by decide) (by decide)
  exact ⟨rfl, ⟨pr1, out, h1, h2⟩, ⟨pr2, out2, h3, h4⟩⟩

end audio

/-! ## Theorems: note names -/

namespace param

theorem stdRound_intCast (n : Int) (h : 0 ≤ n) : math.stdRound (n : ℚ) = n := by
  have hn : ¬ ((n : ℚ) < 0) := by
    push_neg
    exact_mod_cast h
  unfold math.stdRound
  rw [if_neg hn, Int.floor_eq_iff]
  constructor <;> linarith

theorem valToStr.note_intCast (n : Int) (h0 : 0 ≤ n) (h1 : n < 2147483648) :
    valToStr.note (n : ℚ)
      = some (math.pitchclassToString (Int.tmod n 12) ++ intToString (Int.tdiv n 12 - 1)) := by
  have hn : (n : ℚ) ≥ 0 := by exact_mod_cast h0
  unfold valToStr.note
  rw [if_pos hn, stdRound_intCast n h0, castToInt_intCast n (by omega) h1]

theorem strToVal.raiseOctaves_of_nonneg (fuel : Nat) (val : ℚ) (h : 0 ≤ val) :
    strToVal.raiseOctaves fuel val = some val := by
  rw [strToVal.raiseOctaves.eq_def]
  dsimp only
  rw [if_neg (not_lt.mpr h)]

theorem strToVal.noteLoop_natural (p : String → ℚ → ℚ) (c d : Char) (ds : List Char)
    (v val0 : ℚ) (fuel : Nat) (hc : strToVal.pitchclassOf c = some v) (hd1 : d ≠ '#')
    (hd2 : d ≠ 'b') :
    strToVal.noteLoop p (String.mk (c :: d :: ds)) (fuel + 3) 0
        strToVal.NoteState.Pitchclass val0
      = if p (String.mk (d :: ds)) (-1) = -1 then some 69
        else strToVal.raiseOctaves
          (Int.toNat (Int.ceil (-(v + 12 + p (String.mk (d :: ds)) (-1) * 12) / 12)))
          (v + 12 + p (String.mk (d :: ds)) (-1) * 12) := by
  have hlen : (String.mk (c :: d :: ds)).length = ds.length + 2 := rfl
  have h0 : ((0 : Int) < ((String.mk (c :: d :: ds)).length : Int)) := by
    rw [hlen]; push_cast; omega
  have h1 : ((0 : Int) + 1 < ((String.mk (c :: d :: ds)).length : Int)) := by
    rw [hlen]; push_cast; omega
  have h1b : ((0 : Int) + 1 - 1 + 1 < ((String.mk (c :: d :: ds)).length : Int)) := by
    rw [hlen]; push_cast; omega
  have c0 : charAt (String.mk (c :: d :: ds)) 0 = c := rfl
  have c1 : charAt (String.mk (c :: d :: ds)) (0 + 1) = d := rfl
  have s1 : substring (String.mk (c :: d :: ds)) (0 + 1 - 1 + 1) = String.mk (d :: ds) := rfl
  rw [strToVal.noteLoop.eq_def]
  dsimp only
  rw [if_pos h0]
  simp only [c0, hc]
  rw [strToVal.noteLoop.eq_def]
  dsimp only
  rw [if_pos h1]
  simp only [c1, if_neg hd1, if_neg hd2]
  rw [strToVal.noteLoop.eq_def]
  dsimp only
  rw [if_pos h1b]
  simp only [s1]

theorem strToVal.noteLoop_sharp (p : String → ℚ → ℚ) (c d : Char) (ds : List Char)
    (v val0 : ℚ) (fuel : Nat) (hc : strToVal.pitchclassOf c = some v) :
    strToVal.noteLoop p (String.mk (c :: '#' :: d :: ds)) (fuel + 3) 0
        strToVal.NoteState.Pitchclass val0
      = if p (String.mk (d :: ds)) (-1) = -1 then some 69
        else strToVal.raiseOctaves
          (Int.toNat (Int.ceil (-(v + 1 + 12 + p (String.mk (d :: ds)) (-1) * 12) / 12)))
          (v + 1 + 12 + p (String.mk (d :: ds)) (-1) * 12) := by
  have hlen : (String.mk (c :: '#' :: d :: ds)).length = ds.length + 3 := rfl
  have h0 : ((0 : Int) < ((String.mk (c :: '#' :: d :: ds)).length : Int)) := by
    rw [hlen]; push_cast; omega
  have h1 : ((0 : Int) + 1 < ((String.mk (c :: '#' :: d :: ds)).length : Int)) := by
    rw [hlen]; push_cast; omega
  have h2 : ((0 : Int) + 1 + 1 < ((String.mk (c :: '#' :: d :: ds)).length : Int)) := by
    rw [hlen]; push_cast; omega
  have c0 : charAt (String.mk (c :: '#' :: d :: ds)) 0 = c := rfl
  have c1 : charAt (String.mk (c :: '#' :: d :: ds)) (0 + 1) = '#' := rfl
  have s1 : substring (String.mk (c :: '#' :: d :: ds)) (0 + 1 + 1) = String.mk (d :: ds) :=
    rfl
  rw [strToVal.noteLoop.eq_def]
  dsimp only
  rw [if_pos h0]
  simp only [c0, hc]
  rw [strToVal.noteLoop.eq_def]
  dsimp only
  rw [if_pos h1]
  simp only [c1, if_true]
  rw [strToVal.noteLoop.eq_def]
  dsimp only
  rw [if_pos h2]
  simp only [s1]

theorem pitchclassToString_lower (k : Int) (h0 : 0 ≤ k) (h11 : k ≤ 11) :
    ∃ (c : Char) (v : ℚ), strToVal.pitchclassOf c = some v ∧ math.isLetter c = true ∧
      0 ≤ v ∧
      (((math.pitchclassToString k).data.map Char.toLower = [c] ∧ (k : ℚ) = v) ∨
        ((math.pitchclassToString k).data.map Char.toLower = [c, '#'] ∧ (k : ℚ) = v + 1)) := by
  interval_cases k
  · exact ⟨'c', 0, rfl, rfl, by norm_num, Or.inl ⟨rfl, by norm_num⟩⟩
  · exact ⟨'c', 0, rfl, rfl, by norm_num, Or.inr ⟨rfl, by norm_num⟩⟩
  · exact ⟨'d', 2, rfl, rfl, by norm_num, Or.inl ⟨rfl, by norm_num⟩⟩
  · exact ⟨'d', 2, rfl, rfl, by norm_num, Or.inr ⟨rfl, by norm_num⟩⟩
  · exact ⟨'e', 4, rfl, rfl, by norm_num, Or.inl ⟨rfl, by norm_num⟩⟩
  · exact ⟨'f', 5, rfl, rfl, by norm_num, Or.inl ⟨rfl, by norm_num⟩⟩
  · exact ⟨'f', 5, rfl, rfl, by norm_num, Or.inr ⟨rfl, by norm_num⟩⟩
  · exact ⟨'g', 7, rfl, rfl, by norm_num, Or.inl ⟨rfl, by norm_num⟩⟩
  · exact ⟨'g', 7, rfl, rfl, by norm_num, Or.inr ⟨rfl, by norm_num⟩⟩
  · exact ⟨'a', 9, rfl, rfl, by norm_num, Or.inl ⟨rfl, by norm_num⟩⟩
  · exact ⟨'a', 9, rfl, rfl, by norm_num, Or.inr ⟨rfl, by norm_num⟩⟩
  · exact ⟨'b', 11, rfl, rfl, by norm_num, Or.inl ⟨rfl, by norm_num⟩⟩

theorem intToString_digits (o : Int) (h0 : -1 ≤ o) (h9 : o ≤ 9) :
    ∃ (d : Char) (ds : List Char), (intToString o).data = d :: ds ∧ d ≠ '#' ∧ d ≠ 'b' ∧
      (d :: ds).map Char.toLower = d :: ds := by
  interval_cases o <;> exact ⟨_, _, rfl, by decide, by decide, rfl⟩

theorem strToVal.note_of_name (p : String → ℚ → ℚ)
    (hlet : ∀ (text : String) (altVal : ℚ) (c : Char) (cs : List Char),
      text.data = c :: cs → math.isLetter c = true → p text altVal = altVal)
    (hint : ∀ (k : Int) (altVal : ℚ), -1 ≤ k → k ≤ 9 → p (intToString k) altVal = (k : ℚ))
    (k o : Int) (hk0 : 0 ≤ k) (hk11 : k ≤ 11) (ho0 : -1 ≤ o) (ho9 : o ≤ 9) :
    strToVal.note p (math.pitchclassToString k ++ intToString o)
      = some (if o = -1 then 69 else (k : ℚ) + 12 + (o : ℚ) * 12) := by
  obtain ⟨c, v, hc, hlc, hv, hname⟩ := pitchclassToString_lower k hk0 hk11
  obtain ⟨d, ds, hdata, hd1, hd2, hlow⟩ := intToString_digits o ho0 ho9
  have htext : toLowerCase (math.pitchclassToString k ++ intToString o)
      = String.mk ((math.pitchclassToString k).data.map Char.toLower ++ d :: ds) := by
    unfold toLowerCase
    rw [String.data_append, List.map_append, hdata, hlow]
  have hstr : String.mk (d :: ds) = intToString o := by
    rw [← hdata]
  have hp : p (String.mk (d :: ds)) (-1) = (o : ℚ) := by
    rw [hstr]
    exact hint o (-1) ho0 ho9
  have hneg : ¬ ((-1 : ℚ) ≥ 0 ∧ (-1 : ℚ) < 128) := by norm_num
  have ho : ((o : ℚ) = -1) ↔ o = -1 := by
    constructor
    · intro h
      exact_mod_cast h
    · intro h
      rw [h]
      norm_num
  have hfin : ∀ w : ℚ, 0 ≤ w → (k : ℚ) = w →
      (if (o : ℚ) = -1 then some (69 : ℚ)
        else strToVal.raiseOctaves (Int.toNat (Int.ceil (-(w + 12 + (o : ℚ) * 12) / 12)))
          (w + 12 + (o : ℚ) * 12))
        = some (if o = -1 then 69 else (k : ℚ) + 12 + (o : ℚ) * 12) := by
    intro w hw hkw
    by_cases hm : o = -1
    · rw [if_pos (ho.mpr hm), if_pos hm]
    · rw [if_neg (fun h => hm (ho.mp h)), if_neg hm, hkw]
      apply strToVal.raiseOctaves_of_nonneg
      have ho1 : (0 : ℚ) ≤ (o : ℚ) := by
        have : 0 ≤ o := by omega
        exact_mod_cast this
      linarith
  unfold strToVal.note
  dsimp only
  rw [htext]
  rcases hname with ⟨hn, hkv⟩ | ⟨hn, hkv⟩
  · rw [hn]
    have htxt : ([c] ++ d :: ds) = c :: d :: ds := rfl
    rw [htxt, hlet (String.mk (c :: d :: ds)) (-1) c (d :: ds) rfl hlc, if_neg hneg]
    have hf : (String.mk (c :: d :: ds)).length + 1 = ds.length + 3 := rfl
    rw [hf, strToVal.noteLoop_natural p c d ds v (-1) ds.length hc hd1 hd2, hp]
    exact hfin v hv hkv
  · rw [hn]
    have htxt : ([c, '#'] ++ d :: ds) = c :: '#' :: d :: ds := rfl
    rw [htxt, hlet (String.mk (c :: '#' :: d :: ds)) (-1) c ('#' :: d :: ds) rfl hlc,
      if_neg hneg]
    have hf : (String.mk (c :: '#' :: d :: ds)).length + 1 = (ds.length + 1) + 3 := rfl
    rw [hf, strToVal.noteLoop_sharp p c d ds v (-1) (ds.length + 1) hc, hp]
    exact hfin (v + 1) (by linarith) hkv

theorem strToVal.parseDecimal_of_parseInt (txt : String) (altVal : ℚ) (k : Int)
    (h : strToVal.parseInt txt = some k) : strToVal.parseDecimal txt altVal = (k : ℚ) := by
  unfold strToVal.parseDecimal
  rw [h]

theorem strToVal.parseDecimal_letter (text : String) (altVal : ℚ) (c : Char)
    (cs : List Char) (h : text.data = c :: cs) (hc : math.isLetter c = true) :
    strToVal.parseDecimal text altVal = altVal := by
  have hnd : math.isDigit c = false := by
    simp only [math.isLetter, Bool.or_eq_true, Bool.and_eq_true, decide_eq_true_eq] at hc
    simp only [math.isDigit, Bool.and_eq_false_imp, decide_eq_true_eq, decide_eq_false_iff_not]
    intro _ h9
    rcases hc with ⟨h1, _⟩ | ⟨h1, _⟩
    · exact absurd (le_trans h1 h9) (by decide)
    · exact absurd (le_trans h1 h9) (by decide)
  have hm : c ≠ '-' := by
    intro he
    rw [he] at hc
    exact absurd hc (by decide)
  have hpl : c ≠ '+' := by
    intro he
    rw [he] at hc
    exact absurd hc (by decide)
  have hnone : strToVal.parseInt text = none := by
    unfold strToVal.parseInt
    rw [h]
    simp only [if_neg hm, if_neg hpl, List.all_cons, hnd, Bool.false_and]
    rfl
  unfold strToVal.parseDecimal
  rw [hnone]

theorem strToVal.parseDecimal_int (k : Int) (altVal : ℚ) (h0 : -1 ≤ k) (h9 : k ≤ 9) :
    strToVal.parseDecimal (intToString k) altVal = (k : ℚ) := by
  interval_cases k <;> exact strToVal.parseDecimal_of_parseInt _ _ _ (by decide)

/-- C36: with a numeric sub-parser that returns the alternate value for every text starting
with a letter and reads the decimal integers from `-1` to `9`, for every integer note `n`
with `0 ≤ n ≤ 127` the text `valToStr::note` produces for `n` is parsed by `strToVal::note`
to `n` when `n ≥ 12`, and to `69` when `n ≤ 11`: the octave of these notes is written `-1`,
and the value `-1` of the octave is what the parser takes as the sign of a failed parse. -/
theorem strToVal.note_roundtrip (p : String → ℚ → ℚ)
    (hlet : ∀ (text : String) (altVal : ℚ) (c : Char) (cs : List Char),
      text.data = c :: cs → math.isLetter c = true → p text altVal = altVal)
    (hint : ∀ (k : Int) (altVal : ℚ), -1 ≤ k → k ≤ 9 → p (intToString k) altVal = (k : ℚ))
    (n : Int) (h0 : 0 ≤ n) (h127 : n ≤ 127) :
    ∃ text, valToStr.note (n : ℚ) = some text ∧
      strToVal.note p text = some (if n < 12 then 69 else (n : ℚ)) := by
  have hd : Int.tdiv n 12 = n / 12 := Int.tdiv_eq_ediv h0 (by norm_num)
  have hm : Int.tmod n 12 = n % 12 := Int.tmod_eq_emod h0 (by norm_num)
  refine ⟨_, valToStr.note_intCast n h0 (by omega), ?_⟩
  rw [strToVal.note_of_name p hlet hint (Int.tmod n 12) (Int.tdiv n 12 - 1)
    (by omega) (by omega) (by omega) (by omega)]
  congr 1
  by_cases h12 : n < 12
  · rw [if_pos h12, if_pos (by omega)]
  · rw [if_neg h12, if_neg (by omega)]
    have hn : n = Int.tmod n 12 + 12 + (Int.tdiv n 12 - 1) * 12 := by omega
    have hq : (n : ℚ) = ((Int.tmod n 12 + 12 + (Int.tdiv n 12 - 1) * 12 : Int) : ℚ) := by
      rw [← hn]
    rw [hq]
    push_cast
    ring

/-- The instance of C36 at the note `0` and the decimal sub-parser of the examples: the text
produced is `C-1`, and it is parsed to `69`. -/
theorem strToVal.note_roundtrip_witness :
    valToStr.note 0 = some "C-1" ∧
      strToVal.note strToVal.parseDecimal "C-1" = some 69 := by
  obtain ⟨text, h1, h2⟩ := strToVal.note_roundtrip strToVal.parseDecimal
    strToVal.parseDecimal_letter strToVal.parseDecimal_int 0 (by norm_num) (by norm_num)
  have h3 := valToStr.note_intCast 0 (by norm_num) (by norm_num)
  rw [h3] at h1
  have h4 : text = "C-1" := by
    rw [← Option.some.inj h1]
    decide
  rw [h4] at h2
  refine ⟨?_, ?_⟩
  · have h5 : ((0 : Int) : ℚ) = 0 := by norm_num
    rw [← h5, h3]
    decide
  · rw [h2]
    norm_num

end param

/-! ## Theorems: binary32 -/

namespace param

theorem ParamF32.BiasEps_eq : ParamF32.BiasEps = F32.finite (8796093 / 8796093022208) := by
  decide!

theorem ParamF32.one_sub_BiasEps :
    F32.sub (F32.finite 1) ParamF32.BiasEps = F32.finite (16777199 / 16777216) := by
  decide!

theorem jlimitF32_finite_bounds (lo hi : ℚ) (hlh : lo ≤ hi) (v : F32) (hv : v ≠ F32.nan) :
    F32.le (F32.finite lo) (jlimitF32 (F32.finite lo) (F32.finite hi) v) = true ∧
      F32.le (jlimitF32 (F32.finite lo) (F32.finite hi) v) (F32.finite hi) = true := by
  cases v with
  | finite x =>
    unfold jlimitF32
    by_cases h1 : x < lo
    · simp [F32.lt, F32.le, h1, hlh]
    · by_cases h2 : hi < x
      · simp [F32.lt, F32.le, h1, h2, hlh]
      · simp [F32.lt, F32.le, h1, h2, not_lt.mp h1, not_lt.mp h2]
  | inf negative =>
    cases negative <;> simp [jlimitF32, F32.lt, F32.le, hlh]
  | nan => exact absurd rfl hv

/-- C5: in binary32 the clamp of `setMaxModDepth` and `setModBias` hands a NaN argument back
(both comparisons of `juce::jlimit` are false), so after `setMaxModDepth (NaN)` the stored
maximum modulation depth is NaN and after `setModBias (NaN)` the stored bias is NaN; with
depth-lock on, `setValue (+inf)` called twice computes `d1 = -1 - inf + inf`, which is NaN,
and stores it as the depth. A NaN lies in no interval, so the stored depth is not in
`[-1, 1]` and the stored bias not in `[eps, 1 - eps]`. For every argument other than NaN
the value a single call of `setMaxModDepth` or of `setModBias` stores does lie in the
interval. -/
theorem ParamF32.depth_bias_nan :
    ((ParamF32.ctor (F32.finite 0)).setMaxModDepth F32.nan).maxModDepth = F32.nan ∧
    ((ParamF32.ctor (F32.finite 0)).setModBias F32.nan).modBias = F32.nan ∧
    ((((ParamF32.ctor (F32.finite 0)).setModDepthLocked true).setValue
      (F32.inf false)).setValue (F32.inf false)).maxModDepth = F32.nan ∧
    (∀ x : F32, F32.le x F32.nan = false ∧ F32.le F32.nan x = false) ∧
    (∀ (p : ParamF32) (v : F32), p.locked = false → v ≠ F32.nan →
      F32.le (F32.finite (-1)) (p.setMaxModDepth v).maxModDepth = true ∧
        F32.le (p.setMaxModDepth v).maxModDepth (F32.finite 1) = true) ∧
    (∀ (p : ParamF32) (b : F32), p.locked = false → b ≠ F32.nan →
      F32.le ParamF32.BiasEps (p.setModBias b).modBias = true ∧
        F32.le (p.setModBias b).modBias (F32.sub (F32.finite 1) ParamF32.BiasEps) = true) := by
  refine ⟨by decide!, by decide!, by decide!, ?_, ?_, ?_⟩
  · intro x
    cases x <;> exact ⟨rfl, rfl⟩
  · intro p v hl hv
    simp only [ParamF32.setMaxModDepth, hl, Bool.false_eq_true, if_false]
    exact jlimitF32_finite_bounds (-1) 1 (by norm_num) v hv
  · intro p b hl hb
    simp only [ParamF32.setModBias, hl, Bool.false_eq_true, if_false]
    rw [ParamF32.BiasEps_eq, ← ParamF32.BiasEps_eq, ParamF32.one_sub_BiasEps,
      ParamF32.BiasEps_eq]
    exact jlimitF32_finite_bounds _ _ (by norm_num) b hb

/-- C31: in binary32 the modulation curve misses its upper endpoint. For the state with base
value `0.25`, maximum modulation depth `0.5` and bias `eps` (reached by `setMaxModDepth (0.5)`
and `setModBias (0)`), `calcValModOf (0)` is the base value `0.25`, but `calcValModOf (1)` is
`12695803 / 2 ^ 24`, about `0.75673`, and not `clamp01 (0.25 + 0.5) = 0.75`: the rounded
denominator `(1 - b) - 1 + 2 b` is `4339645 / 2 ^ 42`, not the bias `8796093 / 2 ^ 43`. Over
exact numbers the same state gives `0.75`. -/
theorem ParamF32.calcValModOf_endpoint_missed :
    ParamF32.example =
      { valNorm := F32.finite (1 / 4), maxModDepth := F32.finite (1 / 2),
        modBias := ParamF32.BiasEps, locked := false, modDepthLocked := false } ∧
    ParamF32.BiasEps = F32.finite (8796093 / 2 ^ 43) ∧
    ParamF32.example.calcValModOf (F32.finite 0) = F32.finite (1 / 4) ∧
    ParamF32.example.calcValModOf (F32.finite 1) = F32.finite (12695803 / 2 ^ 24) ∧
    jlimitF32 (F32.finite 0) (F32.finite 1)
      (F32.add ParamF32.example.valNorm ParamF32.example.maxModDepth) = F32.finite (3 / 4) ∧
    F32.add (F32.sub (F32.sub (F32.finite 1) ParamF32.BiasEps) (F32.finite 1))
      (F32.mul (F32.mul (F32.finite 2) ParamF32.BiasEps) (F32.finite 1))
      = F32.finite (4339645 / 2 ^ 42) ∧
    Param.calcValModOf
      { Param.example with valNorm := 1 / 4, maxModDepth := 1 / 2,
                           modBias := 8796093 / 2 ^ 43 } 1 = 3 / 4 := by
  refine ⟨by decide!, by decide!, by decide!, by decide!, by decide!, by decide!, ?_⟩
  norm_num [Param.calcValModOf, Param.biased, Param.getValue, jlimit]

/-- C32: in binary32 the modulated value leaves the interval between the clamped base value
and the clamped sum of base value and maximum modulation depth. With bias `eps` and macro
input `1`, base value `0.25` and depth `0.5` give `12695803 / 2 ^ 24`, about `0.75673`, which
is above `clamp01 (0.25 + 0.5) = 0.75`; base value `0.75` and depth `-0.5` give
`4081413 / 2 ^ 24`, about `0.24327`, which is below `clamp01 (0.75 - 0.5) = 0.25`. -/
theorem ParamF32.calcValModOf_out_of_bounds :
    ParamF32.example.calcValModOf (F32.finite 1) = F32.finite (12695803 / 2 ^ 24) ∧
    jlimitF32 (F32.finite 0) (F32.finite 1)
      (F32.add ParamF32.example.valNorm ParamF32.example.maxModDepth) = F32.finite (3 / 4) ∧
    F32.lt (jlimitF32 (F32.finite 0) (F32.finite 1)
        (F32.add ParamF32.example.valNorm ParamF32.example.maxModDepth))
      (ParamF32.example.calcValModOf (F32.finite 1)) = true ∧
    ParamF32.exampleNeg =
      { valNorm := F32.finite (3 / 4), maxModDepth := F32.finite (-1 / 2),
        modBias := ParamF32.BiasEps, locked := false, modDepthLocked := false } ∧
    ParamF32.exampleNeg.calcValModOf (F32.finite 1) = F32.finite (4081413 / 2 ^ 24) ∧
    jlimitF32 (F32.finite 0) (F32.finite 1)
      (F32.add ParamF32.exampleNeg.valNorm ParamF32.exampleNeg.maxModDepth)
      = F32.finite (1 / 4) ∧
    F32.lt (ParamF32.exampleNeg.calcValModOf (F32.finite 1))
      (jlimitF32 (F32.finite 0) (F32.finite 1)
        (F32.add ParamF32.exampleNeg.valNorm ParamF32.exampleNeg.maxModDepth)) = true := by
  refine ⟨by decide!, by decide!, by decide!, by decide!, by decide!, by decide!, by decide!⟩

end param
